import Mathlib

/-!
# Rate limiter: a shallow embedding of `internal/storage`, `internal/ratelimiter`,
`internal/middleware` and the token policies of `internal/config`

The Go program is embedded as pure state-passing functions.

* `time.Time` and `time.Duration` are integers counting nanoseconds.  Every
  `time.Now()` is an explicit argument `now`; one store operation, and one
  `CheckLimit` call, is evaluated at one clock reading.
* `int64` counters are integers; the two arithmetic operations the code performs
  on them (`m.data[key] + 1` and `config.Limit - count`) wrap modulo `2^64`
  as Go's `int64` does, and `time.Until` saturates as `Time.Sub` does.
* A Go map is a function from keys to optional values.
* A store operation returns its result (a value or an error) together with the
  store state that follows it.
* The body of `MockStorage.Increment` is also given statement by statement
  (`IncrementCall.step`), so that two calls can be interleaved.
* An HTTP response writer is a record of its headers, its status and what was written
  to it; the middleware returns the writer, whether it invoked the wrapped handler,
  and the store state.  `net.SplitHostPort` is a parameter.
* In `internal/config` a Go string is the sequence of its bytes, and a `range` loop over
  it decodes UTF-8 as the language does: an ill-formed sequence is read as U+FFFD and
  takes one byte.  The environment, and the library functions that parse its values, are
  parameters.
-/

/-! ## Machine integers and time -/

/-- The smallest `int64`. -/
def minInt64 : Int := -9223372036854775808

/-- The largest `int64`. -/
def maxInt64 : Int := 9223372036854775807

/-- The predicate that an integer is a value of Go's `int64`. -/
def isInt64 (x : Int) : Prop := minInt64 ≤ x ∧ x ≤ maxInt64

instance (x : Int) : Decidable (isInt64 x) := by
  unfold isInt64; exact inferInstance

/-- Two's-complement wrap-around of an integer into the `int64` range, the result
of an `int64` addition or subtraction in Go. -/
def wrapInt64 (x : Int) : Int :=
  (x + 9223372036854775808) % 18446744073709551616 - 9223372036854775808

/-- Saturation into the `int64` range, as `Time.Sub` does for a `Duration`. -/
def satInt64 (x : Int) : Int :=
  if x < minInt64 then minInt64 else if maxInt64 < x then maxInt64 else x

/-- A clock reading (`time.Time`), in nanoseconds. -/
abbrev Time := Int

/-- A span of time (`time.Duration`), in nanoseconds. -/
abbrev Duration := Int

/-- Go's `t.Add(d)`. -/
def Time.Add (t : Time) (d : Duration) : Time := t + d

/-- Go's `time.Until(t)`, read at `now`: `t.Sub(now)`, saturating. -/
def timeUntil (now : Time) (t : Time) : Duration := satInt64 (t - now)

/-- Go's `t.Before(u)`. -/
def Time.Before (t u : Time) : Bool := decide (t < u)

/-! ## Go maps -/

/-- A Go `map[string]V`: absent keys are `none`. -/
abbrev GoMap (V : Type) := String → Option V

/-- The empty map, `make(map[string]V)`. -/
def GoMap.empty {V : Type} : GoMap V := fun _ => none

/-- The assignment `m[key] = v`. -/
def GoMap.insert {V : Type} (m : GoMap V) (key : String) (v : V) : GoMap V :=
  fun k => if k = key then some v else m k

/-- The statement `delete(m, key)`. -/
def GoMap.delete {V : Type} (m : GoMap V) (key : String) : GoMap V :=
  fun k => if k = key then none else m k

namespace storage

/-! ## `internal/storage/interface.go` -/

/-- The `Storage` interface over a store state `σ` with errors `ε`: each method
returns its Go result pair (value, or error) and the state the store is left in.
`Close` is not used by the decision engine and is left out. -/
structure Storage (σ : Type) (ε : Type) where
  /-- Go: `Get(ctx, key)`. -/
  Get : String → σ → Except ε Int × σ
  /-- Go: `Increment(ctx, key, expiration)`. -/
  Increment : String → Duration → σ → Except ε Int × σ
  /-- Go: `Set(ctx, key, count, expiration)`. -/
  Set : String → Int → Duration → σ → Except ε Unit × σ
  /-- Go: `TTL(ctx, key)`. -/
  TTL : String → σ → Except ε Duration × σ

/-! ## `internal/storage/mock.go` -/

/-- The in-process store: the two maps of `MockStorage`. -/
structure MockStorage where
  /-- Go: `data map[string]int64`. -/
  data : GoMap Int
  /-- Go: `ttl map[string]time.Time`. -/
  ttl : GoMap Time

/-- Go: `NewMockStorage()`. -/
def NewMockStorage : MockStorage := ⟨GoMap.empty, GoMap.empty⟩

/-- The two statements `delete(m.data, key); delete(m.ttl, key)`. -/
def MockStorage.deleteKey (m : MockStorage) (key : String) : MockStorage :=
  ⟨m.data.delete key, m.ttl.delete key⟩

/-- Go: `MockStorage.Get`, at clock reading `now`. -/
def MockStorage.Get (m : MockStorage) (now : Time) (key : String) : Int × MockStorage :=
  match m.ttl key with
  | some expiry =>
    if !(Time.Before now expiry) then (0, m.deleteKey key)
    else
      match m.data key with
      | some val => (val, m)
      | none => (0, m)
  | none =>
    match m.data key with
    | some val => (val, m)
    | none => (0, m)

/-- Go: `MockStorage.Increment`, at clock reading `now`. -/
def MockStorage.Increment (m : MockStorage) (now : Time) (key : String)
    (expiration : Duration) : Int × MockStorage :=
  let m1 : MockStorage :=
    match m.ttl key with
    | some expiry => if !(Time.Before now expiry) then m.deleteKey key else m
    | none => m
  let val : Int := wrapInt64 ((m1.data key).getD 0 + 1)
  let m2 : MockStorage := ⟨m1.data.insert key val, m1.ttl⟩
  let m3 : MockStorage :=
    match m2.ttl key with
    | some _ => m2
    | none => ⟨m2.data, m2.ttl.insert key (Time.Add now expiration)⟩
  (val, m3)

/-- Go: `MockStorage.Set`, at clock reading `now`. -/
def MockStorage.Set (m : MockStorage) (now : Time) (key : String) (count : Int)
    (expiration : Duration) : MockStorage :=
  ⟨m.data.insert key count, m.ttl.insert key (Time.Add now expiration)⟩

/-- Go: `MockStorage.TTL`, at clock reading `now`. -/
def MockStorage.TTL (m : MockStorage) (now : Time) (key : String) : Duration × MockStorage :=
  match m.ttl key with
  | some expiry =>
    let remaining := timeUntil now expiry
    if remaining ≤ 0 then (0, m.deleteKey key) else (remaining, m)
  | none => (0, m)

/-- The in-process store as a `Storage`, read at clock reading `now`; every method
returns a `nil` error. -/
def mockStorage (ε : Type) (now : Time) : Storage MockStorage ε where
  Get := fun key m => ((Except.ok (m.Get now key).1), (m.Get now key).2)
  Increment := fun key d m => (Except.ok (m.Increment now key d).1, (m.Increment now key d).2)
  Set := fun key v d m => (Except.ok (), m.Set now key v d)
  TTL := fun key m => (Except.ok (m.TTL now key).1, (m.TTL now key).2)

end storage

namespace ratelimiter

open storage

/-! ## `internal/ratelimiter/ratelimiter.go` -/

/-- The `LimitType` constants `IPLimit = "ip"` and `TokenLimit = "token"`. -/
inductive LimitType where
  | IPLimit
  | TokenLimit
  deriving DecidableEq, Repr

/-- The string a `LimitType` constant stands for. -/
def LimitType.toString : LimitType → String
  | .IPLimit => "ip"
  | .TokenLimit => "token"

/-- The policy `Config`. -/
structure Config where
  /-- Go: `Limit int64`. -/
  Limit : Int
  /-- Go: `Window time.Duration`. -/
  Window : Duration
  /-- Go: `BlockTime time.Duration`. -/
  BlockTime : Duration
  deriving DecidableEq, Repr

/-- The fields of `RateLimiter` other than the store, which is passed explicitly. -/
structure RateLimiter where
  /-- Go: `ipConfig Config`. -/
  ipConfig : Config
  /-- Go: `tokenConfigs map[string]Config`. -/
  tokenConfigs : GoMap Config

/-- Go: `NewRateLimiter(storage, ipConfig)`. -/
def NewRateLimiter (ipConfig : Config) : RateLimiter := ⟨ipConfig, GoMap.empty⟩

/-- Go: `RateLimiter.SetTokenConfig`. -/
def RateLimiter.SetTokenConfig (rl : RateLimiter) (token : String) (config : Config) :
    RateLimiter :=
  ⟨rl.ipConfig, rl.tokenConfigs.insert token config⟩

/-- The decision `CheckResult`. -/
structure CheckResult where
  /-- Go: `Allowed bool`. -/
  Allowed : Bool
  /-- Go: `Remaining int64`. -/
  Remaining : Int
  /-- Go: `ResetTime time.Time`. -/
  ResetTime : Time
  /-- Go: `LimitType LimitType`. -/
  LimitType : LimitType
  /-- Go: `Limit int64`. -/
  Limit : Int
  deriving DecidableEq, Repr

/-- The errors `checkLimitForKey` returns: the store's error wrapped by the
message of the step that failed. -/
inductive CheckError (ε : Type) where
  /-- Message "failed to check blocked status: %w". -/
  | checkBlocked (e : ε)
  /-- Message "failed to get block TTL: %w". -/
  | blockTTL (e : ε)
  /-- Message "failed to increment counter: %w". -/
  | incrementCounter (e : ε)
  /-- Message "failed to set block: %w". -/
  | setBlock (e : ε)
  /-- Message "failed to get TTL: %w". -/
  | getTTL (e : ε)
  deriving DecidableEq, Repr

/-- Go: `RateLimiter.checkLimitForKey` over the store `st`, with `time.Now()` reading
`now`; the second component is the store state after the call. -/
def checkLimitForKey {σ ε : Type} (st : Storage σ ε) (now : Time) (key : String)
    (config : Config) (limitType : LimitType) (s : σ) :
    Except (CheckError ε) CheckResult × σ :=
  let blockedKey := "blocked:" ++ key
  match st.Get blockedKey s with
  | (Except.error err, s1) => (Except.error (CheckError.checkBlocked err), s1)
  | (Except.ok blocked, s1) =>
    if blocked > 0 then
      match st.TTL blockedKey s1 with
      | (Except.error err, s2) => (Except.error (CheckError.blockTTL err), s2)
      | (Except.ok ttl, s2) =>
        (Except.ok ⟨false, 0, Time.Add now ttl, limitType, config.Limit⟩, s2)
    else
      match st.Increment key config.Window s1 with
      | (Except.error err, s2) => (Except.error (CheckError.incrementCounter err), s2)
      | (Except.ok count, s2) =>
        if count > config.Limit then
          match st.Set blockedKey 1 config.BlockTime s2 with
          | (Except.error err, s3) => (Except.error (CheckError.setBlock err), s3)
          | (Except.ok _, s3) =>
            (Except.ok ⟨false, 0, Time.Add now config.BlockTime, limitType, config.Limit⟩, s3)
        else
          match st.TTL key s2 with
          | (Except.error err, s3) => (Except.error (CheckError.getTTL err), s3)
          | (Except.ok ttl, s3) =>
            let remaining := wrapInt64 (config.Limit - count)
            let remaining := if remaining < 0 then 0 else remaining
            (Except.ok ⟨true, remaining, Time.Add now ttl, limitType, config.Limit⟩, s3)

/-- Go: `RateLimiter.CheckLimit` over the store `st`, with `time.Now()` reading `now`. -/
def CheckLimit {σ ε : Type} (rl : RateLimiter) (st : Storage σ ε) (now : Time)
    (ip : String) (token : String) (s : σ) : Except (CheckError ε) CheckResult × σ :=
  if token ≠ "" then
    match rl.tokenConfigs token with
    | some config => checkLimitForKey st now ("token:" ++ token) config LimitType.TokenLimit s
    | none => checkLimitForKey st now ("ip:" ++ ip) rl.ipConfig LimitType.IPLimit s
  else
    checkLimitForKey st now ("ip:" ++ ip) rl.ipConfig LimitType.IPLimit s

/-! ## Vocabulary of the properties -/

/-- The key `CheckLimit` hands to `checkLimitForKey`: `token:<token>` when the token
is non-empty and has a registered policy, `ip:<ip>` otherwise. -/
def subjectKey (rl : RateLimiter) (ip : String) (token : String) : String :=
  if token ≠ "" then
    match rl.tokenConfigs token with
    | some _ => "token:" ++ token
    | none => "ip:" ++ ip
  else "ip:" ++ ip

/-- The policy `CheckLimit` hands to `checkLimitForKey`. -/
def subjectConfig (rl : RateLimiter) (token : String) : Config :=
  if token ≠ "" then
    match rl.tokenConfigs token with
    | some config => config
    | none => rl.ipConfig
  else rl.ipConfig

/-- The limit kind `CheckLimit` hands to `checkLimitForKey`. -/
def subjectKind (rl : RateLimiter) (token : String) : LimitType :=
  if token ≠ "" then
    match rl.tokenConfigs token with
    | some _ => LimitType.TokenLimit
    | none => LimitType.IPLimit
  else LimitType.IPLimit

/-- One request reaching `CheckLimit`: the caller's IP, its token, and the clock
reading at which the call is made. -/
structure Call where
  /-- The argument `ip`. -/
  ip : String
  /-- The argument `token`. -/
  token : String
  /-- The reading of `time.Now()` during the call. -/
  now : Time

/-- A sequence of `CheckLimit` calls on one limiter over the in-process store, each
made on the store the previous one left: the results in order, and the final store. -/
def runCalls (ε : Type) (rl : RateLimiter) :
    List Call → MockStorage → List (Except (CheckError ε) CheckResult) × MockStorage
  | [], s => ([], s)
  | c :: cs, s =>
    let r := CheckLimit rl (mockStorage ε c.now) c.now c.ip c.token s
    let rest := runCalls ε rl cs r.2
    (r.1 :: rest.1, rest.2)

/-- The results, in order, of the calls of `cs` made for the subject key `k`. -/
def resultsFor {α : Type} (rl : RateLimiter) (k : String) : List Call → List α → List α
  | c :: cs, r :: rs =>
    if subjectKey rl c.ip c.token = k then r :: resultsFor rl k cs rs
    else resultsFor rl k cs rs
  | _, _ => []

/-- The calls of `cs` made for the subject key `k`. -/
def callsFor (rl : RateLimiter) (k : String) (cs : List Call) : List Call :=
  cs.filter (fun c => decide (subjectKey rl c.ip c.token = k))

/-- The subject `k` has neither a counter record nor a block record in the store. -/
def freshSubject (s : MockStorage) (k : String) : Prop :=
  s.data k = none ∧ s.ttl k = none ∧
    s.data ("blocked:" ++ k) = none ∧ s.ttl ("blocked:" ++ k) = none

/-- The subject `k` has a counter record holding the count `n` and the expiry `e`,
and no block record. -/
def windowOpen (s : MockStorage) (k : String) (n : Int) (e : Time) : Prop :=
  s.data k = some n ∧ s.ttl k = some e ∧
    s.data ("blocked:" ++ k) = none ∧ s.ttl ("blocked:" ++ k) = none

/-- The subject `k` has a block record holding `1` with the expiry `e`. -/
def blockedUntil (s : MockStorage) (k : String) (e : Time) : Prop :=
  s.data ("blocked:" ++ k) = some 1 ∧ s.ttl ("blocked:" ++ k) = some e

/-- The allowed decisions of a run of calls at the readings `ts` inside a window that
ends at `e`, under the limit `L`, when `n` calls were counted before the run. -/
def openWindowResults (ε : Type) (L : Int) (limitType : LimitType) (e : Time) :
    Int → List Time → List (Except (CheckError ε) CheckResult)
  | _, [] => []
  | n, t :: ts =>
    Except.ok ⟨true, L - (n + 1), Time.Add t (timeUntil t e), limitType, L⟩
      :: openWindowResults ε L limitType e (n + 1) ts

/-- The policy of the repository's tests: limit 3, window `time.Second`, block time
`time.Minute`. -/
def testConfig : Config := ⟨3, 1000000000, 60000000000⟩

/-- The limiter of `TestRateLimiter_IPLimiting`: `NewRateLimiter(mockStorage, config)`. -/
def testLimiter : RateLimiter := NewRateLimiter testConfig

/-- The in-process store of `TestRateLimiter_IPLimiting` after the three allowed calls of
`192.168.1.1`, made at the readings 0, 1 and 2 ns. -/
def storeAtLimit : MockStorage :=
  (runCalls Unit testLimiter
    [⟨"192.168.1.1", "", 0⟩, ⟨"192.168.1.1", "", 1⟩, ⟨"192.168.1.1", "", 2⟩] NewMockStorage).2

/-- The store of `storeAtLimit` after the fourth call of `192.168.1.1`, made at 3 ns. -/
def storeBlocked : MockStorage :=
  (CheckLimit testLimiter (mockStorage Unit 3) 3 "192.168.1.1" "" storeAtLimit).2

end ratelimiter

namespace storage

/-- Two in-process stores hold the same record (count and expiry) under the key `x`. -/
def agreeAt (s s' : MockStorage) (x : String) : Prop :=
  s.data x = s'.data x ∧ s.ttl x = s'.ttl x

/-- A store method call, as the decision engine issues it. -/
inductive StoreOp where
  | Get (key : String)
  | Increment (key : String) (expiration : Duration)
  | Set (key : String) (count : Int) (expiration : Duration)
  | TTL (key : String)
  deriving DecidableEq, Repr

/-- One entry of a call log: the method called and whether it returned an error. -/
structure Event where
  /-- The method and its arguments. -/
  op : StoreOp
  /-- Whether the call returned a non-nil error. -/
  failed : Bool
  deriving DecidableEq, Repr

/-- Whether a Go result pair carries an error. -/
def isError {ε α : Type} : Except ε α → Bool
  | Except.error _ => true
  | Except.ok _ => false

/-- Any store, instrumented with a log: every method behaves as in `st` and appends
the call and its outcome to the log. -/
def traced {σ ε : Type} (st : Storage σ ε) : Storage (σ × List Event) ε where
  Get := fun key s =>
    ((st.Get key s.1).1, ((st.Get key s.1).2, s.2 ++ [⟨StoreOp.Get key, isError (st.Get key s.1).1⟩]))
  Increment := fun key d s =>
    ((st.Increment key d s.1).1,
      ((st.Increment key d s.1).2,
        s.2 ++ [⟨StoreOp.Increment key d, isError (st.Increment key d s.1).1⟩]))
  Set := fun key v d s =>
    ((st.Set key v d s.1).1,
      ((st.Set key v d s.1).2, s.2 ++ [⟨StoreOp.Set key v d, isError (st.Set key v d s.1).1⟩]))
  TTL := fun key s =>
    ((st.TTL key s.1).1, ((st.TTL key s.1).2, s.2 ++ [⟨StoreOp.TTL key, isError (st.TTL key s.1).1⟩]))

end storage

namespace ratelimiter

open storage

/-- The store calls one `CheckLimit` call issues on the store `st`, in order, each with
its outcome: the log the instrumented store has gathered when the call returns. -/
def CheckLimitLog {σ ε : Type} (rl : RateLimiter) (st : Storage σ ε) (now : Time)
    (ip : String) (token : String) (s : σ) : List Event :=
  (CheckLimit rl (traced st) now ip token (s, [])).2.2

end ratelimiter

namespace storage

/-! ## Sequences of calls on the in-process store -/

/-- The key a store call addresses. -/
def StoreOp.key : StoreOp → String
  | StoreOp.Get key => key
  | StoreOp.Increment key _ => key
  | StoreOp.Set key _ _ => key
  | StoreOp.TTL key => key

/-- Whether a store call is a read: a `Get` or a `TTL`. -/
def StoreOp.isRead : StoreOp → Bool
  | StoreOp.Get _ => true
  | StoreOp.TTL _ => true
  | _ => false

/-- Whether a store call is a `Set` of `key`. -/
def StoreOp.isSetOf (key : String) : StoreOp → Bool
  | StoreOp.Set k _ _ => decide (k = key)
  | _ => false

/-- Whether a store call is an `Increment` of `key`. -/
def StoreOp.isIncrementOf (key : String) : StoreOp → Bool
  | StoreOp.Increment k _ => decide (k = key)
  | _ => false

/-- One method call on the in-process store at the reading `now`: what it returns (the
count of a `Get`, the new count of an `Increment`, the remaining time of a `TTL`, and 0
for a `Set`, which returns no value) and the store it leaves. -/
def applyOp (m : MockStorage) (now : Time) : StoreOp → Int × MockStorage
  | StoreOp.Get key => m.Get now key
  | StoreOp.Increment key expiration => m.Increment now key expiration
  | StoreOp.Set key count expiration => (0, m.Set now key count expiration)
  | StoreOp.TTL key => m.TTL now key

/-- A sequence of method calls, each with its clock reading, made one after the other:
the values returned, in order, and the final store. -/
def runOps : List (Time × StoreOp) → MockStorage → List Int × MockStorage
  | [], m => ([], m)
  | o :: os, m =>
    let r := applyOp m o.1 o.2
    let rest := runOps os r.2
    (r.1 :: rest.1, rest.2)

/-- The store `m'` is `m` up to entries of `m` that had expired by the reading `t` and
are absent from `m'`. -/
def sameUpToExpired (t : Time) (m m' : MockStorage) : Prop :=
  ∀ x : String, agreeAt m m' x ∨
    (∃ e : Time, m.ttl x = some e ∧ e ≤ t ∧ m'.data x = none ∧ m'.ttl x = none)

end storage

namespace storage

/-! ## The statements of `MockStorage.Increment`, one at a time -/

/-- A call of `MockStorage.Increment` in progress: its arguments and clock reading, the
number of its statements executed so far, and its local variable `val`. The body has four
statements and no lock is taken around them. -/
structure IncrementCall where
  /-- The reading of `time.Now()` in this call. -/
  now : Time
  /-- The argument `key`. -/
  key : String
  /-- The argument `expiration`. -/
  expiration : Duration
  /-- The number of statements executed: 4 when the call has returned. -/
  pc : Nat
  /-- The local variable `val`, 0 until it is assigned. -/
  val : Int

/-- A call of `Increment` about to execute its first statement. -/
def IncrementCall.start (now : Time) (key : String) (expiration : Duration) : IncrementCall :=
  ⟨now, key, expiration, 0, 0⟩

/-- The next statement of a call of `Increment`, executed on the shared store: the `if`
that deletes an expired entry, `val := m.data[key] + 1`, `m.data[key] = val`, the `if` that
sets the expiry when there is none; after these the call returns `val`. -/
def IncrementCall.step (c : IncrementCall) (m : MockStorage) : IncrementCall × MockStorage :=
  match c.pc with
  | 0 =>
    (⟨c.now, c.key, c.expiration, 1, c.val⟩,
      match m.ttl c.key with
      | some expiry => if !(Time.Before c.now expiry) then m.deleteKey c.key else m
      | none => m)
  | 1 => (⟨c.now, c.key, c.expiration, 2, wrapInt64 ((m.data c.key).getD 0 + 1)⟩, m)
  | 2 => (⟨c.now, c.key, c.expiration, 3, c.val⟩, ⟨m.data.insert c.key c.val, m.ttl⟩)
  | 3 =>
    (⟨c.now, c.key, c.expiration, 4, c.val⟩,
      match m.ttl c.key with
      | some _ => m
      | none => ⟨m.data, m.ttl.insert c.key (Time.Add c.now c.expiration)⟩)
  | _ => (c, m)

/-- Two calls of `Increment` on one store under a schedule: at each entry the first call
(`false`) or the second (`true`) executes its next statement. -/
def interleave :
    List Bool → IncrementCall × IncrementCall × MockStorage →
      IncrementCall × IncrementCall × MockStorage
  | [], st => st
  | false :: sched, (a, b, m) => interleave sched ((a.step m).1, b, (a.step m).2)
  | true :: sched, (a, b, m) => interleave sched (a, (b.step m).1, (b.step m).2)

end storage

namespace middleware

open storage ratelimiter

/-! ## `internal/middleware/ratelimiter.go` -/

/-- What the middleware reads of an `http.Request`: the values `r.Header.Get` returns for
the three headers (the empty string for a header that is not there) and `r.RemoteAddr`. -/
structure Request where
  /-- The value of `r.Header.Get("X-Forwarded-For")`. -/
  forwardedFor : String
  /-- The value of `r.Header.Get("X-Real-IP")`. -/
  realIP : String
  /-- The value of `r.Header.Get("API_KEY")`. -/
  apiKey : String
  /-- The field `r.RemoteAddr`. -/
  RemoteAddr : String

/-- The struct `ErrorResponse`, with the JSON names `message` and `error`. -/
structure ErrorResponse where
  /-- The field `Message`. -/
  Message : String
  /-- The field `Error`. -/
  Error : String
  deriving DecidableEq, Repr

/-- What is written to the body of a response: a text, or the JSON encoding of an
`ErrorResponse` followed by a newline (what `json.NewEncoder(w).Encode` writes). -/
inductive Written where
  | text (s : String)
  | json (v : ErrorResponse)
  deriving DecidableEq, Repr

/-- An `http.ResponseWriter`: the header map with the value last set for each name, the
status code once written, and what was written to the body, in order. -/
structure ResponseWriter where
  /-- The map `w.Header()`. -/
  header : GoMap String
  /-- The status code of `WriteHeader`, `none` while none is written. -/
  status : Option Int
  /-- The writes to the body. -/
  body : List Written

/-- Go: `w.Header().Set(key, value)`. -/
def ResponseWriter.Set (w : ResponseWriter) (key : String) (value : String) : ResponseWriter :=
  ⟨w.header.insert key value, w.status, w.body⟩

/-- Go: `w.WriteHeader(code)`: the first status code written stands. -/
def ResponseWriter.WriteHeader (w : ResponseWriter) (code : Int) : ResponseWriter :=
  match w.status with
  | some _ => w
  | none => ⟨w.header, some code, w.body⟩

/-- Go: `w.Write`: writes the status 200 first when none is written yet. -/
def ResponseWriter.Write (w : ResponseWriter) (data : Written) : ResponseWriter :=
  ⟨(w.WriteHeader 200).header, (w.WriteHeader 200).status, w.body ++ [data]⟩

/-- Go's `http.Error(w, error, code)`: sets the content type of a plain text and
`X-Content-Type-Options`, writes the status code, and prints the error and a newline. -/
def httpError (w : ResponseWriter) (error : String) (code : Int) : ResponseWriter :=
  ((((w.Set "Content-Type" "text/plain; charset=utf-8").Set "X-Content-Type-Options"
    "nosniff").WriteHeader code).Write (Written.text (error ++ "\n")))

/-- Go's `unicode.IsSpace`, by code point. -/
def isSpace (c : Char) : Bool :=
  c.toNat = 9 || c.toNat = 10 || c.toNat = 11 || c.toNat = 12 || c.toNat = 13 ||
    c.toNat = 32 || c.toNat = 133 || c.toNat = 160 || c.toNat = 5760 ||
    (decide (8192 ≤ c.toNat) && decide (c.toNat ≤ 8202)) || c.toNat = 8232 ||
    c.toNat = 8233 || c.toNat = 8239 || c.toNat = 8287 || c.toNat = 12288

/-- Go's `strings.TrimSpace`: the string without its leading and trailing white space. -/
def TrimSpace (s : String) : String :=
  String.mk ((s.data.dropWhile isSpace).reverse.dropWhile isSpace).reverse

/-- Go's `strings.Split(s, ",")` on the characters of `s`: the pieces between commas, at
least one. -/
def splitComma : List Char → List (List Char)
  | [] => [[]]
  | c :: cs =>
    if c = ',' then [] :: splitComma cs
    else
      match splitComma cs with
      | first :: rest => (c :: first) :: rest
      | [] => [[c]]

/-- Go's `strings.Split(s, ",")`. -/
def Split (s : String) : List String := (splitComma s.data).map String.mk

/-- Go: `getClientIP`. `SplitHostPort` stands for `net.SplitHostPort`: `none` when it
returns an error, the host and the port otherwise. -/
def getClientIP (SplitHostPort : String → Option (String × String)) (r : Request) : String :=
  let forwarded := r.forwardedFor
  let fromForwarded : Option String :=
    if forwarded ≠ "" then
      match Split forwarded with
      | first :: _ => some (TrimSpace first)
      | [] => none
    else none
  match fromForwarded with
  | some ip => ip
  | none =>
    let realIP := r.realIP
    if realIP ≠ "" then realIP
    else
      match SplitHostPort r.RemoteAddr with
      | none => r.RemoteAddr
      | some (ip, _) => ip

/-- Go's `t.Unix()`: the whole seconds of a reading, rounded down. -/
def Unix (t : Time) : Int := t / 1000000000

/-- Go's `fmt.Sprintf("%d", n)` for an `int64`: the decimal digits, with a minus sign for a
negative number. -/
def formatDecimal (n : Int) : String := toString n

/-- The message of the 429 response. -/
def rateLimitMessage : String :=
  "you have reached the maximum number of requests or actions allowed within a certain time frame"

/-- Go: the function `RateLimiterMiddleware.Handler(next)` returns, applied to `w` and `r`,
over the store `st` at the reading `now`. The result is the response writer after the
call, whether `next.ServeHTTP` was invoked, and the store state. -/
def Handler {σ ε : Type} (rl : RateLimiter) (st : Storage σ ε) (now : Time)
    (SplitHostPort : String → Option (String × String))
    (next : ResponseWriter → Request → ResponseWriter) (w : ResponseWriter) (r : Request)
    (s : σ) : (ResponseWriter × Bool) × σ :=
  let ip := getClientIP SplitHostPort r
  let apiKey := r.apiKey
  match CheckLimit rl st now ip apiKey s with
  | (Except.error _, s1) => ((httpError w "Internal server error" 500, false), s1)
  | (Except.ok result, s1) =>
    let w1 := w.Set "X-RateLimit-Limit" (formatDecimal result.Limit)
    let w2 := w1.Set "X-RateLimit-Remaining" (formatDecimal result.Remaining)
    let w3 := w2.Set "X-RateLimit-Reset" (formatDecimal (Unix result.ResetTime))
    let w4 := w3.Set "X-RateLimit-Type" result.LimitType.toString
    if !result.Allowed then
      let w5 := w4.Set "Content-Type" "application/json"
      let w6 := w5.WriteHeader 429
      ((w6.Write (Written.json ⟨rateLimitMessage, "rate_limit_exceeded"⟩), false), s1)
    else
      ((next w4 r, true), s1)

/-- A store whose every method fails with the error `down`, as the networked store does
while its service cannot be reached. -/
def unavailableStore : Storage Unit String where
  Get := fun _ s => (Except.error "down", s)
  Increment := fun _ _ s => (Except.error "down", s)
  Set := fun _ _ _ s => (Except.error "down", s)
  TTL := fun _ s => (Except.error "down", s)

/-- A request of the integration tests: no header, the remote address
`192.168.1.1:12345`. -/
def testRequest : Request := ⟨"", "", "", "192.168.1.1:12345"⟩

/-- A response writer nothing was written to. -/
def newRecorder : ResponseWriter := ⟨GoMap.empty, none, []⟩

/-- The handler of the integration tests: it writes the status 200 and a body. -/
def testHandler (w : ResponseWriter) (_r : Request) : ResponseWriter :=
  (w.WriteHeader 200).Write (Written.text "success")

/-- The result of `net.SplitHostPort` on the remote address of `testRequest`. -/
def testSplitHostPort (addr : String) : Option (String × String) :=
  if addr = "192.168.1.1:12345" then some ("192.168.1.1", "12345") else none

end middleware

namespace config

/-! ## `internal/config/config.go`: Go strings and `parseTokenEnvVar` -/

/-- A Go `string`: the sequence of its bytes, each a number below 256. -/
abbrev GoString := List Nat

/-- Go: `utf8.RuneError`, the replacement character U+FFFD. -/
def RuneError : Nat := 65533

/-- Go: the conversion `string(r)` of a rune to its UTF-8 encoding; a rune that is not a
Unicode scalar value is encoded as `RuneError`. -/
def runeBytes (r : Nat) : GoString :=
  if r < 128 then [r]
  else if r < 2048 then [192 + r / 64, 128 + r % 64]
  else if (55296 ≤ r ∧ r ≤ 57343) ∨ 1114111 < r then [239, 191, 189]
  else if r < 65536 then [224 + r / 4096, 128 + r / 64 % 64, 128 + r % 64]
  else [240 + r / 262144, 128 + r / 4096 % 64, 128 + r / 64 % 64, 128 + r % 64]

/-- The bytes of a text, the value of a Go string literal or of a string that holds valid
UTF-8: the encodings of its characters, one after the other. -/
def utf8 (s : String) : GoString :=
  s.data.flatMap (fun c => runeBytes c.toNat)

/-- The rune that a `range` loop over a string reads at the head of the remaining bytes,
and the number of bytes it takes: an ill-formed sequence is read as `RuneError` and takes
one byte. -/
def decodeRune : GoString → Nat × Nat
  | [] => (RuneError, 0)
  | b0 :: rest =>
    if b0 < 128 then (b0, 1)
    else if b0 < 194 then (RuneError, 1)
    else if b0 < 224 then
      match rest with
      | b1 :: _ =>
        if 128 ≤ b1 ∧ b1 ≤ 191 then ((b0 - 192) * 64 + (b1 - 128), 2) else (RuneError, 1)
      | [] => (RuneError, 1)
    else if b0 < 240 then
      match rest with
      | b1 :: b2 :: _ =>
        if (if b0 = 224 then 160 else 128) ≤ b1 ∧ b1 ≤ (if b0 = 237 then 159 else 191) ∧
            128 ≤ b2 ∧ b2 ≤ 191 then
          ((b0 - 224) * 4096 + (b1 - 128) * 64 + (b2 - 128), 3)
        else (RuneError, 1)
      | _ => (RuneError, 1)
    else if b0 < 245 then
      match rest with
      | b1 :: b2 :: b3 :: _ =>
        if (if b0 = 240 then 144 else 128) ≤ b1 ∧ b1 ≤ (if b0 = 244 then 143 else 191) ∧
            128 ≤ b2 ∧ b2 ≤ 191 ∧ 128 ≤ b3 ∧ b3 ≤ 191 then
          ((b0 - 240) * 262144 + (b1 - 128) * 4096 + (b2 - 128) * 64 + (b3 - 128), 4)
        else (RuneError, 1)
      | _ => (RuneError, 1)
    else (RuneError, 1)

/-- The iterations of `for i, char := range s`: the byte index and the rune of each, in
order. `skip` counts the bytes still to pass over of the rune read last, `i` is the index
of the head of the remaining bytes. -/
def rangeFrom : Nat → Nat → GoString → List (Nat × Nat)
  | _, _, [] => []
  | skip + 1, i, _ :: bs => rangeFrom skip (i + 1) bs
  | 0, i, b :: bs =>
    (i, (decodeRune (b :: bs)).1) :: rangeFrom ((decodeRune (b :: bs)).2 - 1) (i + 1) bs

/-- The iterations of `for i, char := range s`. -/
def rangeString (s : GoString) : List (Nat × Nat) := rangeFrom 0 0 s

/-- The first loop of `parseTokenEnvVar`: the index of the first `=`, or -1. -/
def equalIndex (env : GoString) : Int :=
  match (rangeString env).find? (fun p => p.2 == 61) with
  | some p => p.1
  | none => -1

/-- The variables of the second loop of `parseTokenEnvVar`. -/
structure ParseState where
  /-- Go: `parts := []string{}`. -/
  parts : List GoString
  /-- Go: `current := ""`. -/
  current : GoString
  /-- Go: `underscoreCount := 0`. -/
  underscoreCount : Int
  deriving DecidableEq, Repr

/-- One iteration of the second loop of `parseTokenEnvVar`, on the rune `char`. -/
def parseStep (st : ParseState) (char : Nat) : ParseState :=
  if char = 95 then
    if st.underscoreCount + 1 ≤ 2 ∨ st.current = [] then
      if st.current ≠ [] then ⟨st.parts ++ [st.current], [], st.underscoreCount + 1⟩
      else ⟨st.parts, st.current, st.underscoreCount + 1⟩
    else ⟨st.parts, st.current ++ runeBytes char, st.underscoreCount + 1⟩
  else ⟨st.parts, st.current ++ runeBytes char, st.underscoreCount⟩

/-- Go: `parseTokenEnvVar`. The `nil` it returns when there is no `=` is the empty list. -/
def parseTokenEnvVar (env : GoString) : List GoString :=
  if equalIndex env = -1 then []
  else
    let varName := env.take (equalIndex env).toNat
    let st := (rangeString varName).foldl (fun st p => parseStep st p.2) ⟨[], [], 0⟩
    if st.current ≠ [] then st.parts ++ [st.current] else st.parts

/-! ## `internal/config/config.go`: the per-token policies -/

/-- Go: `TokenConfig`. -/
structure TokenConfig where
  /-- Go: `Limit int64`. -/
  Limit : Int
  /-- Go: `Window time.Duration`. -/
  Window : Duration
  /-- Go: `BlockTime time.Duration`. -/
  BlockTime : Duration
  deriving DecidableEq, Repr

/-- Go: `Config`, the configuration `Load` builds; `TokenConfigs` is a map keyed by Go
strings. -/
structure Config where
  /-- Go: `Port string`. -/
  Port : GoString
  /-- Go: `RedisURL string`. -/
  RedisURL : GoString
  /-- Go: `IPRateLimit int64`. -/
  IPRateLimit : Int
  /-- Go: `IPRateWindow time.Duration`. -/
  IPRateWindow : Duration
  /-- Go: `IPBlockTime time.Duration`. -/
  IPBlockTime : Duration
  /-- Go: `TokenRateLimit int64`. -/
  TokenRateLimit : Int
  /-- Go: `TokenRateWindow time.Duration`. -/
  TokenRateWindow : Duration
  /-- Go: `TokenBlockTime time.Duration`. -/
  TokenBlockTime : Duration
  /-- Go: `TokenConfigs map[string]TokenConfig`. -/
  TokenConfigs : GoString → Option TokenConfig

/-- The process environment and the library functions `config.go` reads and parses it
with; their results are parameters of the model. -/
structure Environment where
  /-- Go: `os.Environ()`, the entries `NAME=value`. -/
  Environ : List GoString
  /-- Go: `os.Getenv(key)`. -/
  Getenv : GoString → GoString
  /-- Go: `strconv.ParseInt(value, 10, 64)`; `none` stands for a non-nil error. -/
  ParseInt : GoString → Option Int
  /-- Go: `time.ParseDuration(value)`; `none` stands for a non-nil error. -/
  ParseDuration : GoString → Option Duration
  /-- Go: `strconv.ParseFloat(value, 64)` followed by the conversion
  `time.Duration(seconds * float64(time.Second))`; `none` stands for a non-nil error. -/
  ParseSeconds : GoString → Option Duration
  /-- Go: `Duration.String()`. -/
  durationString : Duration → GoString

/-- Go: `getEnvString`. -/
def getEnvString (E : Environment) (key defaultValue : GoString) : GoString :=
  if E.Getenv key ≠ [] then E.Getenv key else defaultValue

/-- Go: `getEnvInt64`. -/
def getEnvInt64 (E : Environment) (key : GoString) (defaultValue : Int) : Int :=
  if E.Getenv key ≠ [] then
    match E.ParseInt (E.Getenv key) with
    | some intValue => intValue
    | none => defaultValue
  else defaultValue

/-- Go: `getEnvDuration`. -/
def getEnvDuration (E : Environment) (key defaultValue : GoString) : Duration :=
  match E.ParseDuration (getEnvString E key defaultValue) with
  | some duration => duration
  | none =>
    match E.ParseSeconds (getEnvString E key defaultValue) with
    | some duration => duration
    | none =>
      match E.ParseDuration defaultValue with
      | some duration => duration
      | none => 1000000000

/-- The policy `loadTokenConfigs` builds for `token`: the three values read from
`TOKEN_<token>_LIMIT`, `TOKEN_<token>_WINDOW` and `TOKEN_<token>_BLOCK_TIME`, each with
the configuration's default. -/
def tokenPolicy (E : Environment) (c : Config) (token : GoString) : TokenConfig :=
  ⟨getEnvInt64 E (utf8 "TOKEN_" ++ token ++ utf8 "_LIMIT") c.TokenRateLimit,
    getEnvDuration E (utf8 "TOKEN_" ++ token ++ utf8 "_WINDOW")
      (E.durationString c.TokenRateWindow),
    getEnvDuration E (utf8 "TOKEN_" ++ token ++ utf8 "_BLOCK_TIME")
      (E.durationString c.TokenBlockTime)⟩

/-- The body of the loop of `Config.loadTokenConfigs`, for one entry `env` of the
environment. -/
def loadTokenConfig (E : Environment) (c : Config) (env : GoString) : Config :=
  if env.length > 6 ∧ env.take 6 = utf8 "TOKEN_" then
    let parts := parseTokenEnvVar env
    if parts.length ≥ 3 ∧ parts[2]? = some (utf8 "LIMIT") then
      let token := parts.getD 1 []
      if token ≠ [] then
        { c with
          TokenConfigs := fun k =>
            if k = token then some (tokenPolicy E c token) else c.TokenConfigs k }
      else c
    else c
  else c

/-- Go: `Config.loadTokenConfigs`, over the entries of `os.Environ()` in order. -/
def loadTokenConfigs (E : Environment) (c : Config) : Config :=
  E.Environ.foldl (loadTokenConfig E) c

/-- The configuration `Load` builds from its default values, before `loadTokenConfigs`
has run. -/
def defaultConfig : Config :=
  ⟨utf8 "8080", utf8 "redis://localhost:6379/0", 10, 1000000000, 300000000000, 100,
    1000000000, 300000000000, fun _ => none⟩

/-- An environment whose only entry is `TOKEN_abc123_LIMIT=100`: `os.Getenv` finds that
variable and no other, and the library functions parse the values that occur, `100`, `1s`
and `5m0s`. -/
def tokenEnvironment : Environment where
  Environ := [utf8 "TOKEN_abc123_LIMIT=100"]
  Getenv := fun key => if key = utf8 "TOKEN_abc123_LIMIT" then utf8 "100" else []
  ParseInt := fun value => if value = utf8 "100" then some 100 else none
  ParseDuration := fun value =>
    if value = utf8 "1s" then some 1000000000
    else if value = utf8 "5m0s" then some 300000000000 else none
  ParseSeconds := fun value => if value = utf8 "100" then some 100000000000 else none
  durationString := fun d =>
    if d = 1000000000 then utf8 "1s" else if d = 300000000000 then utf8 "5m0s" else []

/-- An environment whose only entry is `TOKEN_<0xFF>_LIMIT=5`, the name holding the byte
`0xFF`, which is not UTF-8: `os.Getenv` finds that variable and no other, and the library
functions parse the values that occur, `5`, `1s` and `5m0s`. -/
def illFormedEnvironment : Environment where
  Environ := [utf8 "TOKEN_" ++ [255] ++ utf8 "_LIMIT=5"]
  Getenv := fun key => if key = utf8 "TOKEN_" ++ [255] ++ utf8 "_LIMIT" then utf8 "5" else []
  ParseInt := fun value => if value = utf8 "5" then some 5 else none
  ParseDuration := fun value =>
    if value = utf8 "1s" then some 1000000000
    else if value = utf8 "5m0s" then some 300000000000 else none
  ParseSeconds := fun value => if value = utf8 "5" then some 5000000000 else none
  durationString := fun d =>
    if d = 1000000000 then utf8 "1s" else if d = 300000000000 then utf8 "5m0s" else []

end config

namespace ratelimiter

open storage

/-! ## Well-formed stores and policies -/

/-- Every key of the in-process store that holds a count holds an expiry, and
conversely. -/
def paired (m : MockStorage) : Prop :=
  ∀ key : String, m.data key = none ↔ m.ttl key = none

/-- Every policy of the limiter, the one for addresses and each one registered for a
token, has a positive window and a positive block time. -/
def positivePolicies (rl : RateLimiter) : Prop :=
  (0 < rl.ipConfig.Window ∧ 0 < rl.ipConfig.BlockTime) ∧
    ∀ (token : String) (config : Config), rl.tokenConfigs token = some config →
      0 < config.Window ∧ 0 < config.BlockTime

/-! ## A block time shorter than the window -/

/-- A limiter whose policy has limit 3, a window of one second and a block time of 10 ns,
so that a block lapses while the window it was written in is still open. -/
def shortBlockLimiter : RateLimiter := NewRateLimiter ⟨3, 1000000000, 10⟩

/-- The in-process store after four calls of `192.168.1.1` under `shortBlockLimiter`, at
the readings 0, 1, 2 and 3 ns: the counter holds 4 and expires at one second, the block
record written by the fourth call expires at 13 ns. -/
def storeBlockLapsed : MockStorage :=
  (runCalls Unit shortBlockLimiter
    [⟨"192.168.1.1", "", 0⟩, ⟨"192.168.1.1", "", 1⟩, ⟨"192.168.1.1", "", 2⟩,
      ⟨"192.168.1.1", "", 3⟩] NewMockStorage).2

end ratelimiter

open storage ratelimiter

/-! ## Arithmetic of `int64` values -/

theorem wrapInt64_eq_self {x : Int} (h : isInt64 x) : wrapInt64 x = x := by
  unfold isInt64 minInt64 maxInt64 at h
  unfold wrapInt64
  omega

theorem satInt64_pos {x : Int} (h : 0 < x) : 0 < satInt64 x := by
  unfold satInt64 minInt64 maxInt64
  split_ifs <;> omega

theorem satInt64_nonpos_iff {x : Int} : satInt64 x ≤ 0 ↔ x ≤ 0 := by
  unfold satInt64 minInt64 maxInt64
  split_ifs <;> omega

theorem satInt64_eq_self {x : Int} (h : isInt64 x) : satInt64 x = x := by
  unfold isInt64 minInt64 maxInt64 at h
  unfold satInt64 minInt64 maxInt64
  split_ifs <;> omega

/-! ## Keys -/

theorem blocked_ne_self (k : String) : "blocked:" ++ k ≠ k := by
  intro h
  have hl := congrArg String.length h
  simp [String.length_append] at hl
  exact absurd hl (by decide)

theorem blocked_inj {a b : String} (h : "blocked:" ++ a = "blocked:" ++ b) : a = b := by
  have hd := congrArg String.data h
  simp only [String.data_append] at hd
  exact String.ext (List.append_cancel_left hd)

theorem ip_inj {a b : String} (h : "ip:" ++ a = "ip:" ++ b) : a = b := by
  have hd := congrArg String.data h
  simp only [String.data_append] at hd
  exact String.ext (List.append_cancel_left hd)

theorem token_inj {a b : String} (h : "token:" ++ a = "token:" ++ b) : a = b := by
  have hd := congrArg String.data h
  simp only [String.data_append] at hd
  exact String.ext (List.append_cancel_left hd)

theorem ip_ne_token (a b : String) : "ip:" ++ a ≠ "token:" ++ b := by
  intro h
  have hd := congrArg String.data h
  simp at hd

theorem ip_ne_blocked (a b : String) : "ip:" ++ a ≠ "blocked:" ++ b := by
  intro h
  have hd := congrArg String.data h
  simp at hd

theorem token_ne_blocked (a b : String) : "token:" ++ a ≠ "blocked:" ++ b := by
  intro h
  have hd := congrArg String.data h
  simp at hd

namespace storage

/-! ## The in-process store: frame and congruence of each method -/

theorem agreeAt_refl (s : MockStorage) (x : String) : agreeAt s s x := ⟨rfl, rfl⟩

theorem agreeAt_symm {s s' : MockStorage} {x : String} (h : agreeAt s s' x) : agreeAt s' s x :=
  ⟨h.1.symm, h.2.symm⟩

theorem agreeAt_trans {s s' s'' : MockStorage} {x : String} (h : agreeAt s s' x)
    (h' : agreeAt s' s'' x) : agreeAt s s'' x :=
  ⟨h.1.trans h'.1, h.2.trans h'.2⟩

theorem Get_frame (s : MockStorage) (now : Time) (key x : String) (hx : x ≠ key) :
    agreeAt (s.Get now key).2 s x := by
  unfold MockStorage.Get agreeAt
  split <;> (try split) <;> (try split) <;> simp [MockStorage.deleteKey, GoMap.delete, hx]

theorem Get_congr {s s' : MockStorage} (now : Time) (key : String) (h : agreeAt s s' key) :
    (s.Get now key).1 = (s'.Get now key).1 ∧ agreeAt (s.Get now key).2 (s'.Get now key).2 key := by
  obtain ⟨hd, ht⟩ := h
  unfold MockStorage.Get agreeAt
  rw [← hd, ← ht]
  split <;> (try split) <;> (try split) <;> simp [MockStorage.deleteKey, GoMap.delete, hd, ht]

theorem TTL_frame (s : MockStorage) (now : Time) (key x : String) (hx : x ≠ key) :
    agreeAt (s.TTL now key).2 s x := by
  unfold MockStorage.TTL agreeAt
  cases h : s.ttl key with
  | none => simp
  | some e =>
    by_cases hb : timeUntil now e ≤ 0 <;> simp [hb, MockStorage.deleteKey, GoMap.delete, hx]

theorem TTL_congr {s s' : MockStorage} (now : Time) (key : String) (h : agreeAt s s' key) :
    (s.TTL now key).1 = (s'.TTL now key).1 ∧ agreeAt (s.TTL now key).2 (s'.TTL now key).2 key := by
  obtain ⟨hd, ht⟩ := h
  unfold MockStorage.TTL agreeAt
  rw [← ht]
  cases h : s.ttl key with
  | none => simp [hd, ht]
  | some e =>
    by_cases hb : timeUntil now e ≤ 0 <;> simp [hb, MockStorage.deleteKey, GoMap.delete, hd, ht]

theorem Set_frame (s : MockStorage) (now : Time) (key x : String) (v : Int) (d : Duration)
    (hx : x ≠ key) : agreeAt (s.Set now key v d) s x := by
  simp [MockStorage.Set, agreeAt, GoMap.insert, hx]

theorem Set_congr (s s' : MockStorage) (now : Time) (key : String) (v : Int) (d : Duration) :
    agreeAt (s.Set now key v d) (s'.Set now key v d) key := by
  simp [MockStorage.Set, agreeAt, GoMap.insert]

theorem Increment_frame (s : MockStorage) (now : Time) (key x : String) (d : Duration)
    (hx : x ≠ key) : agreeAt (s.Increment now key d).2 s x := by
  unfold MockStorage.Increment agreeAt
  cases h : s.ttl key with
  | none => simp [GoMap.insert, hx, h]
  | some e =>
    by_cases hb : Time.Before now e <;>
      simp [GoMap.insert, hx, hb, h, MockStorage.deleteKey, GoMap.delete]

theorem Increment_congr {s s' : MockStorage} (now : Time) (key : String) (d : Duration)
    (h : agreeAt s s' key) :
    (s.Increment now key d).1 = (s'.Increment now key d).1 ∧
      agreeAt (s.Increment now key d).2 (s'.Increment now key d).2 key := by
  obtain ⟨hd, ht⟩ := h
  unfold MockStorage.Increment agreeAt
  rw [← ht]
  cases h : s.ttl key with
  | none => simp [GoMap.insert, hd, h, ← ht]
  | some e =>
    by_cases hb : Time.Before now e <;>
      simp [GoMap.insert, hb, h, hd, ← ht, MockStorage.deleteKey, GoMap.delete]

end storage

namespace ratelimiter

theorem CheckLimit_eq {σ ε : Type} (rl : RateLimiter) (st : Storage σ ε) (now : Time)
    (ip token : String) (s : σ) :
    CheckLimit rl st now ip token s =
      checkLimitForKey st now (subjectKey rl ip token) (subjectConfig rl token)
        (subjectKind rl token) s := by
  unfold CheckLimit subjectKey subjectConfig subjectKind
  by_cases ht : token = ""
  · simp [ht]
  · cases h : rl.tokenConfigs token <;> simp [ht, h]

/-- The decision engine over the in-process store, one branch per return statement. -/
theorem checkLimitForKey_mock {ε : Type} (now : Time) (key : String) (config : Config)
    (limitType : LimitType) (s : MockStorage) :
    checkLimitForKey (mockStorage ε now) now key config limitType s =
      if (s.Get now ("blocked:" ++ key)).1 > 0 then
        (Except.ok ⟨false, 0,
            Time.Add now ((s.Get now ("blocked:" ++ key)).2.TTL now ("blocked:" ++ key)).1,
            limitType, config.Limit⟩,
          ((s.Get now ("blocked:" ++ key)).2.TTL now ("blocked:" ++ key)).2)
      else if ((s.Get now ("blocked:" ++ key)).2.Increment now key config.Window).1
          > config.Limit then
        (Except.ok ⟨false, 0, Time.Add now config.BlockTime, limitType, config.Limit⟩,
          ((s.Get now ("blocked:" ++ key)).2.Increment now key config.Window).2.Set now
            ("blocked:" ++ key) 1 config.BlockTime)
      else
        (Except.ok ⟨true,
            (if wrapInt64 (config.Limit
                - ((s.Get now ("blocked:" ++ key)).2.Increment now key config.Window).1) < 0
              then 0
              else wrapInt64 (config.Limit
                - ((s.Get now ("blocked:" ++ key)).2.Increment now key config.Window).1)),
            Time.Add now
              ((((s.Get now ("blocked:" ++ key)).2.Increment now key config.Window).2).TTL
                now key).1,
            limitType, config.Limit⟩,
          ((((s.Get now ("blocked:" ++ key)).2.Increment now key config.Window).2).TTL
                now key).2) := by
  unfold checkLimitForKey mockStorage
  simp only []


end ratelimiter
namespace storage

theorem Get_agree {s s' : MockStorage} (now : Time) (key x : String) (hk : agreeAt s s' key)
    (hx : agreeAt s s' x) : agreeAt (s.Get now key).2 (s'.Get now key).2 x := by
  by_cases h : x = key
  · subst h; exact (Get_congr now x hk).2
  · exact agreeAt_trans (Get_frame s now key x h)
      (agreeAt_trans hx (agreeAt_symm (Get_frame s' now key x h)))

theorem TTL_agree {s s' : MockStorage} (now : Time) (key x : String) (hk : agreeAt s s' key)
    (hx : agreeAt s s' x) : agreeAt (s.TTL now key).2 (s'.TTL now key).2 x := by
  by_cases h : x = key
  · subst h; exact (TTL_congr now x hk).2
  · exact agreeAt_trans (TTL_frame s now key x h)
      (agreeAt_trans hx (agreeAt_symm (TTL_frame s' now key x h)))

theorem Increment_agree {s s' : MockStorage} (now : Time) (key x : String) (d : Duration)
    (hk : agreeAt s s' key) (hx : agreeAt s s' x) :
    agreeAt (s.Increment now key d).2 (s'.Increment now key d).2 x := by
  by_cases h : x = key
  · subst h; exact (Increment_congr now x d hk).2
  · exact agreeAt_trans (Increment_frame s now key x d h)
      (agreeAt_trans hx (agreeAt_symm (Increment_frame s' now key x d h)))

theorem Set_agree {s s' : MockStorage} (now : Time) (key x : String) (v : Int) (d : Duration)
    (hx : agreeAt s s' x) : agreeAt (s.Set now key v d) (s'.Set now key v d) x := by
  by_cases h : x = key
  · subst h; exact Set_congr s s' now x v d
  · exact agreeAt_trans (Set_frame s now key x v d h)
      (agreeAt_trans hx (agreeAt_symm (Set_frame s' now key x v d h)))

end storage

namespace ratelimiter

/-- A call for the subject `key` leaves every record other than the subject's counter
and block record as it was. -/
theorem checkLimitForKey_frame {ε : Type} (now : Time) (key : String) (config : Config)
    (limitType : LimitType) (s : MockStorage) (x : String) (h1 : x ≠ key)
    (h2 : x ≠ "blocked:" ++ key) :
    agreeAt (checkLimitForKey (mockStorage ε now) now key config limitType s).2 s x := by
  rw [checkLimitForKey_mock]
  by_cases hg : (s.Get now ("blocked:" ++ key)).1 > 0
  · rw [if_pos hg]
    exact agreeAt_trans (TTL_frame _ now _ x h2) (Get_frame s now _ x h2)
  · rw [if_neg hg]
    by_cases hi : ((s.Get now ("blocked:" ++ key)).2.Increment now key config.Window).1
        > config.Limit
    · rw [if_pos hi]
      exact agreeAt_trans (Set_frame _ now _ x _ _ h2)
        (agreeAt_trans (Increment_frame _ now key x _ h1) (Get_frame s now _ x h2))
    · rw [if_neg hi]
      exact agreeAt_trans (TTL_frame _ now _ x h1)
        (agreeAt_trans (Increment_frame _ now key x _ h1) (Get_frame s now _ x h2))

/-- The decision for the subject `key`, and the subject's two records afterwards, are
determined by the subject's two records before the call. -/
theorem checkLimitForKey_congr {ε : Type} (now : Time) (key : String) (config : Config)
    (limitType : LimitType) (s s' : MockStorage) (hk : agreeAt s s' key)
    (hb : agreeAt s s' ("blocked:" ++ key)) :
    (checkLimitForKey (mockStorage ε now) now key config limitType s).1
        = (checkLimitForKey (mockStorage ε now) now key config limitType s').1 ∧
      agreeAt (checkLimitForKey (mockStorage ε now) now key config limitType s).2
        (checkLimitForKey (mockStorage ε now) now key config limitType s').2 key ∧
      agreeAt (checkLimitForKey (mockStorage ε now) now key config limitType s).2
        (checkLimitForKey (mockStorage ε now) now key config limitType s').2
        ("blocked:" ++ key) := by
  have g1 := (Get_congr now ("blocked:" ++ key) hb).1
  have gb := Get_agree now ("blocked:" ++ key) ("blocked:" ++ key) hb hb
  have gk := Get_agree now ("blocked:" ++ key) key hb hk
  have t1 := (TTL_congr now ("blocked:" ++ key) gb).1
  have i1 := (Increment_congr now key config.Window gk).1
  have ik := Increment_agree now key key config.Window gk gk
  have ib := Increment_agree now key ("blocked:" ++ key) config.Window gk gb
  have u1 := (TTL_congr now key ik).1
  rw [checkLimitForKey_mock, checkLimitForKey_mock, ← g1, ← t1, ← i1, ← u1]
  by_cases hg : (s.Get now ("blocked:" ++ key)).1 > 0
  · rw [if_pos hg, if_pos hg]
    exact ⟨rfl, TTL_agree now _ _ gb gk, TTL_agree now _ _ gb gb⟩
  · rw [if_neg hg, if_neg hg]
    by_cases hi : ((s.Get now ("blocked:" ++ key)).2.Increment now key config.Window).1
        > config.Limit
    · rw [if_pos hi, if_pos hi]
      exact ⟨rfl, Set_agree now _ _ _ _ ik, Set_agree now _ _ _ _ ib⟩
    · rw [if_neg hi, if_neg hi]
      exact ⟨rfl, TTL_agree now _ _ ik ik, TTL_agree now _ _ ik ib⟩

end ratelimiter

namespace ratelimiter

/-- The two shapes of a resolved subject. -/
theorem subject_cases (rl : RateLimiter) (ip token : String) :
    (subjectKey rl ip token = "ip:" ++ ip ∧ subjectConfig rl token = rl.ipConfig ∧
        subjectKind rl token = LimitType.IPLimit ∧ (token = "" ∨ rl.tokenConfigs token = none)) ∨
      (subjectKey rl ip token = "token:" ++ token ∧
        rl.tokenConfigs token = some (subjectConfig rl token) ∧
        subjectKind rl token = LimitType.TokenLimit ∧ token ≠ "") := by
  unfold subjectKey subjectConfig subjectKind
  by_cases ht : token = ""
  · simp [ht]
  · cases h : rl.tokenConfigs token <;> simp [ht, h]

theorem subjectKey_ne_blocked (rl : RateLimiter) (ip token x : String) :
    subjectKey rl ip token ≠ "blocked:" ++ x := by
  rcases subject_cases rl ip token with h | h
  · rw [h.1]; exact ip_ne_blocked ip x
  · rw [h.1]; exact token_ne_blocked token x

/-- The subject key determines the policy and the limit kind. -/
theorem subject_determined (rl : RateLimiter) (ip token ip' token' : String)
    (h : subjectKey rl ip token = subjectKey rl ip' token') :
    subjectConfig rl token = subjectConfig rl token' ∧
      subjectKind rl token = subjectKind rl token' := by
  rcases subject_cases rl ip token with a | a <;> rcases subject_cases rl ip' token' with b | b
  · exact ⟨a.2.1.trans b.2.1.symm, a.2.2.1.trans b.2.2.1.symm⟩
  · rw [a.1, b.1] at h; exact absurd h (ip_ne_token _ _)
  · rw [a.1, b.1] at h; exact absurd h.symm (ip_ne_token _ _)
  · rw [a.1, b.1] at h
    have ht := token_inj h
    subst ht
    exact ⟨rfl, a.2.2.1.trans b.2.2.1.symm⟩

theorem runCalls_append (ε : Type) (rl : RateLimiter) (cs ds : List Call) (s : MockStorage) :
    runCalls ε rl (cs ++ ds) s =
      ((runCalls ε rl cs s).1 ++ (runCalls ε rl ds (runCalls ε rl cs s).2).1,
        (runCalls ε rl ds (runCalls ε rl cs s).2).2) := by
  induction cs generalizing s with
  | nil => simp [runCalls]
  | cons c cs ih => simp [runCalls, ih]

/-- A call made for another subject leaves the records of the subject `k` as they were. -/
theorem CheckLimit_frame {ε : Type} (rl : RateLimiter) (c : Call) (s : MockStorage)
    (ip token : String) (h : subjectKey rl c.ip c.token ≠ subjectKey rl ip token) :
    agreeAt (CheckLimit rl (mockStorage ε c.now) c.now c.ip c.token s).2 s
        (subjectKey rl ip token) ∧
      agreeAt (CheckLimit rl (mockStorage ε c.now) c.now c.ip c.token s).2 s
        ("blocked:" ++ subjectKey rl ip token) := by
  rw [CheckLimit_eq]
  constructor
  · exact checkLimitForKey_frame _ _ _ _ _ _ (Ne.symm h) (subjectKey_ne_blocked rl ip token _)
  · refine checkLimitForKey_frame _ _ _ _ _ _ ?_ ?_
    · exact Ne.symm (subjectKey_ne_blocked rl c.ip c.token _)
    · intro hb; exact h (blocked_inj hb).symm

/-- The decisions a subject obtains in a sequence of calls are those it obtains when the
calls made for other subjects are left out, and so are its records at the end. -/
theorem runCalls_project (ε : Type) (rl : RateLimiter) (ip token : String) (cs : List Call)
    (s s' : MockStorage) (hk : agreeAt s s' (subjectKey rl ip token))
    (hb : agreeAt s s' ("blocked:" ++ subjectKey rl ip token)) :
    resultsFor rl (subjectKey rl ip token) cs (runCalls ε rl cs s).1
        = (runCalls ε rl (callsFor rl (subjectKey rl ip token) cs) s').1 ∧
      agreeAt (runCalls ε rl cs s).2
        (runCalls ε rl (callsFor rl (subjectKey rl ip token) cs) s').2
        (subjectKey rl ip token) ∧
      agreeAt (runCalls ε rl cs s).2
        (runCalls ε rl (callsFor rl (subjectKey rl ip token) cs) s').2
        ("blocked:" ++ subjectKey rl ip token) := by
  induction cs generalizing s s' with
  | nil => exact ⟨rfl, hk, hb⟩
  | cons c cs ih =>
    by_cases hc : subjectKey rl c.ip c.token = subjectKey rl ip token
    · have hcfg := subject_determined rl c.ip c.token ip token hc
      have hcong := checkLimitForKey_congr (ε := ε) c.now (subjectKey rl ip token)
        (subjectConfig rl token) (subjectKind rl token) s s' hk hb
      have e1 : CheckLimit rl (mockStorage ε c.now) c.now c.ip c.token s
          = checkLimitForKey (mockStorage ε c.now) c.now (subjectKey rl ip token)
              (subjectConfig rl token) (subjectKind rl token) s := by
        rw [CheckLimit_eq, hc, hcfg.1, hcfg.2]
      have e2 : CheckLimit rl (mockStorage ε c.now) c.now c.ip c.token s'
          = checkLimitForKey (mockStorage ε c.now) c.now (subjectKey rl ip token)
              (subjectConfig rl token) (subjectKind rl token) s' := by
        rw [CheckLimit_eq, hc, hcfg.1, hcfg.2]
      have := ih _ _ (e1 ▸ e2 ▸ hcong.2.1) (e1 ▸ e2 ▸ hcong.2.2)
      simp only [runCalls, callsFor, List.filter_cons, hc, decide_True, if_true, resultsFor]
      simp only [callsFor] at this
      refine ⟨?_, this.2.1, this.2.2⟩
      rw [this.1, e1, e2, hcong.1]
    · have hf := CheckLimit_frame (ε := ε) rl c s ip token hc
      have := ih (CheckLimit rl (mockStorage ε c.now) c.now c.ip c.token s).2 s'
        (agreeAt_trans hf.1 hk) (agreeAt_trans hf.2 hb)
      simp only [runCalls, callsFor, List.filter_cons, hc, decide_False, resultsFor, if_false]
      simp only [callsFor] at this
      simpa using this

end ratelimiter

namespace storage

theorem Get_absent (s : MockStorage) (now : Time) (x : String) (hd : s.data x = none)
    (ht : s.ttl x = none) : s.Get now x = (0, s) := by
  simp [MockStorage.Get, hd, ht]

theorem Get_live (s : MockStorage) (now : Time) (x : String) (v : Int) (e : Time)
    (hd : s.data x = some v) (ht : s.ttl x = some e) (hlt : now < e) :
    s.Get now x = (v, s) := by
  simp [MockStorage.Get, hd, ht, Time.Before, hlt]

theorem TTL_live (s : MockStorage) (now : Time) (x : String) (e : Time)
    (ht : s.ttl x = some e) (hlt : now < e) : s.TTL now x = (timeUntil now e, s) := by
  have hpos : ¬ timeUntil now e ≤ 0 := by
    rw [timeUntil, satInt64_nonpos_iff]
    unfold Time at *
    omega
  simp [MockStorage.TTL, ht, hpos]

theorem Increment_absent (s : MockStorage) (now : Time) (x : String) (d : Duration)
    (hd : s.data x = none) (ht : s.ttl x = none) :
    s.Increment now x d = (1, ⟨s.data.insert x 1, s.ttl.insert x (Time.Add now d)⟩) := by
  have h1 : wrapInt64 1 = 1 := by decide
  simp [MockStorage.Increment, hd, ht, h1]

theorem Increment_live (s : MockStorage) (now : Time) (x : String) (d : Duration) (n : Int)
    (e : Time) (hd : s.data x = some n) (ht : s.ttl x = some e) (hlt : now < e) :
    s.Increment now x d = (wrapInt64 (n + 1), ⟨s.data.insert x (wrapInt64 (n + 1)), s.ttl⟩) := by
  simp [MockStorage.Increment, hd, ht, Time.Before, hlt]

end storage

namespace ratelimiter

/-- The first call of a subject without records opens a window and is allowed. -/
theorem checkLimitForKey_fresh {ε : Type} (now : Time) (k : String) (config : Config)
    (limitType : LimitType) (s : MockStorage) (hs : freshSubject s k)
    (hL : 1 ≤ config.Limit) (hL64 : isInt64 config.Limit) (hW : 0 < config.Window) :
    (checkLimitForKey (mockStorage ε now) now k config limitType s).1
        = Except.ok ⟨true, config.Limit - 1,
            Time.Add now (timeUntil now (Time.Add now config.Window)), limitType, config.Limit⟩ ∧
      windowOpen (checkLimitForKey (mockStorage ε now) now k config limitType s).2 k 1
        (Time.Add now config.Window) := by
  obtain ⟨hd, ht, hbd, hbt⟩ := hs
  have hne : k ≠ "blocked:" ++ k := fun h => blocked_ne_self k h.symm
  have hw : wrapInt64 (config.Limit - 1) = config.Limit - 1 := by
    apply wrapInt64_eq_self
    unfold isInt64 minInt64 maxInt64 at *
    omega
  have hlt : now < Time.Add now config.Window := by
    unfold Time.Add; unfold Time Duration at *; omega
  rw [checkLimitForKey_mock, Get_absent s now _ hbd hbt, Increment_absent s now k _ hd ht]
  have hnotgt : ¬ ((1 : Int) > config.Limit) := by omega
  have hnn : ¬ (config.Limit - 1 < 0) := by omega
  have hz : ¬ (((0 : Int), s).1 > 0) := by simp
  rw [if_neg hz, if_neg hnotgt, hw, if_neg hnn]
  rw [TTL_live _ now k (Time.Add now config.Window) (by simp [GoMap.insert]) hlt]
  refine ⟨rfl, ?_⟩
  simp [windowOpen, GoMap.insert, hbd, hbt, Ne.symm hne]

/-- A call inside an open window with room under the limit is allowed and counted. -/
theorem checkLimitForKey_open {ε : Type} (now : Time) (k : String) (config : Config)
    (limitType : LimitType) (s : MockStorage) (n : Int) (e : Time) (hs : windowOpen s k n e)
    (hlt : now < e) (hn : 0 ≤ n) (hroom : n + 1 ≤ config.Limit) (hL64 : isInt64 config.Limit) :
    (checkLimitForKey (mockStorage ε now) now k config limitType s).1
        = Except.ok ⟨true, config.Limit - (n + 1), Time.Add now (timeUntil now e), limitType,
            config.Limit⟩ ∧
      windowOpen (checkLimitForKey (mockStorage ε now) now k config limitType s).2 k (n + 1)
        e := by
  obtain ⟨hd, ht, hbd, hbt⟩ := hs
  have hne : k ≠ "blocked:" ++ k := fun h => blocked_ne_self k h.symm
  have hc : wrapInt64 (n + 1) = n + 1 := by
    apply wrapInt64_eq_self
    unfold isInt64 minInt64 maxInt64 at *
    omega
  have hw : wrapInt64 (config.Limit - (n + 1)) = config.Limit - (n + 1) := by
    apply wrapInt64_eq_self
    unfold isInt64 minInt64 maxInt64 at *
    omega
  rw [checkLimitForKey_mock, Get_absent s now _ hbd hbt,
    Increment_live s now k _ n e hd ht hlt, hc]
  have hz : ¬ (((0 : Int), s).1 > 0) := by simp
  have hnotgt : ¬ (n + 1 > config.Limit) := by omega
  have hnn : ¬ (config.Limit - (n + 1) < 0) := by omega
  rw [if_neg hz, if_neg hnotgt, hw, if_neg hnn]
  rw [TTL_live (MockStorage.mk (s.data.insert k (n + 1)) s.ttl) now k e ht hlt]
  refine ⟨rfl, ?_⟩
  simp [windowOpen, GoMap.insert, hbd, hbt, ht, Ne.symm hne]

/-- A call inside an open window whose count has reached the limit is denied and writes
the block record. -/
theorem checkLimitForKey_exceed {ε : Type} (now : Time) (k : String) (config : Config)
    (limitType : LimitType) (s : MockStorage) (n : Int) (e : Time) (hs : windowOpen s k n e)
    (hlt : now < e) (hfull : config.Limit ≤ n) (hn64 : isInt64 (n + 1)) :
    (checkLimitForKey (mockStorage ε now) now k config limitType s).1
        = Except.ok ⟨false, 0, Time.Add now config.BlockTime, limitType, config.Limit⟩ ∧
      blockedUntil (checkLimitForKey (mockStorage ε now) now k config limitType s).2 k
        (Time.Add now config.BlockTime) := by
  obtain ⟨hd, ht, hbd, hbt⟩ := hs
  have hc : wrapInt64 (n + 1) = n + 1 := wrapInt64_eq_self hn64
  rw [checkLimitForKey_mock, Get_absent s now _ hbd hbt,
    Increment_live s now k _ n e hd ht hlt, hc]
  have hz : ¬ (((0 : Int), s).1 > 0) := by simp
  have hgt : n + 1 > config.Limit := by omega
  rw [if_neg hz, if_pos hgt]
  refine ⟨rfl, ?_⟩
  simp [blockedUntil, MockStorage.Set, GoMap.insert]

/-- A call for a subject whose block record is live is denied and leaves the store as it
was. -/
theorem checkLimitForKey_blocked {ε : Type} (now : Time) (k : String) (config : Config)
    (limitType : LimitType) (s : MockStorage) (v : Int) (e : Time)
    (hd : s.data ("blocked:" ++ k) = some v) (hv : 0 < v)
    (ht : s.ttl ("blocked:" ++ k) = some e) (hlt : now < e) :
    checkLimitForKey (mockStorage ε now) now k config limitType s
        = (Except.ok ⟨false, 0, Time.Add now (timeUntil now e), limitType, config.Limit⟩, s) := by
  rw [checkLimitForKey_mock, Get_live s now _ v e hd ht hlt, TTL_live s now _ e ht hlt]
  have hz : ((v, s).1 > 0) := hv
  rw [if_pos hz]

end ratelimiter

namespace ratelimiter

/-- A call for the subject of `(ip, token)` is `checkLimitForKey` at that subject's key,
policy and limit kind. -/
theorem CheckLimit_of_subject {σ ε : Type} (rl : RateLimiter) (st : Storage σ ε) (now : Time)
    (ip token ip' token' : String) (s : σ)
    (h : subjectKey rl ip' token' = subjectKey rl ip token) :
    CheckLimit rl st now ip' token' s =
      checkLimitForKey st now (subjectKey rl ip token) (subjectConfig rl token)
        (subjectKind rl token) s := by
  have hcfg := subject_determined rl ip' token' ip token h
  rw [CheckLimit_eq, h, hcfg.1, hcfg.2]

theorem openWindowResults_length (ε : Type) (L : Int) (lt : LimitType) (e : Time) (n : Int)
    (ts : List Time) : (openWindowResults ε L lt e n ts).length = ts.length := by
  induction ts generalizing n with
  | nil => rfl
  | cons t ts ih => simp [openWindowResults, ih]

theorem openWindowResults_getElem? (ε : Type) (L : Int) (lt : LimitType) (e : Time) (n : Int)
    (ts : List Time) (i : Nat) :
    (openWindowResults ε L lt e n ts)[i]? =
      ts[i]?.map (fun t => Except.ok ⟨true, L - (n + i + 1), Time.Add t (timeUntil t e), lt, L⟩) := by
  induction ts generalizing n i with
  | nil => simp [openWindowResults]
  | cons t ts ih =>
    cases i with
    | zero => simp [openWindowResults]
    | succ i =>
      simp only [openWindowResults, List.getElem?_cons_succ, ih]
      have : n + 1 + (i : Int) + 1 = n + ((i + 1 : Nat) : Int) + 1 := by push_cast; ring
      rw [this]

theorem openWindowResults_append (ε : Type) (L : Int) (lt : LimitType) (e : Time) (n : Int)
    (ts us : List Time) :
    openWindowResults ε L lt e n (ts ++ us) =
      openWindowResults ε L lt e n ts ++ openWindowResults ε L lt e (n + ts.length) us := by
  induction ts generalizing n with
  | nil => simp [openWindowResults]
  | cons t ts ih =>
    have hl : n + ((ts.length + 1 : Nat) : Int) = n + 1 + ts.length := by push_cast; ring
    rw [List.cons_append, openWindowResults, openWindowResults, ih, List.length_cons, hl,
      List.cons_append]

/-- A run of calls of one subject inside its open window, within the limit: every call
is allowed and counted. -/
theorem runCalls_open (ε : Type) (rl : RateLimiter) (ip token : String) (cs : List Call)
    (s : MockStorage) (n : Int) (e : Time)
    (hs : windowOpen s (subjectKey rl ip token) n e)
    (hcs : ∀ c ∈ cs, subjectKey rl c.ip c.token = subjectKey rl ip token ∧ c.now < e)
    (hn : 0 ≤ n) (hroom : n + cs.length ≤ (subjectConfig rl token).Limit)
    (hL64 : isInt64 (subjectConfig rl token).Limit) :
    (runCalls ε rl cs s).1 =
        openWindowResults ε (subjectConfig rl token).Limit (subjectKind rl token) e n
          (cs.map Call.now) ∧
      windowOpen (runCalls ε rl cs s).2 (subjectKey rl ip token) (n + cs.length) e := by
  induction cs generalizing s n with
  | nil => simpa [runCalls, openWindowResults] using hs
  | cons c cs ih =>
    have hc := hcs c (List.mem_cons_self _ _)
    have hlen : n + 1 + (cs.length : Int) = n + ((c :: cs).length : Int) := by
      simp only [List.length_cons]; push_cast; ring
    have hstep := checkLimitForKey_open (ε := ε) c.now (subjectKey rl ip token)
      (subjectConfig rl token) (subjectKind rl token) s n e hs hc.2 hn
      (by rw [← hlen] at hroom; omega) hL64
    rw [← CheckLimit_of_subject rl (mockStorage ε c.now) c.now ip token c.ip c.token s hc.1]
      at hstep
    have hrest := ih (CheckLimit rl (mockStorage ε c.now) c.now c.ip c.token s).2 (n + 1)
      hstep.2 (fun d hd => hcs d (List.mem_cons_of_mem _ hd)) (by omega)
      (by rw [hlen]; exact hroom)
    simp only [runCalls, List.map_cons, openWindowResults]
    rw [hstep.1, hrest.1]
    refine ⟨rfl, ?_⟩
    rw [← hlen]; exact hrest.2

/-- The run that exhausts a quota: the first call of a subject without records, the
further calls that fit under the limit, and the call that exceeds it, all before the
window of the first call ends. -/
theorem runCalls_quota (ε : Type) (rl : RateLimiter) (ip token : String) (c1 : Call)
    (mid : List Call) (last : Call) (s : MockStorage)
    (hs : freshSubject s (subjectKey rl ip token))
    (hL : 1 ≤ (subjectConfig rl token).Limit)
    (hmax : (subjectConfig rl token).Limit < maxInt64)
    (hW : 0 < (subjectConfig rl token).Window)
    (hsub : ∀ c ∈ c1 :: (mid ++ [last]), subjectKey rl c.ip c.token = subjectKey rl ip token)
    (hwin : ∀ c ∈ mid ++ [last], c.now < Time.Add c1.now (subjectConfig rl token).Window)
    (hlen : (mid.length : Int) + 1 = (subjectConfig rl token).Limit) :
    (runCalls ε rl (c1 :: (mid ++ [last])) s).1 =
        openWindowResults ε (subjectConfig rl token).Limit (subjectKind rl token)
            (Time.Add c1.now (subjectConfig rl token).Window) 0 ((c1 :: mid).map Call.now)
          ++ [Except.ok ⟨false, 0, Time.Add last.now (subjectConfig rl token).BlockTime,
                subjectKind rl token, (subjectConfig rl token).Limit⟩] ∧
      blockedUntil (runCalls ε rl (c1 :: (mid ++ [last])) s).2 (subjectKey rl ip token)
        (Time.Add last.now (subjectConfig rl token).BlockTime) := by
  have hL64 : isInt64 (subjectConfig rl token).Limit := by
    unfold isInt64 minInt64 maxInt64 at *; omega
  have h1 := checkLimitForKey_fresh (ε := ε) c1.now (subjectKey rl ip token)
    (subjectConfig rl token) (subjectKind rl token) s hs hL hL64 hW
  rw [← CheckLimit_of_subject rl (mockStorage ε c1.now) c1.now ip token c1.ip c1.token s
    (hsub c1 (List.mem_cons_self _ _))] at h1
  have h2 := runCalls_open ε rl ip token mid
    (CheckLimit rl (mockStorage ε c1.now) c1.now c1.ip c1.token s).2 1
    (Time.Add c1.now (subjectConfig rl token).Window) h1.2
    (fun c hc => ⟨hsub c (List.mem_cons_of_mem _ (List.mem_append_left _ hc)),
      hwin c (List.mem_append_left _ hc)⟩)
    (by omega) (by omega) hL64
  have hlast := hsub last (List.mem_cons_of_mem _ (List.mem_append_right _ (List.mem_singleton_self _)))
  have h3 := checkLimitForKey_exceed (ε := ε) last.now (subjectKey rl ip token)
    (subjectConfig rl token) (subjectKind rl token)
    (runCalls ε rl mid (CheckLimit rl (mockStorage ε c1.now) c1.now c1.ip c1.token s).2).2
    (1 + mid.length) (Time.Add c1.now (subjectConfig rl token).Window) h2.2
    (hwin last (List.mem_append_right _ (List.mem_singleton_self _))) (by omega)
    (by unfold isInt64 minInt64 maxInt64 at *; omega)
  rw [← CheckLimit_of_subject rl (mockStorage ε last.now) last.now ip token last.ip last.token
    _ hlast] at h3
  have hrun : runCalls ε rl (c1 :: (mid ++ [last])) s =
      ((CheckLimit rl (mockStorage ε c1.now) c1.now c1.ip c1.token s).1 ::
        ((runCalls ε rl mid
            (CheckLimit rl (mockStorage ε c1.now) c1.now c1.ip c1.token s).2).1 ++
          [(CheckLimit rl (mockStorage ε last.now) last.now last.ip last.token
            (runCalls ε rl mid
              (CheckLimit rl (mockStorage ε c1.now) c1.now c1.ip c1.token s).2).2).1]),
        (CheckLimit rl (mockStorage ε last.now) last.now last.ip last.token
            (runCalls ε rl mid
              (CheckLimit rl (mockStorage ε c1.now) c1.now c1.ip c1.token s).2).2).2) := by
    simp [runCalls, runCalls_append]
  rw [hrun]
  refine ⟨?_, h3.2⟩
  simp only [h1.1, h2.1, h3.1, List.map_cons, openWindowResults]
  simp

end ratelimiter

namespace ratelimiter

/-- With the limit at the top of the `int64` range, the call that follows the last
counted one wraps the counter to the bottom of the range and is allowed. -/
theorem checkLimitForKey_wrap {ε : Type} (now : Time) (k : String) (config : Config)
    (limitType : LimitType) (s : MockStorage) (e : Time)
    (hL : config.Limit = maxInt64) (hs : windowOpen s k maxInt64 e) (hlt : now < e) :
    (checkLimitForKey (mockStorage ε now) now k config limitType s).1
        = Except.ok ⟨true, 0, Time.Add now (timeUntil now e), limitType, maxInt64⟩ := by
  obtain ⟨hd, ht, hbd, hbt⟩ := hs
  have hc : wrapInt64 (maxInt64 + 1) = minInt64 := by decide
  have hr : wrapInt64 (maxInt64 - minInt64) = -1 := by decide
  rw [checkLimitForKey_mock, Get_absent s now _ hbd hbt,
    Increment_live s now k _ maxInt64 e hd ht hlt, hc, hL]
  have hz : ¬ (((0 : Int), s).1 > 0) := by simp
  have hnotgt : ¬ (minInt64 > maxInt64) := by decide
  have hneg : (-1 : Int) < 0 := by decide
  rw [if_neg hz, if_neg hnotgt, hr, if_pos hneg]
  rw [TTL_live (MockStorage.mk (s.data.insert k minInt64) s.ttl) now k e ht hlt]

/-- The run of `runCalls_quota` under the largest `int64` limit: the call after the
last counted one is allowed. -/
theorem runCalls_quota_wrap (ε : Type) (rl : RateLimiter) (ip token : String) (c1 : Call)
    (mid : List Call) (last : Call) (s : MockStorage)
    (hs : freshSubject s (subjectKey rl ip token))
    (hL : (subjectConfig rl token).Limit = maxInt64)
    (hW : 0 < (subjectConfig rl token).Window)
    (hsub : ∀ c ∈ c1 :: (mid ++ [last]), subjectKey rl c.ip c.token = subjectKey rl ip token)
    (hwin : ∀ c ∈ mid ++ [last], c.now < Time.Add c1.now (subjectConfig rl token).Window)
    (hlen : (mid.length : Int) + 1 = maxInt64) :
    (runCalls ε rl (c1 :: (mid ++ [last])) s).1 =
        openWindowResults ε maxInt64 (subjectKind rl token)
            (Time.Add c1.now (subjectConfig rl token).Window) 0 ((c1 :: mid).map Call.now)
          ++ [Except.ok ⟨true, 0,
                Time.Add last.now
                  (timeUntil last.now (Time.Add c1.now (subjectConfig rl token).Window)),
                subjectKind rl token, maxInt64⟩] := by
  have hL64 : isInt64 (subjectConfig rl token).Limit := by rw [hL]; decide
  have hL1 : 1 ≤ (subjectConfig rl token).Limit := by rw [hL]; decide
  have h1 := checkLimitForKey_fresh (ε := ε) c1.now (subjectKey rl ip token)
    (subjectConfig rl token) (subjectKind rl token) s hs hL1 hL64 hW
  rw [← CheckLimit_of_subject rl (mockStorage ε c1.now) c1.now ip token c1.ip c1.token s
    (hsub c1 (List.mem_cons_self _ _))] at h1
  have h2 := runCalls_open ε rl ip token mid
    (CheckLimit rl (mockStorage ε c1.now) c1.now c1.ip c1.token s).2 1
    (Time.Add c1.now (subjectConfig rl token).Window) h1.2
    (fun c hc => ⟨hsub c (List.mem_cons_of_mem _ (List.mem_append_left _ hc)),
      hwin c (List.mem_append_left _ hc)⟩)
    (by omega) (by rw [hL]; omega) hL64
  have hlast := hsub last (List.mem_cons_of_mem _ (List.mem_append_right _ (List.mem_singleton_self _)))
  have hcount : (1 : Int) + mid.length = maxInt64 := by omega
  rw [hcount] at h2
  have h3 := checkLimitForKey_wrap (ε := ε) last.now (subjectKey rl ip token)
    (subjectConfig rl token) (subjectKind rl token)
    (runCalls ε rl mid (CheckLimit rl (mockStorage ε c1.now) c1.now c1.ip c1.token s).2).2
    (Time.Add c1.now (subjectConfig rl token).Window) hL h2.2
    (hwin last (List.mem_append_right _ (List.mem_singleton_self _)))
  rw [← CheckLimit_of_subject rl (mockStorage ε last.now) last.now ip token last.ip last.token
    _ hlast] at h3
  have hrun : (runCalls ε rl (c1 :: (mid ++ [last])) s).1 =
      ((CheckLimit rl (mockStorage ε c1.now) c1.now c1.ip c1.token s).1 ::
        ((runCalls ε rl mid
            (CheckLimit rl (mockStorage ε c1.now) c1.now c1.ip c1.token s).2).1 ++
          [(CheckLimit rl (mockStorage ε last.now) last.now last.ip last.token
            (runCalls ε rl mid
              (CheckLimit rl (mockStorage ε c1.now) c1.now c1.ip c1.token s).2).2).1])) := by
    simp [runCalls, runCalls_append]
  rw [hrun]
  simp only [h1.1, h2.1, h3, List.map_cons, openWindowResults, hL]
  simp

end ratelimiter

/-! ## C1: the quota of a fresh subject -/

namespace ratelimiter

/-- Claim C1, amended: for every policy with limit `L`, `1 ≤ L < 2^63 - 1`, and window
`W > 0` over the in-process store, and every subject with neither a counter record nor a
block record: among any sequence of calls `cs`, if the calls made for that subject are
`L + 1` in number (`c1` and then `rest`) and all of `rest` are made at readings strictly
before `c1.now + W`, then the subject's `i`-th call, for `i` in `1..L` (index `i - 1`),
returns `Allowed = true` with `Remaining = L - i`, and its `(L+1)`-th call returns
`Allowed = false` with `Remaining = 0`.  Calls of other subjects may be interleaved, and
the readings need not be ordered. -/
theorem fresh_subject_quota (ε : Type) (rl : RateLimiter) (ip token : String) (s : MockStorage)
    (cs : List Call) (c1 : Call) (rest : List Call)
    (hfresh : freshSubject s (subjectKey rl ip token))
    (hL : 1 ≤ (subjectConfig rl token).Limit)
    (hmax : (subjectConfig rl token).Limit < maxInt64)
    (hW : 0 < (subjectConfig rl token).Window)
    (hcalls : callsFor rl (subjectKey rl ip token) cs = c1 :: rest)
    (hlen : (rest.length : Int) = (subjectConfig rl token).Limit)
    (hwin : ∀ c ∈ rest, c.now < Time.Add c1.now (subjectConfig rl token).Window) :
    (∀ i : Nat, (i : Int) < (subjectConfig rl token).Limit →
        ∃ d : CheckResult,
          (resultsFor rl (subjectKey rl ip token) cs (runCalls ε rl cs s).1)[i]?
              = some (Except.ok d) ∧
            d.Allowed = true ∧ d.Remaining = (subjectConfig rl token).Limit - (i + 1)) ∧
      (∃ d : CheckResult,
          (resultsFor rl (subjectKey rl ip token) cs (runCalls ε rl cs s).1)[rest.length]?
              = some (Except.ok d) ∧
            d.Allowed = false ∧ d.Remaining = 0) := by
  have hproj := (runCalls_project ε rl ip token cs s s (agreeAt_refl _ _) (agreeAt_refl _ _)).1
  rw [hproj, hcalls]
  have hrest : rest ≠ [] := by
    intro h; rw [h] at hlen; simp at hlen; omega
  rcases List.eq_nil_or_concat rest with h | ⟨mid, last, h⟩
  · exact absurd h hrest
  rw [List.concat_eq_append] at h
  subst h
  have hsub : ∀ c ∈ c1 :: (mid ++ [last]),
      subjectKey rl c.ip c.token = subjectKey rl ip token := by
    intro c hc
    rw [← hcalls] at hc
    have := (List.mem_filter.mp hc).2
    simpa using this
  have hlen' : (mid.length : Int) + 1 = (subjectConfig rl token).Limit := by
    rw [← hlen]; simp
  have hq := (runCalls_quota ε rl ip token c1 mid last s hfresh hL hmax hW hsub hwin hlen').1
  rw [hq]
  have hlen1 : (openWindowResults ε (subjectConfig rl token).Limit (subjectKind rl token)
      (Time.Add c1.now (subjectConfig rl token).Window) 0 ((c1 :: mid).map Call.now)).length
      = mid.length + 1 := by
    rw [openWindowResults_length]; simp
  constructor
  · intro i hi
    have hi' : i < mid.length + 1 := by omega
    rw [List.getElem?_append_left (by rw [hlen1]; exact hi'), openWindowResults_getElem?]
    cases hget : ((c1 :: mid).map Call.now)[i]? with
    | none =>
      have hle := List.getElem?_eq_none_iff.mp hget
      simp at hle
      omega
    | some t =>
      refine ⟨⟨true, (subjectConfig rl token).Limit - (0 + i + 1),
        Time.Add t (timeUntil t (Time.Add c1.now (subjectConfig rl token).Window)),
        subjectKind rl token, (subjectConfig rl token).Limit⟩, rfl, rfl, ?_⟩
      simp
  · have : (mid ++ [last]).length = mid.length + 1 := by simp
    rw [this, List.getElem?_append_right (by rw [hlen1]), hlen1]
    refine ⟨⟨false, 0, Time.Add last.now (subjectConfig rl token).BlockTime,
      subjectKind rl token, (subjectConfig rl token).Limit⟩, ?_, rfl, rfl⟩
    simp


/-- Witness of C1 on the policy of `TestRateLimiter_IPLimiting` (limit 3, window one
second, block one minute): four calls of `192.168.1.1` within the first second, with a
call of another address in between. -/
theorem fresh_subject_quota_witness :
    (∀ i : Nat, (i : Int) < (subjectConfig testLimiter "").Limit →
        ∃ d : CheckResult,
          (resultsFor testLimiter (subjectKey testLimiter "192.168.1.1" "")
              [⟨"192.168.1.1", "", 0⟩, ⟨"10.0.0.9", "", 1⟩, ⟨"192.168.1.1", "", 5⟩,
                ⟨"192.168.1.1", "", 10⟩, ⟨"192.168.1.1", "", 999999999⟩]
              (runCalls Unit testLimiter
                [⟨"192.168.1.1", "", 0⟩, ⟨"10.0.0.9", "", 1⟩, ⟨"192.168.1.1", "", 5⟩,
                  ⟨"192.168.1.1", "", 10⟩, ⟨"192.168.1.1", "", 999999999⟩]
                NewMockStorage).1)[i]?
              = some (Except.ok d) ∧
            d.Allowed = true ∧ d.Remaining = (subjectConfig testLimiter "").Limit - (i + 1)) ∧
      (∃ d : CheckResult,
          (resultsFor testLimiter (subjectKey testLimiter "192.168.1.1" "")
              [⟨"192.168.1.1", "", 0⟩, ⟨"10.0.0.9", "", 1⟩, ⟨"192.168.1.1", "", 5⟩,
                ⟨"192.168.1.1", "", 10⟩, ⟨"192.168.1.1", "", 999999999⟩]
              (runCalls Unit testLimiter
                [⟨"192.168.1.1", "", 0⟩, ⟨"10.0.0.9", "", 1⟩, ⟨"192.168.1.1", "", 5⟩,
                  ⟨"192.168.1.1", "", 10⟩, ⟨"192.168.1.1", "", 999999999⟩]
                NewMockStorage).1)[3]?
              = some (Except.ok d) ∧
            d.Allowed = false ∧ d.Remaining = 0) :=
  fresh_subject_quota Unit testLimiter "192.168.1.1" "" NewMockStorage
    [⟨"192.168.1.1", "", 0⟩, ⟨"10.0.0.9", "", 1⟩, ⟨"192.168.1.1", "", 5⟩,
      ⟨"192.168.1.1", "", 10⟩, ⟨"192.168.1.1", "", 999999999⟩]
    ⟨"192.168.1.1", "", 0⟩
    [⟨"192.168.1.1", "", 5⟩, ⟨"192.168.1.1", "", 10⟩, ⟨"192.168.1.1", "", 999999999⟩]
    ⟨rfl, rfl, rfl, rfl⟩ (by decide) (by decide) (by decide) (by rfl) (by decide)
    (by decide)

/-- Claim C1 fails as stated at the limit `L = 2^63 - 1`: of `L + 1 = 2^63` calls of a
subject without records, all made at the reading `0` under a window of one nanosecond,
the last one increments the counter from `2^63 - 1` to `-2^63`, which is not above the
limit, and is allowed. -/
theorem quota_wraps_at_max_limit :
    (runCalls Unit (NewRateLimiter ⟨9223372036854775807, 1, 0⟩)
        (List.replicate 9223372036854775808 ⟨"192.168.1.1", "", 0⟩)
        NewMockStorage).1[9223372036854775807]?
      = some (Except.ok ⟨true, 0, 1, LimitType.IPLimit, 9223372036854775807⟩) := by
  have hrep : List.replicate 9223372036854775808 (⟨"192.168.1.1", "", 0⟩ : Call)
      = (⟨"192.168.1.1", "", 0⟩ : Call) ::
          (List.replicate 9223372036854775806 (⟨"192.168.1.1", "", 0⟩ : Call)
            ++ [(⟨"192.168.1.1", "", 0⟩ : Call)]) := by
    rw [← List.replicate_succ', ← List.replicate_succ]
  have hmem : ∀ c ∈ List.replicate 9223372036854775806 (⟨"192.168.1.1", "", 0⟩ : Call)
      ++ [(⟨"192.168.1.1", "", 0⟩ : Call)], c = ⟨"192.168.1.1", "", 0⟩ := by
    intro c hc
    rcases List.mem_append.mp hc with h | h
    · exact List.eq_of_mem_replicate h
    · exact List.mem_singleton.mp h
  have hq := runCalls_quota_wrap Unit (NewRateLimiter ⟨9223372036854775807, 1, 0⟩)
    "192.168.1.1" "" ⟨"192.168.1.1", "", 0⟩
    (List.replicate 9223372036854775806 ⟨"192.168.1.1", "", 0⟩) ⟨"192.168.1.1", "", 0⟩
    NewMockStorage ⟨rfl, rfl, rfl, rfl⟩ (by decide) (by decide)
    (by
      intro c hc
      rcases List.mem_cons.mp hc with h | h
      · rw [h]
      · rw [hmem c h])
    (by intro c hc; rw [hmem c hc]; decide)
    (by rw [List.length_replicate]; decide)
  rw [hrep, hq]
  rw [List.getElem?_append_right (by
    rw [openWindowResults_length, List.length_map, List.length_cons, List.length_replicate])]
  rw [openWindowResults_length, List.length_map, List.length_cons, List.length_replicate]
  rfl

end ratelimiter

/-! ## C2: a block outlasts the window -/

namespace ratelimiter

/-- A call that finds the subject not blocked and is denied has written the block record,
expiring `BlockTime` after the call. -/
theorem blockedUntil_of_denied {ε : Type} (now : Time) (k : String) (config : Config)
    (limitType : LimitType) (s : MockStorage) (d : CheckResult)
    (hfree : ¬ (s.Get now ("blocked:" ++ k)).1 > 0)
    (hres : (checkLimitForKey (mockStorage ε now) now k config limitType s).1 = Except.ok d)
    (hden : d.Allowed = false) :
    blockedUntil (checkLimitForKey (mockStorage ε now) now k config limitType s).2 k
      (Time.Add now config.BlockTime) := by
  rw [checkLimitForKey_mock, if_neg hfree] at hres ⊢
  by_cases hi : ((s.Get now ("blocked:" ++ k)).2.Increment now k config.Window).1 > config.Limit
  · rw [if_pos hi]
    simp [blockedUntil, MockStorage.Set, GoMap.insert]
  · rw [if_neg hi] at hres
    simp only [Except.ok.injEq] at hres
    rw [← hres] at hden
    simp at hden

/-- While the block record of a subject is live, every call made for the subject is
denied, whatever calls are made for other subjects, and the block record stays. -/
theorem runCalls_blocked (ε : Type) (rl : RateLimiter) (ip token : String) (e : Time)
    (cs : List Call) (s : MockStorage) (hs : blockedUntil s (subjectKey rl ip token) e)
    (hcs : ∀ c ∈ cs, subjectKey rl c.ip c.token = subjectKey rl ip token → c.now < e) :
    (∀ r ∈ resultsFor rl (subjectKey rl ip token) cs (runCalls ε rl cs s).1,
        ∃ d : CheckResult, r = Except.ok d ∧ d.Allowed = false ∧ d.Remaining = 0) ∧
      blockedUntil (runCalls ε rl cs s).2 (subjectKey rl ip token) e := by
  induction cs generalizing s with
  | nil => exact ⟨fun r hr => by simp [resultsFor] at hr, hs⟩
  | cons c cs ih =>
    by_cases hc : subjectKey rl c.ip c.token = subjectKey rl ip token
    · have hstep := checkLimitForKey_blocked (ε := ε) c.now (subjectKey rl ip token)
        (subjectConfig rl token) (subjectKind rl token) s 1 e hs.1 (by decide) hs.2
        (hcs c (List.mem_cons_self _ _) hc)
      rw [← CheckLimit_of_subject rl (mockStorage ε c.now) c.now ip token c.ip c.token s hc]
        at hstep
      have hrest := ih s hs (fun d hd => hcs d (List.mem_cons_of_mem _ hd))
      simp only [runCalls, resultsFor, hc, if_true, hstep]
      refine ⟨?_, hrest.2⟩
      intro r hr
      rcases List.mem_cons.mp hr with h | h
      · exact ⟨_, h, rfl, rfl⟩
      · exact hrest.1 r h
    · have hf := (CheckLimit_frame (ε := ε) rl c s ip token hc).2
      have hs' : blockedUntil (CheckLimit rl (mockStorage ε c.now) c.now c.ip c.token s).2
          (subjectKey rl ip token) e := ⟨hf.1.trans hs.1, hf.2.trans hs.2⟩
      have hrest := ih _ hs' (fun d hd => hcs d (List.mem_cons_of_mem _ hd))
      simp only [runCalls, resultsFor, hc, if_false]
      exact hrest

/-- Claim C2: over the in-process store, for every policy, if the call made for a subject
at the reading `t0` finds the subject not blocked and is denied (it is the call that
exceeds the limit and writes the block record), then in every later sequence of calls `cs`,
every call made for that subject at a reading before `t0 + BlockTime` returns
`Allowed = false` and `Remaining = 0`, whether or not the counter window has expired by
then, and whatever calls of other subjects are interleaved. -/
theorem block_outlasts_window (ε : Type) (rl : RateLimiter) (ip token : String) (t0 : Time)
    (s0 : MockStorage) (d0 : CheckResult) (cs : List Call)
    (hfree : ¬ (s0.Get t0 ("blocked:" ++ subjectKey rl ip token)).1 > 0)
    (hres : (CheckLimit rl (mockStorage ε t0) t0 ip token s0).1 = Except.ok d0)
    (hden : d0.Allowed = false)
    (hcs : ∀ c ∈ cs, subjectKey rl c.ip c.token = subjectKey rl ip token →
      c.now < Time.Add t0 (subjectConfig rl token).BlockTime) :
    ∀ r ∈ resultsFor rl (subjectKey rl ip token) cs
        (runCalls ε rl cs (CheckLimit rl (mockStorage ε t0) t0 ip token s0).2).1,
      ∃ d : CheckResult, r = Except.ok d ∧ d.Allowed = false ∧ d.Remaining = 0 := by
  rw [CheckLimit_eq] at hres
  have hb := blockedUntil_of_denied t0 (subjectKey rl ip token) (subjectConfig rl token)
    (subjectKind rl token) s0 d0 hfree hres hden
  rw [← CheckLimit_eq] at hb
  exact (runCalls_blocked ε rl ip token _ cs _ hb hcs).1

end ratelimiter

/-! ## Decisions over any store -/

namespace ratelimiter

/-- Every decision carries the limit kind and the limit it was asked under. -/
theorem decision_kind_limit {σ ε : Type} (st : Storage σ ε) (now : Time) (key : String)
    (config : Config) (limitType : LimitType) (s : σ) (d : CheckResult)
    (h : (checkLimitForKey st now key config limitType s).1 = Except.ok d) :
    d.LimitType = limitType ∧ d.Limit = config.Limit := by
  unfold checkLimitForKey at h
  simp only [] at h
  rcases hg : st.Get ("blocked:" ++ key) s with ⟨_ | blocked, s1⟩
  · simp [hg] at h
  · rw [hg] at h
    simp only [] at h
    by_cases hb : blocked > 0
    · rw [if_pos hb] at h
      rcases ht : st.TTL ("blocked:" ++ key) s1 with ⟨_ | ttl, s2⟩
      · simp [ht] at h
      · simp [ht] at h; rw [← h]; exact ⟨rfl, rfl⟩
    · rw [if_neg hb] at h
      rcases hi : st.Increment key config.Window s1 with ⟨_ | count, s2⟩
      · simp [hi] at h
      · rw [hi] at h
        simp only [] at h
        by_cases hc : count > config.Limit
        · rw [if_pos hc] at h
          rcases hset : st.Set ("blocked:" ++ key) 1 config.BlockTime s2 with ⟨_ | u, s3⟩
          · simp [hset] at h
          · simp [hset] at h; rw [← h]; exact ⟨rfl, rfl⟩
        · rw [if_neg hc] at h
          rcases ht : st.TTL key s2 with ⟨_ | ttl, s3⟩
          · simp [ht] at h
          · simp [ht] at h; rw [← h]; exact ⟨rfl, rfl⟩

end ratelimiter

namespace ratelimiter

/-- Witness of C2 on the policy of `TestRateLimiter_IPLimiting`: the fourth call of
`192.168.1.1`, at the reading 3 ns, is the denied one; the later calls of that address one
second later (the counter window has expired) and just before the block expires are
denied, with a call of another address in between. -/
theorem block_outlasts_window_witness :
    (CheckLimit testLimiter (mockStorage Unit 3) 3 "192.168.1.1" ""
          (runCalls Unit testLimiter
            [⟨"192.168.1.1", "", 0⟩, ⟨"192.168.1.1", "", 1⟩, ⟨"192.168.1.1", "", 2⟩]
            NewMockStorage).2).1
        = Except.ok ⟨false, 0, 60000000003, LimitType.IPLimit, 3⟩ ∧
    ∀ r ∈ resultsFor testLimiter (subjectKey testLimiter "192.168.1.1" "")
        [⟨"192.168.1.1", "", 1000000000⟩, ⟨"10.0.0.9", "", 1000000005⟩,
          ⟨"192.168.1.1", "", 60000000002⟩]
        (runCalls Unit testLimiter
          [⟨"192.168.1.1", "", 1000000000⟩, ⟨"10.0.0.9", "", 1000000005⟩,
            ⟨"192.168.1.1", "", 60000000002⟩]
          (CheckLimit testLimiter (mockStorage Unit 3) 3 "192.168.1.1" ""
            (runCalls Unit testLimiter
              [⟨"192.168.1.1", "", 0⟩, ⟨"192.168.1.1", "", 1⟩, ⟨"192.168.1.1", "", 2⟩]
              NewMockStorage).2).2).1,
      ∃ d : CheckResult, r = Except.ok d ∧ d.Allowed = false ∧ d.Remaining = 0 :=
  ⟨rfl, block_outlasts_window Unit testLimiter "192.168.1.1" "" 3
    (runCalls Unit testLimiter
      [⟨"192.168.1.1", "", 0⟩, ⟨"192.168.1.1", "", 1⟩, ⟨"192.168.1.1", "", 2⟩]
      NewMockStorage).2
    ⟨false, 0, 60000000003, LimitType.IPLimit, 3⟩
    [⟨"192.168.1.1", "", 1000000000⟩, ⟨"10.0.0.9", "", 1000000005⟩,
      ⟨"192.168.1.1", "", 60000000002⟩]
    (by decide) rfl rfl (by decide)⟩

/-- Claim C3, amended: over every store, for every policy, subject and clock reading, when
the `Get` of the subject's block key `blocked:<subjectKey>` returns a value greater than
zero, then `CheckLimit` returns, once the `TTL` of that key has returned `ttl`, the decision
`Allowed = false`, `Remaining = 0`, `ResetTime = now + ttl` with the limit kind and the
limit of the resolved policy, and the store as that `TTL` left it; the counter is not
consulted, and no decision it returns in that case has `Allowed = true`. -/
theorem live_block_denies {σ ε : Type} (rl : RateLimiter) (st : Storage σ ε) (now : Time)
    (ip token : String) (s : σ) (blocked : Int) (s1 : σ)
    (hget : st.Get ("blocked:" ++ subjectKey rl ip token) s = (Except.ok blocked, s1))
    (hpos : blocked > 0) :
    (∀ (ttl : Duration) (s2 : σ),
        st.TTL ("blocked:" ++ subjectKey rl ip token) s1 = (Except.ok ttl, s2) →
        CheckLimit rl st now ip token s =
          (Except.ok ⟨false, 0, Time.Add now ttl, subjectKind rl token,
            (subjectConfig rl token).Limit⟩, s2)) ∧
      (∀ d : CheckResult, (CheckLimit rl st now ip token s).1 = Except.ok d →
        d.Allowed = false ∧ d.Remaining = 0) := by
  rw [CheckLimit_eq]
  unfold checkLimitForKey
  simp only [hget, if_pos hpos]
  constructor
  · intro ttl s2 ht
    simp [ht]
  · intro d hd
    rcases ht : st.TTL ("blocked:" ++ subjectKey rl ip token) s1 with ⟨_ | ttl, s2⟩
    · simp [ht] at hd
    · simp [ht] at hd; rw [← hd]; exact ⟨rfl, rfl⟩

/-- Witness of C3: the subject `192.168.1.1` after the four calls that exhaust its quota,
asked again at the reading 5 ns. -/
theorem live_block_denies_witness :
    (∀ (ttl : Duration) (s2 : MockStorage),
        (mockStorage Unit 5).TTL ("blocked:" ++ subjectKey testLimiter "192.168.1.1" "")
            (runCalls Unit testLimiter
              [⟨"192.168.1.1", "", 0⟩, ⟨"192.168.1.1", "", 1⟩, ⟨"192.168.1.1", "", 2⟩,
                ⟨"192.168.1.1", "", 3⟩] NewMockStorage).2 = (Except.ok ttl, s2) →
        CheckLimit testLimiter (mockStorage Unit 5) 5 "192.168.1.1" ""
            (runCalls Unit testLimiter
              [⟨"192.168.1.1", "", 0⟩, ⟨"192.168.1.1", "", 1⟩, ⟨"192.168.1.1", "", 2⟩,
                ⟨"192.168.1.1", "", 3⟩] NewMockStorage).2 =
          (Except.ok ⟨false, 0, Time.Add 5 ttl, subjectKind testLimiter "",
            (subjectConfig testLimiter "").Limit⟩, s2)) ∧
      (∀ d : CheckResult,
        (CheckLimit testLimiter (mockStorage Unit 5) 5 "192.168.1.1" ""
            (runCalls Unit testLimiter
              [⟨"192.168.1.1", "", 0⟩, ⟨"192.168.1.1", "", 1⟩, ⟨"192.168.1.1", "", 2⟩,
                ⟨"192.168.1.1", "", 3⟩] NewMockStorage).2).1 = Except.ok d →
        d.Allowed = false ∧ d.Remaining = 0) :=
  live_block_denies testLimiter (mockStorage Unit 5) 5 "192.168.1.1" ""
    (runCalls Unit testLimiter
      [⟨"192.168.1.1", "", 0⟩, ⟨"192.168.1.1", "", 1⟩, ⟨"192.168.1.1", "", 2⟩,
        ⟨"192.168.1.1", "", 3⟩] NewMockStorage).2
    1
    (runCalls Unit testLimiter
      [⟨"192.168.1.1", "", 0⟩, ⟨"192.168.1.1", "", 1⟩, ⟨"192.168.1.1", "", 2⟩,
        ⟨"192.168.1.1", "", 3⟩] NewMockStorage).2
    rfl (by decide)

/-- Claim C3 fails as stated for a block record whose value is present and non-zero but
negative: with `-1` stored under `blocked:ip:192.168.1.1` and not expired, `Get` returns
`-1`, the test `blocked > 0` fails, and `CheckLimit` counts the call and allows it. -/
theorem negative_block_value_is_not_a_block :
    ((mockStorage Unit 0).Get "blocked:ip:192.168.1.1"
          ⟨GoMap.insert GoMap.empty "blocked:ip:192.168.1.1" (-1),
            GoMap.insert GoMap.empty "blocked:ip:192.168.1.1" 60000000000⟩).1
        = Except.ok (-1) ∧
      (CheckLimit testLimiter (mockStorage Unit 0) 0 "192.168.1.1" ""
          ⟨GoMap.insert GoMap.empty "blocked:ip:192.168.1.1" (-1),
            GoMap.insert GoMap.empty "blocked:ip:192.168.1.1" 60000000000⟩).1
        = Except.ok ⟨true, 2, 1000000000, LimitType.IPLimit, 3⟩ :=
  ⟨rfl, rfl⟩

end ratelimiter

/-! ## C4, C5: which subject a call is for -/

namespace ratelimiter

/-- Registrations made for other tokens leave the policy of a token as it is. -/
theorem tokenConfigs_foldl (rl : RateLimiter) (T : String)
    (later : List (String × Config)) (hlater : ∀ p ∈ later, p.1 ≠ T) :
    (later.foldl (fun r p => r.SetTokenConfig p.1 p.2) rl).tokenConfigs T
      = rl.tokenConfigs T ∧
    (later.foldl (fun r p => r.SetTokenConfig p.1 p.2) rl).ipConfig = rl.ipConfig := by
  induction later generalizing rl with
  | nil => exact ⟨rfl, rfl⟩
  | cons p later ih =>
    have h := ih (rl.SetTokenConfig p.1 p.2) (fun q hq => hlater q (List.mem_cons_of_mem _ hq))
    have hp : T ≠ p.1 := fun h => hlater p (List.mem_cons_self _ _) h.symm
    simp only [List.foldl_cons]
    rw [h.1, h.2]
    simp [RateLimiter.SetTokenConfig, GoMap.insert, hp]

/-- Claim C4: for every non-empty token `T` whose policy `P` was registered with
`SetTokenConfig` (whatever policies were registered for other tokens afterwards), every two
IP strings, every store, store state and clock reading: `CheckLimit(ip1, T)` and
`CheckLimit(ip2, T)` return the same result and leave the same store state, namely those of
`checkLimitForKey` for the key `token:T` under `P` with the kind `token`; every decision
so returned has `LimitType = token` and `Limit = P.Limit`. -/
theorem token_policy_ignores_ip {σ ε : Type} (rl : RateLimiter) (st : Storage σ ε)
    (now : Time) (T : String) (P : Config) (later : List (String × Config))
    (ip1 ip2 : String) (s : σ) (hT : T ≠ "") (hlater : ∀ p ∈ later, p.1 ≠ T) :
    CheckLimit (later.foldl (fun r p => r.SetTokenConfig p.1 p.2) (rl.SetTokenConfig T P))
          st now ip1 T s
        = CheckLimit
          (later.foldl (fun r p => r.SetTokenConfig p.1 p.2) (rl.SetTokenConfig T P))
          st now ip2 T s ∧
      CheckLimit (later.foldl (fun r p => r.SetTokenConfig p.1 p.2) (rl.SetTokenConfig T P))
          st now ip1 T s
        = checkLimitForKey st now ("token:" ++ T) P LimitType.TokenLimit s ∧
      (∀ d : CheckResult,
        (CheckLimit
          (later.foldl (fun r p => r.SetTokenConfig p.1 p.2) (rl.SetTokenConfig T P))
          st now ip1 T s).1 = Except.ok d →
          d.LimitType = LimitType.TokenLimit ∧ d.Limit = P.Limit) := by
  have hreg : (later.foldl (fun r p => r.SetTokenConfig p.1 p.2)
      (rl.SetTokenConfig T P)).tokenConfigs T = some P := by
    rw [(tokenConfigs_foldl _ T later hlater).1]
    simp [RateLimiter.SetTokenConfig, GoMap.insert]
  have h1 : ∀ ip, CheckLimit
      (later.foldl (fun r p => r.SetTokenConfig p.1 p.2) (rl.SetTokenConfig T P))
      st now ip T s
      = checkLimitForKey st now ("token:" ++ T) P LimitType.TokenLimit s := by
    intro ip
    unfold CheckLimit
    rw [if_pos hT, hreg]
  refine ⟨(h1 ip1).trans (h1 ip2).symm, h1 ip1, ?_⟩
  intro d hd
  rw [h1 ip1] at hd
  exact decision_kind_limit st now _ P _ s d hd

/-- Witness of C4 on the limiter of `TestRateLimiter_TokenPrecedence` with a second token
registered afterwards: two addresses presenting `vip_token`. -/
theorem token_policy_ignores_ip_witness :
    (CheckLimit
          (List.foldl (fun r p => r.SetTokenConfig p.1 p.2)
            (testLimiter.SetTokenConfig "vip_token" ⟨10, 1000000000, 60000000000⟩)
            [("test_token", (⟨5, 1000000000, 60000000000⟩ : Config))])
          (mockStorage Unit 7) 7 "192.168.1.1" "vip_token" NewMockStorage).1
        = Except.ok ⟨true, 9, 1000000007, LimitType.TokenLimit, 10⟩ ∧
      CheckLimit
          (List.foldl (fun r p => r.SetTokenConfig p.1 p.2)
            (testLimiter.SetTokenConfig "vip_token" ⟨10, 1000000000, 60000000000⟩)
            [("test_token", (⟨5, 1000000000, 60000000000⟩ : Config))])
          (mockStorage Unit 7) 7 "192.168.1.1" "vip_token" NewMockStorage
        = CheckLimit
          (List.foldl (fun r p => r.SetTokenConfig p.1 p.2)
            (testLimiter.SetTokenConfig "vip_token" ⟨10, 1000000000, 60000000000⟩)
            [("test_token", (⟨5, 1000000000, 60000000000⟩ : Config))])
          (mockStorage Unit 7) 7 "192.168.1.2" "vip_token" NewMockStorage :=
  ⟨rfl, (token_policy_ignores_ip testLimiter (mockStorage Unit 7) 7 "vip_token"
    ⟨10, 1000000000, 60000000000⟩ [("test_token", ⟨5, 1000000000, 60000000000⟩)]
    "192.168.1.1" "192.168.1.2" NewMockStorage (by decide) (by decide)).1⟩

/-- Claim C5: for every token that is empty (whatever is registered under the empty
string) or has no registered policy, every IP, store, store state and clock reading:
`CheckLimit(ip, token)` returns the same result and leaves the same store state as
`CheckLimit(ip, "")`, namely those of `checkLimitForKey` for the key `ip:<ip>` under the
default IP policy with the kind `ip`; every decision so returned has `LimitType = ip` and
the IP policy's limit. -/
theorem unregistered_token_is_ip {σ ε : Type} (rl : RateLimiter) (st : Storage σ ε)
    (now : Time) (ip token : String) (s : σ)
    (h : token = "" ∨ rl.tokenConfigs token = none) :
    CheckLimit rl st now ip token s = CheckLimit rl st now ip "" s ∧
      CheckLimit rl st now ip token s
        = checkLimitForKey st now ("ip:" ++ ip) rl.ipConfig LimitType.IPLimit s ∧
      (∀ d : CheckResult, (CheckLimit rl st now ip token s).1 = Except.ok d →
          d.LimitType = LimitType.IPLimit ∧ d.Limit = rl.ipConfig.Limit) := by
  have h0 : CheckLimit rl st now ip "" s
      = checkLimitForKey st now ("ip:" ++ ip) rl.ipConfig LimitType.IPLimit s := by
    unfold CheckLimit
    simp
  have h1 : CheckLimit rl st now ip token s
      = checkLimitForKey st now ("ip:" ++ ip) rl.ipConfig LimitType.IPLimit s := by
    rcases h with h | h
    · rw [h]; exact h0
    · unfold CheckLimit
      by_cases ht : token = ""
      · simp [ht]
      · rw [if_pos ht, h]
  refine ⟨h1.trans h0.symm, h1, ?_⟩
  intro d hd
  rw [h1] at hd
  exact decision_kind_limit st now _ _ _ s d hd

/-- Witness of C5: the call of `TestRateLimiter_UnknownToken`. -/
theorem unregistered_token_is_ip_witness :
    CheckLimit testLimiter (mockStorage Unit 7) 7 "192.168.1.1" "unknown_token" NewMockStorage
        = CheckLimit testLimiter (mockStorage Unit 7) 7 "192.168.1.1" "" NewMockStorage ∧
      CheckLimit testLimiter (mockStorage Unit 7) 7 "192.168.1.1" "unknown_token" NewMockStorage
        = checkLimitForKey (mockStorage Unit 7) 7 ("ip:" ++ "192.168.1.1") testLimiter.ipConfig
            LimitType.IPLimit NewMockStorage ∧
      (∀ d : CheckResult,
        (CheckLimit testLimiter (mockStorage Unit 7) 7 "192.168.1.1" "unknown_token"
          NewMockStorage).1 = Except.ok d →
          d.LimitType = LimitType.IPLimit ∧ d.Limit = testLimiter.ipConfig.Limit) :=
  unregistered_token_is_ip testLimiter (mockStorage Unit 7) 7 "192.168.1.1" "unknown_token"
    NewMockStorage (Or.inr rfl)

end ratelimiter

/-! ## C6: subjects do not interfere -/

namespace ratelimiter

/-- Calls made for other subjects leave the two records of a subject as they were. -/
theorem runCalls_frame (ε : Type) (rl : RateLimiter) (ip token : String) (cs : List Call)
    (s : MockStorage)
    (hcs : ∀ c ∈ cs, subjectKey rl c.ip c.token ≠ subjectKey rl ip token) :
    agreeAt (runCalls ε rl cs s).2 s (subjectKey rl ip token) ∧
      agreeAt (runCalls ε rl cs s).2 s ("blocked:" ++ subjectKey rl ip token) := by
  induction cs generalizing s with
  | nil => exact ⟨agreeAt_refl _ _, agreeAt_refl _ _⟩
  | cons c cs ih =>
    have hf := CheckLimit_frame (ε := ε) rl c s ip token (hcs c (List.mem_cons_self _ _))
    have hrest := ih (CheckLimit rl (mockStorage ε c.now) c.now c.ip c.token s).2
      (fun d hd => hcs d (List.mem_cons_of_mem _ hd))
    simp only [runCalls]
    exact ⟨agreeAt_trans hrest.1 hf.1, agreeAt_trans hrest.2 hf.2⟩

/-- The three ways two subjects differ. -/
theorem distinct_subjects (rl : RateLimiter) :
    (∀ ip1 tok1 ip2 tok2 : String, (tok1 = "" ∨ rl.tokenConfigs tok1 = none) →
        (tok2 = "" ∨ rl.tokenConfigs tok2 = none) → ip1 ≠ ip2 →
        subjectKey rl ip1 tok1 ≠ subjectKey rl ip2 tok2) ∧
      (∀ ip1 tok1 ip2 tok2 : String, tok1 ≠ "" → tok2 ≠ "" →
        (rl.tokenConfigs tok1).isSome → (rl.tokenConfigs tok2).isSome → tok1 ≠ tok2 →
        subjectKey rl ip1 tok1 ≠ subjectKey rl ip2 tok2) ∧
      (∀ ip1 tok1 ip2 tok2 : String, (tok1 = "" ∨ rl.tokenConfigs tok1 = none) →
        tok2 ≠ "" → (rl.tokenConfigs tok2).isSome →
        subjectKey rl ip1 tok1 ≠ subjectKey rl ip2 tok2) := by
  have hip : ∀ ip tok : String, (tok = "" ∨ rl.tokenConfigs tok = none) →
      subjectKey rl ip tok = "ip:" ++ ip := by
    intro ip tok h
    unfold subjectKey
    rcases h with h | h
    · simp [h]
    · by_cases ht : tok = ""
      · simp [ht]
      · simp [ht, h]
  have htok : ∀ ip tok : String, tok ≠ "" → (rl.tokenConfigs tok).isSome →
      subjectKey rl ip tok = "token:" ++ tok := by
    intro ip tok h1 h2
    unfold subjectKey
    obtain ⟨c, hc⟩ := Option.isSome_iff_exists.mp h2
    simp [h1, hc]
  refine ⟨?_, ?_, ?_⟩
  · intro ip1 tok1 ip2 tok2 h1 h2 hne h
    rw [hip _ _ h1, hip _ _ h2] at h
    exact hne (ip_inj h)
  · intro ip1 tok1 ip2 tok2 h1 h2 r1 r2 hne h
    rw [htok _ _ h1 r1, htok _ _ h2 r2] at h
    exact hne (token_inj h)
  · intro ip1 tok1 ip2 tok2 h1 h2 r2 h
    rw [hip _ _ h1, htok _ _ h2 r2] at h
    exact ip_ne_token _ _ h

/-- Claim C6: over the in-process store, for two subjects `A` and `B` with different
subject keys: (1) neither `A`'s counter key nor `A`'s block key is `B`'s counter key or
block key; (2) a call for `A` leaves the record under every key other than `A`'s two keys
unchanged; (3) the result of a call for `A` depends on the store only through the records
under `A`'s two keys; (4) after any sequence of calls none of which is for `B` (for
instance calls for `A` that exhaust its quota), made at any readings, `B`'s two records
are as before, and a call for `B` at any reading returns the same result and leaves `B`'s
two records the same as it would without those calls; (5) two different IPs, two different
registered tokens, and an IP and a registered token are subjects with different keys. -/
theorem subjects_are_independent (ε : Type) (rl : RateLimiter) (ipA tokA ipB tokB : String)
    (hAB : subjectKey rl ipA tokA ≠ subjectKey rl ipB tokB) :
    (subjectKey rl ipA tokA ≠ "blocked:" ++ subjectKey rl ipB tokB ∧
        "blocked:" ++ subjectKey rl ipA tokA ≠ subjectKey rl ipB tokB ∧
        "blocked:" ++ subjectKey rl ipA tokA ≠ "blocked:" ++ subjectKey rl ipB tokB) ∧
      (∀ (now : Time) (s : MockStorage) (x : String),
        x ≠ subjectKey rl ipA tokA → x ≠ "blocked:" ++ subjectKey rl ipA tokA →
        agreeAt (CheckLimit rl (mockStorage ε now) now ipA tokA s).2 s x) ∧
      (∀ (now : Time) (s s' : MockStorage),
        agreeAt s s' (subjectKey rl ipA tokA) →
        agreeAt s s' ("blocked:" ++ subjectKey rl ipA tokA) →
        (CheckLimit rl (mockStorage ε now) now ipA tokA s).1
          = (CheckLimit rl (mockStorage ε now) now ipA tokA s').1) ∧
      (∀ (cs : List Call) (s : MockStorage) (t : Time),
        (∀ c ∈ cs, subjectKey rl c.ip c.token ≠ subjectKey rl ipB tokB) →
        (CheckLimit rl (mockStorage ε t) t ipB tokB (runCalls ε rl cs s).2).1
            = (CheckLimit rl (mockStorage ε t) t ipB tokB s).1 ∧
          agreeAt (CheckLimit rl (mockStorage ε t) t ipB tokB (runCalls ε rl cs s).2).2
            (CheckLimit rl (mockStorage ε t) t ipB tokB s).2 (subjectKey rl ipB tokB) ∧
          agreeAt (CheckLimit rl (mockStorage ε t) t ipB tokB (runCalls ε rl cs s).2).2
            (CheckLimit rl (mockStorage ε t) t ipB tokB s).2
            ("blocked:" ++ subjectKey rl ipB tokB) ∧
          agreeAt (runCalls ε rl cs s).2 s (subjectKey rl ipB tokB) ∧
          agreeAt (runCalls ε rl cs s).2 s ("blocked:" ++ subjectKey rl ipB tokB)) ∧
      ((∀ ip1 tok1 ip2 tok2 : String, (tok1 = "" ∨ rl.tokenConfigs tok1 = none) →
          (tok2 = "" ∨ rl.tokenConfigs tok2 = none) → ip1 ≠ ip2 →
          subjectKey rl ip1 tok1 ≠ subjectKey rl ip2 tok2) ∧
        (∀ ip1 tok1 ip2 tok2 : String, tok1 ≠ "" → tok2 ≠ "" →
          (rl.tokenConfigs tok1).isSome → (rl.tokenConfigs tok2).isSome → tok1 ≠ tok2 →
          subjectKey rl ip1 tok1 ≠ subjectKey rl ip2 tok2) ∧
        (∀ ip1 tok1 ip2 tok2 : String, (tok1 = "" ∨ rl.tokenConfigs tok1 = none) →
          tok2 ≠ "" → (rl.tokenConfigs tok2).isSome →
          subjectKey rl ip1 tok1 ≠ subjectKey rl ip2 tok2)) := by
  refine ⟨⟨subjectKey_ne_blocked rl ipA tokA _,
    fun h => subjectKey_ne_blocked rl ipB tokB _ h.symm,
    fun h => hAB (blocked_inj h)⟩, ?_, ?_, ?_, distinct_subjects rl⟩
  · intro now s x h1 h2
    rw [CheckLimit_eq]
    exact checkLimitForKey_frame now _ _ _ s x h1 h2
  · intro now s s' hk hb
    rw [CheckLimit_eq, CheckLimit_eq]
    exact (checkLimitForKey_congr now _ _ _ s s' hk hb).1
  · intro cs s t hcs
    have hf := runCalls_frame ε rl ipB tokB cs s hcs
    rw [CheckLimit_eq, CheckLimit_eq]
    exact ⟨(checkLimitForKey_congr t _ _ _ _ s hf.1 hf.2).1,
      (checkLimitForKey_congr t _ _ _ _ s hf.1 hf.2).2.1,
      (checkLimitForKey_congr t _ _ _ _ s hf.1 hf.2).2.2, hf.1, hf.2⟩

/-- Witness of C6, the scenario of `TestRateLimiter_TokenPrecedence`: the address
`192.168.1.1` exhausts its quota (its fourth call is denied), and the decision for
`vip_token` presented from `192.168.1.2` is the one it gets on an untouched store. -/
theorem subjects_are_independent_witness :
    (runCalls Unit (testLimiter.SetTokenConfig "vip_token" ⟨10, 1000000000, 60000000000⟩)
          [⟨"192.168.1.1", "", 0⟩, ⟨"192.168.1.1", "", 1⟩, ⟨"192.168.1.1", "", 2⟩,
            ⟨"192.168.1.1", "", 3⟩] NewMockStorage).1[3]?
        = some (Except.ok ⟨false, 0, 60000000003, LimitType.IPLimit, 3⟩) ∧
      (CheckLimit (testLimiter.SetTokenConfig "vip_token" ⟨10, 1000000000, 60000000000⟩)
          (mockStorage Unit 4) 4 "192.168.1.2" "vip_token"
          (runCalls Unit
            (testLimiter.SetTokenConfig "vip_token" ⟨10, 1000000000, 60000000000⟩)
            [⟨"192.168.1.1", "", 0⟩, ⟨"192.168.1.1", "", 1⟩, ⟨"192.168.1.1", "", 2⟩,
              ⟨"192.168.1.1", "", 3⟩] NewMockStorage).2).1
        = (CheckLimit (testLimiter.SetTokenConfig "vip_token" ⟨10, 1000000000, 60000000000⟩)
          (mockStorage Unit 4) 4 "192.168.1.2" "vip_token" NewMockStorage).1 :=
  ⟨rfl, ((subjects_are_independent Unit
    (testLimiter.SetTokenConfig "vip_token" ⟨10, 1000000000, 60000000000⟩)
    "192.168.1.1" "" "192.168.1.2" "vip_token" (by decide)).2.2.2.1
    [⟨"192.168.1.1", "", 0⟩, ⟨"192.168.1.1", "", 1⟩, ⟨"192.168.1.1", "", 2⟩,
      ⟨"192.168.1.1", "", 3⟩] NewMockStorage 4 (by decide)).1⟩

end ratelimiter

/-! ## C8: store failures -/

namespace ratelimiter

/-- Instrumenting the store changes neither the result of a call nor the store state it
leaves. -/
theorem traced_transparent {σ ε : Type} (st : Storage σ ε) (now : Time) (key : String)
    (config : Config) (limitType : LimitType) (s : σ) (log : List Event) :
    (checkLimitForKey (traced st) now key config limitType (s, log)).1
        = (checkLimitForKey st now key config limitType s).1 ∧
      (checkLimitForKey (traced st) now key config limitType (s, log)).2.1
        = (checkLimitForKey st now key config limitType s).2 := by
  unfold checkLimitForKey traced
  simp only []
  rcases hg : st.Get ("blocked:" ++ key) s with ⟨_ | blocked, s1⟩
  · simp
  · simp only []
    by_cases hb : blocked > 0
    · simp only [if_pos hb]
      rcases ht : st.TTL ("blocked:" ++ key) s1 with ⟨_ | ttl, s2⟩ <;> simp
    · simp only [if_neg hb]
      rcases hi : st.Increment key config.Window s1 with ⟨_ | count, s2⟩
      · simp
      · simp only []
        by_cases hc : count > config.Limit
        · simp only [if_pos hc]
          rcases hset : st.Set ("blocked:" ++ key) 1 config.BlockTime s2 with ⟨_ | u, s3⟩ <;>
            simp
        · simp only [if_neg hc]
          rcases ht : st.TTL key s2 with ⟨_ | ttl, s3⟩ <;> simp

/-- The log of a call is that of `checkLimitForKey` at the resolved subject. -/
theorem CheckLimitLog_eq {σ ε : Type} (rl : RateLimiter) (st : Storage σ ε) (now : Time)
    (ip token : String) (s : σ) :
    CheckLimitLog rl st now ip token s =
      (checkLimitForKey (traced st) now (subjectKey rl ip token) (subjectConfig rl token)
        (subjectKind rl token) (s, [])).2.2 := by
  unfold CheckLimitLog
  rw [CheckLimit_eq]

/-- Claim C8: over every store whose methods may fail, for every policy, subject, clock
reading and store state: (1) `CheckLimit` returns an error, and so no decision, exactly when
one of the store calls it issued failed; hence it returns a decision only when every store
call it issued succeeded; (2) every call but the last one of its log succeeded, so a failed
call is the last call: no store call follows it and it is not issued again; (3) the calls
issued are an initial segment of one of the three paths `Get` block key, `TTL` block key;
`Get` block key, `Increment` counter, `Set` block record; `Get` block key, `Increment`
counter, `TTL` counter. -/
theorem store_failure_is_terminal {σ ε : Type} (rl : RateLimiter) (st : Storage σ ε)
    (now : Time) (ip token : String) (s : σ) :
    ((∃ ev ∈ CheckLimitLog rl st now ip token s, ev.failed = true) ↔
        isError (CheckLimit rl st now ip token s).1 = true) ∧
      (∀ ev ∈ (CheckLimitLog rl st now ip token s).dropLast, ev.failed = false) ∧
      ((CheckLimitLog rl st now ip token s).map Event.op
            <+: [StoreOp.Get ("blocked:" ++ subjectKey rl ip token),
                  StoreOp.TTL ("blocked:" ++ subjectKey rl ip token)] ∨
          (CheckLimitLog rl st now ip token s).map Event.op
            <+: [StoreOp.Get ("blocked:" ++ subjectKey rl ip token),
                  StoreOp.Increment (subjectKey rl ip token) (subjectConfig rl token).Window,
                  StoreOp.Set ("blocked:" ++ subjectKey rl ip token) 1
                    (subjectConfig rl token).BlockTime] ∨
          (CheckLimitLog rl st now ip token s).map Event.op
            <+: [StoreOp.Get ("blocked:" ++ subjectKey rl ip token),
                  StoreOp.Increment (subjectKey rl ip token) (subjectConfig rl token).Window,
                  StoreOp.TTL (subjectKey rl ip token)]) := by
  rw [CheckLimitLog_eq, CheckLimit_eq,
    ← (traced_transparent st now (subjectKey rl ip token) (subjectConfig rl token)
      (subjectKind rl token) s []).1]
  unfold checkLimitForKey traced
  simp only []
  rcases hg : st.Get ("blocked:" ++ subjectKey rl ip token) s with ⟨_ | blocked, s1⟩
  · simp [isError]
  · simp only []
    by_cases hb : blocked > 0
    · simp only [if_pos hb]
      rcases ht : st.TTL ("blocked:" ++ subjectKey rl ip token) s1 with ⟨_ | ttl, s2⟩ <;>
        simp [isError]
    · simp only [if_neg hb]
      rcases hi : st.Increment (subjectKey rl ip token) (subjectConfig rl token).Window s1
        with ⟨_ | count, s2⟩
      · simp [isError]
      · simp only []
        by_cases hc : count > (subjectConfig rl token).Limit
        · simp only [if_pos hc]
          rcases hset : st.Set ("blocked:" ++ subjectKey rl ip token) 1
            (subjectConfig rl token).BlockTime s2 with ⟨_ | u, s3⟩ <;> simp [isError]
        · simp only [if_neg hc]
          rcases ht : st.TTL (subjectKey rl ip token) s2 with ⟨_ | ttl, s3⟩ <;>
            simp [isError]

end ratelimiter

/-! ## C7, C9: when the block record is written, and when nothing is -/

namespace ratelimiter

/-- The store calls of one `checkLimitForKey` over the in-process store: every call
succeeds, and the path is chosen by the block value and the count. -/
theorem checkLimitForKey_mock_log {ε : Type} (now : Time) (key : String) (config : Config)
    (limitType : LimitType) (s : MockStorage) :
    (checkLimitForKey (traced (mockStorage ε now)) now key config limitType (s, [])).2.2 =
      if (s.Get now ("blocked:" ++ key)).1 > 0 then
        [⟨StoreOp.Get ("blocked:" ++ key), false⟩, ⟨StoreOp.TTL ("blocked:" ++ key), false⟩]
      else if ((s.Get now ("blocked:" ++ key)).2.Increment now key config.Window).1
          > config.Limit then
        [⟨StoreOp.Get ("blocked:" ++ key), false⟩,
          ⟨StoreOp.Increment key config.Window, false⟩,
          ⟨StoreOp.Set ("blocked:" ++ key) 1 config.BlockTime, false⟩]
      else
        [⟨StoreOp.Get ("blocked:" ++ key), false⟩,
          ⟨StoreOp.Increment key config.Window, false⟩, ⟨StoreOp.TTL key, false⟩] := by
  unfold checkLimitForKey traced mockStorage
  simp only []
  by_cases hg : (s.Get now ("blocked:" ++ key)).1 > 0
  · simp [hg, isError]
  · by_cases hi : ((s.Get now ("blocked:" ++ key)).2.Increment now key config.Window).1
        > config.Limit
    · simp [hg, hi, isError]
    · simp [hg, hi, isError]

/-- Claim C7: over the in-process store, for every policy, subject, clock reading and
store state in which the subject is not blocked (the `Get` of its block key returns no
value above zero), with `count` the value the `Increment` of the counter returns: when
`count > Limit`, `CheckLimit` issues `Get`, `Increment` and then `Set` of the block key
with the value 1 and `BlockTime`, the block record then holds 1 with the expiry
`now + BlockTime`, and the decision is `Allowed = false`, `Remaining = 0`,
`ResetTime = now + BlockTime`; when `count ≤ Limit`, it issues `Get`, `Increment` and the
`TTL` of the counter and no `Set`, the block record is as the `Get` left it, and the
decision is `Allowed = true`. -/
theorem block_written_iff_limit_exceeded (ε : Type) (rl : RateLimiter) (now : Time)
    (ip token : String) (s : MockStorage)
    (hfree : ¬ (s.Get now ("blocked:" ++ subjectKey rl ip token)).1 > 0) :
    (((s.Get now ("blocked:" ++ subjectKey rl ip token)).2.Increment now
          (subjectKey rl ip token) (subjectConfig rl token).Window).1
        > (subjectConfig rl token).Limit →
      (CheckLimit rl (mockStorage ε now) now ip token s).1
          = Except.ok ⟨false, 0, Time.Add now (subjectConfig rl token).BlockTime,
              subjectKind rl token, (subjectConfig rl token).Limit⟩ ∧
        (CheckLimit rl (mockStorage ε now) now ip token s).2.data
            ("blocked:" ++ subjectKey rl ip token) = some 1 ∧
        (CheckLimit rl (mockStorage ε now) now ip token s).2.ttl
            ("blocked:" ++ subjectKey rl ip token)
          = some (Time.Add now (subjectConfig rl token).BlockTime) ∧
        CheckLimitLog rl (mockStorage ε now) now ip token s =
          [⟨StoreOp.Get ("blocked:" ++ subjectKey rl ip token), false⟩,
            ⟨StoreOp.Increment (subjectKey rl ip token) (subjectConfig rl token).Window, false⟩,
            ⟨StoreOp.Set ("blocked:" ++ subjectKey rl ip token) 1
              (subjectConfig rl token).BlockTime, false⟩]) ∧
      (¬ ((s.Get now ("blocked:" ++ subjectKey rl ip token)).2.Increment now
            (subjectKey rl ip token) (subjectConfig rl token).Window).1
          > (subjectConfig rl token).Limit →
        (∃ d : CheckResult,
          (CheckLimit rl (mockStorage ε now) now ip token s).1 = Except.ok d ∧
            d.Allowed = true) ∧
        agreeAt (CheckLimit rl (mockStorage ε now) now ip token s).2
          (s.Get now ("blocked:" ++ subjectKey rl ip token)).2
          ("blocked:" ++ subjectKey rl ip token) ∧
        CheckLimitLog rl (mockStorage ε now) now ip token s =
          [⟨StoreOp.Get ("blocked:" ++ subjectKey rl ip token), false⟩,
            ⟨StoreOp.Increment (subjectKey rl ip token) (subjectConfig rl token).Window, false⟩,
            ⟨StoreOp.TTL (subjectKey rl ip token), false⟩]) := by
  rw [CheckLimitLog_eq, checkLimitForKey_mock_log, CheckLimit_eq, checkLimitForKey_mock,
    if_neg hfree, if_neg hfree]
  constructor
  · intro hi
    rw [if_pos hi, if_pos hi]
    refine ⟨rfl, ?_, ?_, rfl⟩ <;> simp [MockStorage.Set, GoMap.insert]
  · intro hi
    rw [if_neg hi, if_neg hi]
    refine ⟨⟨_, rfl, rfl⟩, ?_, rfl⟩
    exact agreeAt_trans (TTL_frame _ now _ _ (blocked_ne_self _))
      (Increment_frame _ now _ _ _ (blocked_ne_self _))

/-- Witness of C7: the fourth call of `TestRateLimiter_IPLimiting`, which finds the count
4 above the limit 3. -/
theorem block_written_iff_limit_exceeded_witness :
    (CheckLimit testLimiter (mockStorage Unit 3) 3 "192.168.1.1" "" storeAtLimit).1
          = Except.ok ⟨false, 0, Time.Add 3 (subjectConfig testLimiter "").BlockTime,
              subjectKind testLimiter "", (subjectConfig testLimiter "").Limit⟩ ∧
        (CheckLimit testLimiter (mockStorage Unit 3) 3 "192.168.1.1" "" storeAtLimit).2.data
            ("blocked:" ++ subjectKey testLimiter "192.168.1.1" "") = some 1 ∧
        (CheckLimit testLimiter (mockStorage Unit 3) 3 "192.168.1.1" "" storeAtLimit).2.ttl
            ("blocked:" ++ subjectKey testLimiter "192.168.1.1" "")
          = some (Time.Add 3 (subjectConfig testLimiter "").BlockTime) ∧
        CheckLimitLog testLimiter (mockStorage Unit 3) 3 "192.168.1.1" "" storeAtLimit =
          [⟨StoreOp.Get ("blocked:" ++ subjectKey testLimiter "192.168.1.1" ""), false⟩,
            ⟨StoreOp.Increment (subjectKey testLimiter "192.168.1.1" "")
              (subjectConfig testLimiter "").Window, false⟩,
            ⟨StoreOp.Set ("blocked:" ++ subjectKey testLimiter "192.168.1.1" "") 1
              (subjectConfig testLimiter "").BlockTime, false⟩] :=
  (block_written_iff_limit_exceeded Unit testLimiter 3 "192.168.1.1" "" storeAtLimit
    (by decide)).1 (by decide)

/-- A record without an expiry is read as stored. -/
theorem Get_noexpiry (s : MockStorage) (now : Time) (x : String) (v : Int)
    (hd : s.data x = some v) (ht : s.ttl x = none) : s.Get now x = (v, s) := by
  simp [MockStorage.Get, hd, ht]

/-- A key without an expiry has no time left, and asking leaves the store as it was. -/
theorem TTL_noexpiry (s : MockStorage) (now : Time) (x : String) (ht : s.ttl x = none) :
    s.TTL now x = (0, s) := by
  simp [MockStorage.TTL, ht]

/-- Claim C9: over the in-process store, for every policy, subject and clock reading:
when the subject's block record holds a value above zero and has not expired (its expiry,
if it has one, is later than the reading), `CheckLimit` leaves the whole store exactly as
it was (the counter's count and expiry and the block record's value and expiry included),
issues the `Get` and the `TTL` of the block key and no `Increment` and no `Set`, and
returns a decision with `Allowed = false` and `Remaining = 0`. -/
theorem blocked_call_leaves_store (ε : Type) (rl : RateLimiter) (now : Time)
    (ip token : String) (s : MockStorage) (v : Int)
    (hd : s.data ("blocked:" ++ subjectKey rl ip token) = some v) (hv : 0 < v)
    (hlive : ∀ e : Time, s.ttl ("blocked:" ++ subjectKey rl ip token) = some e → now < e) :
    (CheckLimit rl (mockStorage ε now) now ip token s).2 = s ∧
      CheckLimitLog rl (mockStorage ε now) now ip token s =
        [⟨StoreOp.Get ("blocked:" ++ subjectKey rl ip token), false⟩,
          ⟨StoreOp.TTL ("blocked:" ++ subjectKey rl ip token), false⟩] ∧
      (∃ d : CheckResult, (CheckLimit rl (mockStorage ε now) now ip token s).1 = Except.ok d ∧
        d.Allowed = false ∧ d.Remaining = 0) := by
  rw [CheckLimitLog_eq, checkLimitForKey_mock_log, CheckLimit_eq, checkLimitForKey_mock]
  cases ht : s.ttl ("blocked:" ++ subjectKey rl ip token) with
  | none =>
    rw [Get_noexpiry s now _ v hd ht, TTL_noexpiry s now _ ht]
    have hz : ((v, s).1 > 0) := hv
    rw [if_pos hz, if_pos hz]
    exact ⟨rfl, rfl, _, rfl, rfl, rfl⟩
  | some e =>
    have hlt := hlive e ht
    rw [Get_live s now _ v e hd ht hlt, TTL_live s now _ e ht hlt]
    have hz : ((v, s).1 > 0) := hv
    rw [if_pos hz, if_pos hz]
    exact ⟨rfl, rfl, _, rfl, rfl, rfl⟩

/-- Witness of C9: the blocked subject of `TestRateLimiter_IPLimiting`, asked again one
second after its first call. -/
theorem blocked_call_leaves_store_witness :
    (CheckLimit testLimiter (mockStorage Unit 1000000000) 1000000000 "192.168.1.1" ""
          storeBlocked).2 = storeBlocked ∧
      CheckLimitLog testLimiter (mockStorage Unit 1000000000) 1000000000 "192.168.1.1" ""
          storeBlocked =
        [⟨StoreOp.Get ("blocked:" ++ subjectKey testLimiter "192.168.1.1" ""), false⟩,
          ⟨StoreOp.TTL ("blocked:" ++ subjectKey testLimiter "192.168.1.1" ""), false⟩] ∧
      (∃ d : CheckResult,
        (CheckLimit testLimiter (mockStorage Unit 1000000000) 1000000000 "192.168.1.1" ""
          storeBlocked).1 = Except.ok d ∧ d.Allowed = false ∧ d.Remaining = 0) :=
  blocked_call_leaves_store Unit testLimiter 1000000000 "192.168.1.1" "" storeBlocked 1 rfl
    (by decide) (by intro e he; cases he; decide)

end ratelimiter

/-! ## C10: the remaining quota -/

namespace storage

/-- The in-process `Increment` returns a count of at least 1 whenever the count stored
under the key, if any, is a non-negative `int64` below the largest one. -/
theorem Increment_pos (m : MockStorage) (now : Time) (key : String) (d : Duration)
    (h : ∀ n : Int, m.data key = some n → 0 ≤ n ∧ n < maxInt64) :
    1 ≤ (m.Increment now key d).1 := by
  have hw : ∀ n : Int, 0 ≤ n → n < maxInt64 → 1 ≤ wrapInt64 (n + 1) := by
    intro n h0 h1
    rw [wrapInt64_eq_self (by unfold isInt64 minInt64 maxInt64 at *; omega)]
    omega
  have h1 : (1 : Int) ≤ wrapInt64 (0 + 1) := by decide
  unfold MockStorage.Increment
  simp only []
  cases ht : m.ttl key with
  | none =>
    cases hd : m.data key with
    | none => simpa using h1
    | some n => simpa using hw n (h n hd).1 (h n hd).2
  | some e =>
    by_cases hb : Time.Before now e
    · cases hd : m.data key with
      | none => simpa [hb, hd] using h1
      | some n => simpa [hb, hd] using hw n (h n hd).1 (h n hd).2
    · simpa [hb, MockStorage.deleteKey, GoMap.delete] using h1

end storage

namespace ratelimiter

/-- Over every store, for every policy whose limit is an `int64`: every decision has
`Remaining ≥ 0`, a denied one has `Remaining = 0`, and an allowed one comes from an
`Increment` that returned a count `count ≤ Limit`; when moreover `count ≥ 1`, the clamp
condition `remaining < 0` is false, `Remaining = Limit - count` and
`Remaining ≤ Limit - 1`. -/
theorem remaining_of_decision {σ ε : Type} (rl : RateLimiter) (st : Storage σ ε)
    (now : Time) (ip token : String) (s : σ) (d : CheckResult)
    (hL64 : isInt64 (subjectConfig rl token).Limit)
    (h : (CheckLimit rl st now ip token s).1 = Except.ok d) :
    0 ≤ d.Remaining ∧ (d.Allowed = false → d.Remaining = 0) ∧
      (d.Allowed = true →
        ∃ (blocked : Int) (s1 : σ) (count : Int) (s2 : σ),
          st.Get ("blocked:" ++ subjectKey rl ip token) s = (Except.ok blocked, s1) ∧
          st.Increment (subjectKey rl ip token) (subjectConfig rl token).Window s1
            = (Except.ok count, s2) ∧
          count ≤ (subjectConfig rl token).Limit ∧
          (1 ≤ count →
            ¬ (wrapInt64 ((subjectConfig rl token).Limit - count) < 0) ∧
            d.Remaining = (subjectConfig rl token).Limit - count ∧
            d.Remaining ≤ (subjectConfig rl token).Limit - 1)) := by
  refine ⟨?_, ?_, ?_⟩
  all_goals try (rw [CheckLimit_eq] at h; unfold checkLimitForKey at h; simp only [] at h)
  · rcases hg : st.Get ("blocked:" ++ subjectKey rl ip token) s with ⟨_ | blocked, s1⟩
    · simp [hg] at h
    · rw [hg] at h
      simp only [] at h
      by_cases hb : blocked > 0
      · rw [if_pos hb] at h
        rcases ht : st.TTL ("blocked:" ++ subjectKey rl ip token) s1 with ⟨_ | ttl, s2⟩
        · simp [ht] at h
        · simp [ht] at h; rw [← h]
      · rw [if_neg hb] at h
        rcases hi : st.Increment (subjectKey rl ip token) (subjectConfig rl token).Window s1
          with ⟨_ | count, s2⟩
        · simp [hi] at h
        · rw [hi] at h
          simp only [] at h
          by_cases hc : count > (subjectConfig rl token).Limit
          · rw [if_pos hc] at h
            rcases hset : st.Set ("blocked:" ++ subjectKey rl ip token) 1
              (subjectConfig rl token).BlockTime s2 with ⟨_ | u, s3⟩
            · simp [hset] at h
            · simp [hset] at h; rw [← h]
          · rw [if_neg hc] at h
            rcases ht : st.TTL (subjectKey rl ip token) s2 with ⟨_ | ttl, s3⟩
            · simp [ht] at h
            · simp only [ht, Except.ok.injEq] at h
              rw [← h]
              simp only []
              split_ifs with hneg
              · exact le_refl _
              · omega
  · intro hden
    rcases hg : st.Get ("blocked:" ++ subjectKey rl ip token) s with ⟨_ | blocked, s1⟩
    · simp [hg] at h
    · rw [hg] at h
      simp only [] at h
      by_cases hb : blocked > 0
      · rw [if_pos hb] at h
        rcases ht : st.TTL ("blocked:" ++ subjectKey rl ip token) s1 with ⟨_ | ttl, s2⟩
        · simp [ht] at h
        · simp [ht] at h; rw [← h]
      · rw [if_neg hb] at h
        rcases hi : st.Increment (subjectKey rl ip token) (subjectConfig rl token).Window s1
          with ⟨_ | count, s2⟩
        · simp [hi] at h
        · rw [hi] at h
          simp only [] at h
          by_cases hc : count > (subjectConfig rl token).Limit
          · rw [if_pos hc] at h
            rcases hset : st.Set ("blocked:" ++ subjectKey rl ip token) 1
              (subjectConfig rl token).BlockTime s2 with ⟨_ | u, s3⟩
            · simp [hset] at h
            · simp [hset] at h; rw [← h]
          · rw [if_neg hc] at h
            rcases ht : st.TTL (subjectKey rl ip token) s2 with ⟨_ | ttl, s3⟩
            · simp [ht] at h
            · simp only [ht, Except.ok.injEq] at h
              rw [← h] at hden
              simp at hden
  · intro hall
    rcases hg : st.Get ("blocked:" ++ subjectKey rl ip token) s with ⟨_ | blocked, s1⟩
    · simp [hg] at h
    · rw [hg] at h
      simp only [] at h
      by_cases hb : blocked > 0
      · rw [if_pos hb] at h
        rcases ht : st.TTL ("blocked:" ++ subjectKey rl ip token) s1 with ⟨_ | ttl, s2⟩
        · simp [ht] at h
        · simp [ht] at h; rw [← h] at hall; simp at hall
      · rw [if_neg hb] at h
        rcases hi : st.Increment (subjectKey rl ip token) (subjectConfig rl token).Window s1
          with ⟨_ | count, s2⟩
        · simp [hi] at h
        · rw [hi] at h
          simp only [] at h
          by_cases hc : count > (subjectConfig rl token).Limit
          · rw [if_pos hc] at h
            rcases hset : st.Set ("blocked:" ++ subjectKey rl ip token) 1
              (subjectConfig rl token).BlockTime s2 with ⟨_ | u, s3⟩
            · simp [hset] at h
            · simp [hset] at h; rw [← h] at hall; simp at hall
          · rw [if_neg hc] at h
            rcases ht : st.TTL (subjectKey rl ip token) s2 with ⟨_ | ttl, s3⟩
            · simp [ht] at h
            · refine ⟨blocked, s1, count, s2, rfl, hi, by omega, ?_⟩
              intro h1
              have hw : wrapInt64 ((subjectConfig rl token).Limit - count)
                  = (subjectConfig rl token).Limit - count := by
                apply wrapInt64_eq_self
                unfold isInt64 minInt64 maxInt64 at *
                omega
              have hnn : ¬ ((subjectConfig rl token).Limit - count < 0) := by omega
              simp only [ht, hw, if_neg hnn, Except.ok.injEq] at h
              rw [← h]
              refine ⟨by rw [hw]; exact hnn, rfl, ?_⟩
              simp only []; omega

/-- Claim C10, amended on what the in-process store returns: over every store and every
policy whose limit is an `int64`, every decision `d` that `CheckLimit` returns has
`Remaining ≥ 0` and, when `Allowed = false`, `Remaining = 0`; when `Allowed = true`, with
`count` the value the `Increment` of the call returned, `count ≤ Limit`, and if
`count ≥ 1` the clamp condition `remaining < 0` is false, `Remaining = Limit - count`
exactly and `Remaining ≤ Limit - 1`. The in-process `Increment` returns a count of at
least 1 whenever the count stored under the key, if any, is a non-negative `int64` below
`2^63 - 1`; so every decision of `CheckLimit` over an in-process store whose count for
the subject is absent or in that range has all of these properties. -/
theorem remaining_is_room_left {σ ε : Type} (rl : RateLimiter) (st : Storage σ ε)
    (now : Time) (ip token : String) (s : σ) (d : CheckResult)
    (hL64 : isInt64 (subjectConfig rl token).Limit)
    (h : (CheckLimit rl st now ip token s).1 = Except.ok d) :
    (0 ≤ d.Remaining ∧ (d.Allowed = false → d.Remaining = 0) ∧
      (d.Allowed = true →
        ∃ (blocked : Int) (s1 : σ) (count : Int) (s2 : σ),
          st.Get ("blocked:" ++ subjectKey rl ip token) s = (Except.ok blocked, s1) ∧
          st.Increment (subjectKey rl ip token) (subjectConfig rl token).Window s1
            = (Except.ok count, s2) ∧
          count ≤ (subjectConfig rl token).Limit ∧
          (1 ≤ count →
            ¬ (wrapInt64 ((subjectConfig rl token).Limit - count) < 0) ∧
            d.Remaining = (subjectConfig rl token).Limit - count ∧
            d.Remaining ≤ (subjectConfig rl token).Limit - 1))) ∧
      (∀ (m : MockStorage) (t : Time) (key : String) (expiration : Duration),
        (∀ n : Int, m.data key = some n → 0 ≤ n ∧ n < maxInt64) →
          1 ≤ (m.Increment t key expiration).1) ∧
      (∀ (m : MockStorage) (d1 : CheckResult),
        (∀ n : Int, m.data (subjectKey rl ip token) = some n → 0 ≤ n ∧ n < maxInt64) →
        (CheckLimit rl (mockStorage ε now) now ip token m).1 = Except.ok d1 →
          0 ≤ d1.Remaining ∧ (d1.Allowed = false → d1.Remaining = 0) ∧
          (d1.Allowed = true →
            1 ≤ ((m.Get now ("blocked:" ++ subjectKey rl ip token)).2.Increment now
                (subjectKey rl ip token) (subjectConfig rl token).Window).1 ∧
            ((m.Get now ("blocked:" ++ subjectKey rl ip token)).2.Increment now
                (subjectKey rl ip token) (subjectConfig rl token).Window).1
              ≤ (subjectConfig rl token).Limit ∧
            ¬ (wrapInt64 ((subjectConfig rl token).Limit -
                ((m.Get now ("blocked:" ++ subjectKey rl ip token)).2.Increment now
                  (subjectKey rl ip token) (subjectConfig rl token).Window).1) < 0) ∧
            d1.Remaining = (subjectConfig rl token).Limit -
                ((m.Get now ("blocked:" ++ subjectKey rl ip token)).2.Increment now
                  (subjectKey rl ip token) (subjectConfig rl token).Window).1 ∧
            d1.Remaining ≤ (subjectConfig rl token).Limit - 1)) := by
  refine ⟨remaining_of_decision rl st now ip token s d hL64 h,
    fun m t key expiration hm => Increment_pos m t key expiration hm, ?_⟩
  intro m d1 hm hd
  have hgen := remaining_of_decision rl (mockStorage ε now) now ip token m d1 hL64 hd
  refine ⟨hgen.1, hgen.2.1, ?_⟩
  intro hall
  obtain ⟨blocked, s1, count, s2, hg, hi, hle, hrest⟩ := hgen.2.2 hall
  have hs1 : s1 = (m.Get now ("blocked:" ++ subjectKey rl ip token)).2 :=
    (congrArg Prod.snd hg).symm
  have hcnt : count = (s1.Increment now (subjectKey rl ip token)
      (subjectConfig rl token).Window).1 := by
    have := congrArg Prod.fst hi
    simp only [mockStorage, Except.ok.injEq] at this
    exact this.symm
  rw [hs1] at hcnt
  have hne : subjectKey rl ip token ≠ "blocked:" ++ subjectKey rl ip token :=
    fun hx => blocked_ne_self _ hx.symm
  have hpos : 1 ≤ ((m.Get now ("blocked:" ++ subjectKey rl ip token)).2.Increment now
      (subjectKey rl ip token) (subjectConfig rl token).Window).1 := by
    apply Increment_pos
    intro n hn
    rw [(Get_frame m now _ _ hne).1] at hn
    exact hm n hn
  rw [← hcnt] at hpos ⊢
  exact ⟨hpos, hle, hrest hpos⟩

/-- Witness of C10: the third call of `TestRateLimiter_IPLimiting`, whose `Increment`
returns the count 3, is allowed with nothing remaining. -/
theorem remaining_is_room_left_witness :
    (CheckLimit testLimiter (mockStorage Unit 2) 2 "192.168.1.1" ""
        (runCalls Unit testLimiter [⟨"192.168.1.1", "", 0⟩, ⟨"192.168.1.1", "", 1⟩]
          NewMockStorage).2).1
        = Except.ok ⟨true, 0, 1000000000, LimitType.IPLimit, 3⟩ ∧
      (0 : Int) ≤ (⟨true, 0, 1000000000, LimitType.IPLimit, 3⟩ : CheckResult).Remaining ∧
      (((runCalls Unit testLimiter [⟨"192.168.1.1", "", 0⟩, ⟨"192.168.1.1", "", 1⟩]
          NewMockStorage).2.Get 2 "blocked:ip:192.168.1.1").2.Increment 2
        "ip:192.168.1.1" 1000000000).1 = 3 :=
  ⟨rfl,
    (remaining_is_room_left testLimiter (mockStorage Unit 2) 2 "192.168.1.1" ""
      (runCalls Unit testLimiter [⟨"192.168.1.1", "", 0⟩, ⟨"192.168.1.1", "", 1⟩]
        NewMockStorage).2
      ⟨true, 0, 1000000000, LimitType.IPLimit, 3⟩ (by decide) rfl).1.1,
    by decide⟩

end ratelimiter

/-! ## C11, C12: what `Increment` returns and which expiry it leaves -/

namespace storage

/-- The count `Increment` returns, by the state of the key. -/
theorem Increment_fst (m : MockStorage) (now : Time) (key : String) (d : Duration) :
    (m.data key = none → (m.Increment now key d).1 = 1) ∧
      (∀ e : Time, m.ttl key = some e → e ≤ now → (m.Increment now key d).1 = 1) ∧
      (∀ n : Int, m.data key = some n → (∀ e : Time, m.ttl key = some e → now < e) →
        (m.Increment now key d).1 = wrapInt64 (n + 1)) := by
  have h1 : wrapInt64 1 = 1 := by decide
  unfold MockStorage.Increment
  simp only []
  refine ⟨?_, ?_, ?_⟩
  · intro hd
    cases ht : m.ttl key with
    | none => simp [hd, h1]
    | some e =>
      by_cases hb : Time.Before now e
      · simp [hb, hd, h1]
      · simp [hb, MockStorage.deleteKey, GoMap.delete, h1]
  · intro e ht he
    have hb : Time.Before now e = false := by
      unfold Time.Before; simp; unfold Time at *; omega
    simp [ht, hb, MockStorage.deleteKey, GoMap.delete, h1]
  · intro n hd hlive
    cases ht : m.ttl key with
    | none => simp [hd]
    | some e =>
      have hb : Time.Before now e = true := by
        unfold Time.Before; simpa using hlive e ht
      simp [hb, hd]

/-- The record `Increment` leaves under its key: the count it returned, and an expiry
that is either the one the key had, not yet passed, or `now + expiration`. -/
theorem Increment_snd (m : MockStorage) (now : Time) (key : String) (d : Duration) :
    (m.Increment now key d).2.data key = some (m.Increment now key d).1 ∧
      ((∃ e : Time, m.ttl key = some e ∧ now < e ∧ (m.Increment now key d).2.ttl key = some e) ∨
        ((∀ e : Time, m.ttl key = some e → e ≤ now) ∧
          (m.Increment now key d).2.ttl key = some (Time.Add now d))) := by
  unfold MockStorage.Increment
  simp only []
  cases ht : m.ttl key with
  | none => simp [GoMap.insert, ht]
  | some e =>
    by_cases hb : Time.Before now e
    · have hlt : now < e := by unfold Time.Before at hb; simpa using hb
      simp [hb, GoMap.insert, ht, hlt]
    · have hle : e ≤ now := by
        unfold Time.Before at hb; simp at hb; exact hb
      simp [hb, GoMap.insert, MockStorage.deleteKey, GoMap.delete, hle]

/-- A `Get` made right after an `Increment` with a positive expiration, at the same
reading, returns the count the `Increment` returned. -/
theorem Get_after_Increment (m : MockStorage) (now : Time) (key : String) (d : Duration)
    (hd : 0 < d) :
    ((m.Increment now key d).2.Get now key).1 = (m.Increment now key d).1 := by
  obtain ⟨hdata, hcase⟩ := Increment_snd m now key d
  rcases hcase with ⟨e, _, hlt, hte⟩ | ⟨_, hte⟩
  · rw [Get_live _ now key _ e hdata hte hlt]
  · have hlt : now < Time.Add now d := by unfold Time.Add; unfold Time Duration at *; omega
    rw [Get_live _ now key _ _ hdata hte hlt]

end storage

namespace storage

theorem runOps_append (os ps : List (Time × StoreOp)) (m : MockStorage) :
    runOps (os ++ ps) m =
      ((runOps os m).1 ++ (runOps ps (runOps os m).2).1, (runOps ps (runOps os m).2).2) := by
  induction os generalizing m with
  | nil => simp [runOps]
  | cons o os ih => simp [runOps, ih]

/-- Successive `Increment`s of a key, all before its expiry, count up by one from the
stored count, as long as the count stays an `int64`. -/
theorem runOps_increments (key : String) (e : Time) (incs : List (Time × Duration))
    (m : MockStorage) (n : Int) (hd : m.data key = some n) (ht : m.ttl key = some e)
    (hlive : ∀ p ∈ incs, p.1 < e) (hn : minInt64 ≤ n + 1)
    (hmax : n + incs.length ≤ maxInt64) :
    (runOps (incs.map (fun p => (p.1, StoreOp.Increment key p.2))) m).1
        = (List.range incs.length).map (fun i : Nat => n + 1 + (i : Int)) ∧
      (runOps (incs.map (fun p => (p.1, StoreOp.Increment key p.2))) m).2.ttl key = some e := by
  induction incs generalizing m n with
  | nil => simp [runOps, ht]
  | cons p ps ih =>
    have hp := hlive p (List.mem_cons_self _ _)
    have hlen : ((p :: ps).length : Int) = ps.length + 1 := by simp
    have hw : wrapInt64 (n + 1) = n + 1 := by
      apply wrapInt64_eq_self
      unfold isInt64 minInt64 maxInt64 at *
      omega
    have hstep := Increment_live m p.1 key p.2 n e hd ht hp
    rw [hw] at hstep
    have hrest := ih (MockStorage.mk (m.data.insert key (n + 1)) m.ttl) (n + 1)
      (by simp [GoMap.insert]) ht (fun q hq => hlive q (List.mem_cons_of_mem _ hq))
      (by unfold minInt64 at *; omega) (by omega)
    simp only [List.map_cons, runOps, applyOp, hstep]
    refine ⟨?_, hrest.2⟩
    rw [hrest.1, List.length_cons, List.range_succ_eq_map]
    simp only [List.map_cons, List.map_map]
    congr 1
    · simp
    · apply List.map_congr_left
      intro i _
      simp only [Function.comp]
      push_cast
      ring

end storage

namespace storage

/-- Claim C11, amended: for the in-process store, every key, positive expiration and clock
reading: `Increment` returns 1 when the key holds no count or its expiry has passed; when
the key holds the count `n`, an `int64` below `2^63 - 1`, and has not expired, it returns
`n + 1`; a `Get` of the key at the same reading then returns the value `Increment`
returned; and successive `Increment`s of a key that was absent or expired at the first
one, the later ones made before the expiry the first one set, at most `2^63 - 1` of them
in all, return `1, 2, 3, ...` in order, no value repeated. -/
theorem Increment_returns_next_count (m : MockStorage) (now : Time) (key : String)
    (d : Duration) (hd : 0 < d) :
    (m.data key = none → (m.Increment now key d).1 = 1) ∧
      (∀ e : Time, m.ttl key = some e → e ≤ now → (m.Increment now key d).1 = 1) ∧
      (∀ n : Int, m.data key = some n → (∀ e : Time, m.ttl key = some e → now < e) →
        isInt64 n → n < maxInt64 → (m.Increment now key d).1 = n + 1) ∧
      ((m.Increment now key d).2.Get now key).1 = (m.Increment now key d).1 ∧
      (∀ incs : List (Time × Duration),
        ((m.data key = none ∧ m.ttl key = none) ∨ ∃ e : Time, m.ttl key = some e ∧ e ≤ now) →
        (∀ p ∈ incs, p.1 < Time.Add now d) → (incs.length : Int) + 1 ≤ maxInt64 →
        (runOps ((now, StoreOp.Increment key d)
              :: incs.map (fun p => (p.1, StoreOp.Increment key p.2))) m).1
            = (List.range (incs.length + 1)).map (fun i : Nat => (i : Int) + 1) ∧
          (runOps ((now, StoreOp.Increment key d)
              :: incs.map (fun p => (p.1, StoreOp.Increment key p.2))) m).1.Nodup) := by
  obtain ⟨f1, f2, f3⟩ := Increment_fst m now key d
  refine ⟨f1, f2, ?_, Get_after_Increment m now key d hd, ?_⟩
  · intro n hn hlive h64 hmax
    rw [f3 n hn hlive, wrapInt64_eq_self]
    unfold isInt64 minInt64 maxInt64 at *
    omega
  · intro incs hstart hlive hlen
    have hone : (m.Increment now key d).1 = 1 := by
      rcases hstart with ⟨h, _⟩ | ⟨e, he, hle⟩
      · exact f1 h
      · exact f2 e he hle
    obtain ⟨hdata, hcase⟩ := Increment_snd m now key d
    have httl : (m.Increment now key d).2.ttl key = some (Time.Add now d) := by
      rcases hcase with ⟨e, he, hlt, _⟩ | ⟨_, h⟩
      · rcases hstart with ⟨_, h⟩ | ⟨e', he', hle⟩
        · rw [h] at he; cases he
        · rw [he'] at he; cases he; unfold Time at *; omega
      · exact h
    rw [hone] at hdata
    have hrun := runOps_increments key (Time.Add now d) incs (m.Increment now key d).2 1
      hdata httl hlive (by decide) (by omega)
    have heq : (runOps ((now, StoreOp.Increment key d)
        :: incs.map (fun p => (p.1, StoreOp.Increment key p.2))) m).1
        = (List.range (incs.length + 1)).map (fun i : Nat => (i : Int) + 1) := by
      simp only [runOps, applyOp, hone, hrun.1]
      rw [List.range_succ_eq_map]
      simp only [List.map_cons, List.map_map]
      congr 1
      apply List.map_congr_left
      intro i _
      simp only [Function.comp]
      push_cast
      ring
    refine ⟨heq, ?_⟩
    rw [heq]
    apply List.Nodup.map _ (List.nodup_range _)
    intro a b hab
    simpa using hab

/-- Witness of C11: three `Increment`s of the key of `TestMockStorage_Increment`. -/
theorem Increment_returns_next_count_witness :
    (runOps ((0, StoreOp.Increment "test" 60000000000)
          :: List.map (fun p => (p.1, StoreOp.Increment "test" p.2))
              [((5 : Time), (60000000000 : Duration)), (7, 1)]) NewMockStorage).1
        = (List.range 3).map (fun i : Nat => (i : Int) + 1) ∧
      (runOps ((0, StoreOp.Increment "test" 60000000000)
          :: List.map (fun p => (p.1, StoreOp.Increment "test" p.2))
              [((5 : Time), (60000000000 : Duration)), (7, 1)]) NewMockStorage).1.Nodup :=
  (Increment_returns_next_count NewMockStorage 0 "test" 60000000000 (by decide)).2.2.2.2
    [(5, 60000000000), (7, 1)] (Or.inl ⟨rfl, rfl⟩) (by decide) (by decide)

/-- Claim C11 fails as stated for a key that holds the largest `int64`: after
`Set(test, 2^63 - 1, time.Minute)` the key holds that count, a `Get` returns it, and an
`Increment` made before the expiry returns `-2^63`, not the stored count plus 1. -/
theorem Increment_wraps_at_max_count :
    (NewMockStorage.Set 0 "test" 9223372036854775807 60000000000).data "test"
        = some 9223372036854775807 ∧
      ((NewMockStorage.Set 0 "test" 9223372036854775807 60000000000).Get 1 "test").1
        = 9223372036854775807 ∧
      ((NewMockStorage.Set 0 "test" 9223372036854775807 60000000000).Increment 1 "test"
          60000000000).1 = -9223372036854775808 := by
  decide

end storage

namespace storage

/-- A call leaves the record of every key other than its own as it was. -/
theorem applyOp_frame (m : MockStorage) (now : Time) (op : StoreOp) (x : String)
    (hx : x ≠ op.key) : agreeAt (applyOp m now op).2 m x := by
  cases op with
  | Get key => exact Get_frame m now key x hx
  | Increment key d => exact Increment_frame m now key x d hx
  | Set key v d => exact Set_frame m now key x v d hx
  | TTL key => exact TTL_frame m now key x hx

/-- A `Get` of an expired key returns 0 and deletes the entry. -/
theorem Get_expired (m : MockStorage) (now : Time) (key : String) (e : Time)
    (ht : m.ttl key = some e) (he : e ≤ now) : m.Get now key = (0, m.deleteKey key) := by
  have hb : Time.Before now e = false := by
    unfold Time.Before; simp; unfold Time at *; omega
  simp [MockStorage.Get, ht, hb]

/-- A `TTL` of an expired key returns 0 and deletes the entry. -/
theorem TTL_expired (m : MockStorage) (now : Time) (key : String) (e : Time)
    (ht : m.ttl key = some e) (he : e ≤ now) : m.TTL now key = (0, m.deleteKey key) := by
  have hle : timeUntil now e ≤ 0 := by
    rw [timeUntil, satInt64_nonpos_iff]; unfold Time at *; omega
  simp [MockStorage.TTL, ht, hle]

/-- A `Get` of a key that has not expired leaves the store as it was. -/
theorem Get_snd_live (m : MockStorage) (now : Time) (key : String)
    (hlive : ∀ e : Time, m.ttl key = some e → now < e) : (m.Get now key).2 = m := by
  unfold MockStorage.Get
  cases ht : m.ttl key with
  | none => cases m.data key <;> rfl
  | some e =>
    have hb : Time.Before now e = true := by
      unfold Time.Before; simpa using hlive e ht
    cases hd : m.data key <;> simp [hb]

/-- A `TTL` of a key that has not expired leaves the store as it was. -/
theorem TTL_snd_live (m : MockStorage) (now : Time) (key : String)
    (hlive : ∀ e : Time, m.ttl key = some e → now < e) : (m.TTL now key).2 = m := by
  cases ht : m.ttl key with
  | none => rw [TTL_noexpiry m now key ht]
  | some e => rw [TTL_live m now key e ht (hlive e ht)]

/-- A `Get` of a key that holds no count returns 0. -/
theorem Get_nodata (m : MockStorage) (now : Time) (key : String) (hd : m.data key = none) :
    (m.Get now key).1 = 0 := by
  unfold MockStorage.Get
  cases ht : m.ttl key with
  | none => simp [hd]
  | some e => by_cases hb : Time.Before now e <;> simp [hb, hd]

/-- No call before the expiry of a key, other than a `Set` of it, changes that expiry. -/
theorem applyOp_keeps_live_expiry (m : MockStorage) (now : Time) (op : StoreOp)
    (key : String) (e : Time) (ht : m.ttl key = some e) (hlt : now < e)
    (hop : op.isSetOf key = false) : (applyOp m now op).2.ttl key = some e := by
  by_cases hk : key = op.key
  · have hlive : ∀ e' : Time, m.ttl key = some e' → now < e' := by
      intro e' he'; rw [ht] at he'; cases he'; exact hlt
    cases op with
    | Get k =>
      simp only [StoreOp.key] at hk; subst hk
      simp only [applyOp]; rw [Get_snd_live m now _ hlive]; exact ht
    | TTL k =>
      simp only [StoreOp.key] at hk; subst hk
      simp only [applyOp]; rw [TTL_snd_live m now _ hlive]; exact ht
    | Increment k d' =>
      simp only [StoreOp.key] at hk; subst hk
      simp only [applyOp]
      obtain ⟨_, hc⟩ := Increment_snd m now key d'
      rcases hc with ⟨e', he', _, h⟩ | ⟨hall, _⟩
      · rw [ht] at he'; cases he'; exact h
      · have := hall e ht; unfold Time at *; omega
    | Set k v d' =>
      simp only [StoreOp.key] at hk; subst hk
      simp [StoreOp.isSetOf] at hop
  · exact ((applyOp_frame m now op key hk).2).trans ht

/-- No sequence of calls before the expiry of a key, without a `Set` of it, changes that
expiry. -/
theorem runOps_keeps_live_expiry (key : String) (e : Time) (ops : List (Time × StoreOp))
    (m : MockStorage) (ht : m.ttl key = some e)
    (hops : ∀ o ∈ ops, o.1 < e ∧ o.2.isSetOf key = false) :
    (runOps ops m).2.ttl key = some e := by
  induction ops generalizing m with
  | nil => exact ht
  | cons o os ih =>
    have ho := hops o (List.mem_cons_self _ _)
    simp only [runOps]
    exact ih _ (applyOp_keeps_live_expiry m o.1 o.2 key e ht ho.1 ho.2)
      (fun q hq => hops q (List.mem_cons_of_mem _ hq))

/-- Claim C12: for the in-process store, every key, expiration and clock reading:
`Increment` sets the key's expiry to `now + expiration` when the key has no expiry and when
its expiry has passed, and leaves the expiry unchanged when it has not passed; and after
any sequence of calls made before that expiry, none of them a `Set` of the key (a steady
stream of `Increment`s for instance), the expiry is still the same. -/
theorem Increment_keeps_live_expiry (m : MockStorage) (now : Time) (key : String)
    (d : Duration) :
    (m.ttl key = none → (m.Increment now key d).2.ttl key = some (Time.Add now d)) ∧
      (∀ e : Time, m.ttl key = some e → e ≤ now →
        (m.Increment now key d).2.ttl key = some (Time.Add now d)) ∧
      (∀ e : Time, m.ttl key = some e → now < e →
        (m.Increment now key d).2.ttl key = some e) ∧
      (∀ (e : Time) (ops : List (Time × StoreOp)), m.ttl key = some e →
        (∀ o ∈ ops, o.1 < e ∧ o.2.isSetOf key = false) →
        (runOps ops m).2.ttl key = some e) := by
  obtain ⟨_, hcase⟩ := Increment_snd m now key d
  refine ⟨?_, ?_, ?_, ?_⟩
  · intro ht
    rcases hcase with ⟨e, he, _, _⟩ | ⟨_, h⟩
    · rw [ht] at he; cases he
    · exact h
  · intro e ht hle
    rcases hcase with ⟨e', he', hlt, _⟩ | ⟨_, h⟩
    · rw [ht] at he'; cases he'; unfold Time at *; omega
    · exact h
  · intro e ht hlt
    rcases hcase with ⟨e', he', _, h⟩ | ⟨hall, _⟩
    · rw [ht] at he'; cases he'; exact h
    · have := hall e ht; unfold Time at *; omega
  · intro e ops ht hops
    exact runOps_keeps_live_expiry key e ops m ht hops

end storage

/-! ## C13, C14: reading back what `Set` wrote -/

namespace storage

/-- A record written with the expiry `e` is, after a call that is neither a `Set` nor an
`Increment` of its key and is made no later than `t`, either still there or deleted, and
deleted only when `e ≤ t`. -/
theorem applyOp_record (m : MockStorage) (now : Time) (op : StoreOp) (key : String)
    (v : Int) (e t : Time) (hnow : now ≤ t) (hset : op.isSetOf key = false)
    (hinc : op.isIncrementOf key = false)
    (h : (m.data key = some v ∧ m.ttl key = some e) ∨
      (m.data key = none ∧ m.ttl key = none ∧ e ≤ t)) :
    ((applyOp m now op).2.data key = some v ∧ (applyOp m now op).2.ttl key = some e) ∨
      ((applyOp m now op).2.data key = none ∧ (applyOp m now op).2.ttl key = none ∧ e ≤ t) := by
  by_cases hk : key = op.key
  · cases op with
    | Set k v' d' => simp only [StoreOp.key] at hk; subst hk; simp [StoreOp.isSetOf] at hset
    | Increment k d' =>
      simp only [StoreOp.key] at hk; subst hk; simp [StoreOp.isIncrementOf] at hinc
    | Get k =>
      simp only [StoreOp.key] at hk; subst hk
      simp only [applyOp]
      rcases h with ⟨hd, ht⟩ | ⟨hd, ht, he⟩
      · by_cases hlt : now < e
        · rw [Get_live m now key v e hd ht hlt]; exact Or.inl ⟨hd, ht⟩
        · rw [Get_expired m now key e ht (by unfold Time at *; omega)]
          refine Or.inr ⟨?_, ?_, ?_⟩
          · simp [MockStorage.deleteKey, GoMap.delete]
          · simp [MockStorage.deleteKey, GoMap.delete]
          · unfold Time at *; omega
      · rw [Get_absent m now key hd ht]; exact Or.inr ⟨hd, ht, he⟩
    | TTL k =>
      simp only [StoreOp.key] at hk; subst hk
      simp only [applyOp]
      rcases h with ⟨hd, ht⟩ | ⟨hd, ht, he⟩
      · by_cases hlt : now < e
        · rw [TTL_live m now key e ht hlt]; exact Or.inl ⟨hd, ht⟩
        · rw [TTL_expired m now key e ht (by unfold Time at *; omega)]
          refine Or.inr ⟨?_, ?_, ?_⟩
          · simp [MockStorage.deleteKey, GoMap.delete]
          · simp [MockStorage.deleteKey, GoMap.delete]
          · unfold Time at *; omega
      · rw [TTL_noexpiry m now key ht]; exact Or.inr ⟨hd, ht, he⟩
  · have hf := applyOp_frame m now op key hk
    rcases h with ⟨hd, ht⟩ | ⟨hd, ht, he⟩
    · exact Or.inl ⟨hf.1.trans hd, hf.2.trans ht⟩
    · exact Or.inr ⟨hf.1.trans hd, hf.2.trans ht, he⟩

/-- The statement of `applyOp_record` for a sequence of calls. -/
theorem runOps_record (key : String) (v : Int) (e t : Time) (ops : List (Time × StoreOp))
    (m : MockStorage)
    (hops : ∀ o ∈ ops, o.1 ≤ t ∧ o.2.isSetOf key = false ∧ o.2.isIncrementOf key = false)
    (h : (m.data key = some v ∧ m.ttl key = some e) ∨
      (m.data key = none ∧ m.ttl key = none ∧ e ≤ t)) :
    ((runOps ops m).2.data key = some v ∧ (runOps ops m).2.ttl key = some e) ∨
      ((runOps ops m).2.data key = none ∧ (runOps ops m).2.ttl key = none ∧ e ≤ t) := by
  induction ops generalizing m with
  | nil => exact h
  | cons o os ih =>
    have ho := hops o (List.mem_cons_self _ _)
    simp only [runOps]
    exact ih _ (fun q hq => hops q (List.mem_cons_of_mem _ hq))
      (applyOp_record m o.1 o.2 key v e t ho.1 ho.2.1 ho.2.2 h)

/-- A key that holds no count keeps holding none under calls that are neither a `Set`
nor an `Increment` of it. -/
theorem runOps_nodata (key : String) (ops : List (Time × StoreOp)) (m : MockStorage)
    (hops : ∀ o ∈ ops, o.2.isSetOf key = false ∧ o.2.isIncrementOf key = false)
    (h : m.data key = none) : (runOps ops m).2.data key = none := by
  induction ops generalizing m with
  | nil => exact h
  | cons o os ih =>
    have ho := hops o (List.mem_cons_self _ _)
    simp only [runOps]
    apply ih _ (fun q hq => hops q (List.mem_cons_of_mem _ hq))
    by_cases hk : key = o.2.key
    · cases hop : o.2 with
      | Set k v' d' =>
        rw [hop] at hk ho; simp only [StoreOp.key] at hk; subst hk
        simp [StoreOp.isSetOf] at ho
      | Increment k d' =>
        rw [hop] at hk ho; simp only [StoreOp.key] at hk; subst hk
        simp [StoreOp.isIncrementOf] at ho
      | Get k =>
        rw [hop] at hk; simp only [StoreOp.key] at hk; subst hk
        simp only [applyOp, MockStorage.Get]
        cases ht : m.ttl key with
        | none => simp [h]
        | some e' =>
          by_cases hb : Time.Before o.1 e' <;>
            simp [hb, h, MockStorage.deleteKey, GoMap.delete]
      | TTL k =>
        rw [hop] at hk; simp only [StoreOp.key] at hk; subst hk
        simp only [applyOp, MockStorage.TTL]
        cases ht : m.ttl key with
        | none => simp [h]
        | some e' =>
          by_cases hb : timeUntil o.1 e' ≤ 0 <;>
            simp [hb, h, MockStorage.deleteKey, GoMap.delete]
    · exact ((applyOp_frame m o.1 o.2 key hk).1).trans h

/-- Claim C13: for the in-process store, every key, value `v`, duration `d`, store state
and readings: after `Set(key, v, d)` at `t0`, followed by any calls made no later than `t`
that are neither a `Set` nor an `Increment` of that key, `Get(key)` at `t` returns `v` if
`t < t0 + d` and 0 otherwise, whatever the key held before the `Set`; and in a store that
started empty and saw no `Set` or `Increment` of the key, `Get(key)` returns 0. -/
theorem Get_after_Set (m : MockStorage) (t0 : Time) (key : String) (v : Int) (d : Duration)
    (ops : List (Time × StoreOp)) (t : Time)
    (hops : ∀ o ∈ ops, o.1 ≤ t ∧ o.2.isSetOf key = false ∧ o.2.isIncrementOf key = false) :
    ((runOps ops (m.Set t0 key v d)).2.Get t key).1 = (if t < Time.Add t0 d then v else 0) ∧
      (∀ (ops' : List (Time × StoreOp)) (t' : Time),
        (∀ o ∈ ops', o.2.isSetOf key = false ∧ o.2.isIncrementOf key = false) →
        ((runOps ops' NewMockStorage).2.Get t' key).1 = 0) := by
  constructor
  · have h0 : ((m.Set t0 key v d).data key = some v ∧
        (m.Set t0 key v d).ttl key = some (Time.Add t0 d)) := by
      simp [MockStorage.Set, GoMap.insert]
    rcases runOps_record key v (Time.Add t0 d) t ops _ hops (Or.inl h0) with
      ⟨hd, ht⟩ | ⟨hd, ht, he⟩
    · by_cases hlt : t < Time.Add t0 d
      · rw [Get_live _ t key v _ hd ht hlt, if_pos hlt]
      · rw [Get_expired _ t key _ ht (by unfold Time at *; omega), if_neg hlt]
    · rw [Get_absent _ t key hd ht, if_neg (by unfold Time at *; omega)]
  · intro ops' t' hops'
    exact Get_nodata _ t' key (runOps_nodata key ops' NewMockStorage hops' rfl)

/-- Witness of C13: the value of `TestMockStorage_Set` read back after other calls, and
the expired value of `TestMockStorage_Expiration` (one millisecond, read after two). -/
theorem Get_after_Set_witness :
    ((runOps [(5, StoreOp.Get "test"), (6, StoreOp.Increment "other" 10), (7, StoreOp.TTL "test")]
        (NewMockStorage.Set 0 "test" 10 60000000000)).2.Get 8 "test").1
      = (if (8 : Time) < Time.Add 0 60000000000 then 10 else 0) ∧
      ((NewMockStorage.Set 0 "test" 1 1000000).Get 2000000 "test").1 = 0 :=
  ⟨(Get_after_Set NewMockStorage 0 "test" 10 60000000000
    [(5, StoreOp.Get "test"), (6, StoreOp.Increment "other" 10), (7, StoreOp.TTL "test")] 8
    (by decide)).1, by decide⟩

end storage

namespace storage

/-- The expiry `e` written for a key is, after calls made in the order of their readings,
none of them a `Set` of the key and none an `Increment` of it at or after `e`, either
still there or deleted, and deleted only when `e ≤ t`. -/
theorem runOps_expiry (key : String) (e t : Time) (ops : List (Time × StoreOp))
    (m : MockStorage) (hsorted : ops.Pairwise (fun a b => a.1 ≤ b.1))
    (hops : ∀ o ∈ ops, o.1 ≤ t ∧ o.2.isSetOf key = false ∧
      (o.2.isIncrementOf key = true → o.1 < e))
    (h : m.ttl key = some e ∨ (m.ttl key = none ∧ e ≤ t ∧ ∀ o ∈ ops, e ≤ o.1)) :
    (runOps ops m).2.ttl key = some e ∨ ((runOps ops m).2.ttl key = none ∧ e ≤ t) := by
  induction ops generalizing m with
  | nil =>
    rcases h with h | ⟨h, he, _⟩
    · exact Or.inl h
    · exact Or.inr ⟨h, he⟩
  | cons o os ih =>
    have ho := hops o (List.mem_cons_self _ _)
    have hs := List.pairwise_cons.mp hsorted
    simp only [runOps]
    apply ih _ hs.2 (fun q hq => hops q (List.mem_cons_of_mem _ hq))
    by_cases hk : key = o.2.key
    · rcases h with ht | ⟨ht, he, hall⟩
      · by_cases hlt : o.1 < e
        · exact Or.inl (applyOp_keeps_live_expiry m o.1 o.2 key e ht hlt ho.2.1)
        · have hle : e ≤ o.1 := by unfold Time at *; omega
          refine Or.inr ⟨?_, by unfold Time at *; omega, ?_⟩
          · cases hop : o.2 with
            | Set k v' d' =>
              rw [hop] at hk ho; simp only [StoreOp.key] at hk; subst hk
              simp [StoreOp.isSetOf] at ho
            | Increment k d' =>
              rw [hop] at hk ho; simp only [StoreOp.key] at hk; subst hk
              have := ho.2.2 (by simp [StoreOp.isIncrementOf])
              exact absurd this hlt
            | Get k =>
              rw [hop] at hk; simp only [StoreOp.key] at hk; subst hk
              simp only [applyOp]
              rw [Get_expired m o.1 key e ht hle]
              simp [MockStorage.deleteKey, GoMap.delete]
            | TTL k =>
              rw [hop] at hk; simp only [StoreOp.key] at hk; subst hk
              simp only [applyOp]
              rw [TTL_expired m o.1 key e ht hle]
              simp [MockStorage.deleteKey, GoMap.delete]
          · intro q hq
            have := hs.1 q hq
            unfold Time at *; omega
      · have heo := hall o (List.mem_cons_self _ _)
        refine Or.inr ⟨?_, he, fun q hq => hall q (List.mem_cons_of_mem _ hq)⟩
        have hlive : ∀ e' : Time, m.ttl key = some e' → o.1 < e' := by
          intro e' he'; rw [ht] at he'; cases he'
        cases hop : o.2 with
        | Set k v' d' =>
          rw [hop] at hk ho; simp only [StoreOp.key] at hk; subst hk
          simp [StoreOp.isSetOf] at ho
        | Increment k d' =>
          rw [hop] at hk ho; simp only [StoreOp.key] at hk; subst hk
          have := ho.2.2 (by simp [StoreOp.isIncrementOf])
          unfold Time at *; omega
        | Get k =>
          rw [hop] at hk; simp only [StoreOp.key] at hk; subst hk
          simp only [applyOp]
          rw [Get_snd_live m o.1 key hlive]; exact ht
        | TTL k =>
          rw [hop] at hk; simp only [StoreOp.key] at hk; subst hk
          simp only [applyOp]
          rw [TTL_snd_live m o.1 key hlive]; exact ht
    · have hf := (applyOp_frame m o.1 o.2 key hk).2
      rcases h with ht | ⟨ht, he, hall⟩
      · exact Or.inl (hf.trans ht)
      · exact Or.inr ⟨hf.trans ht, he, fun q hq => hall q (List.mem_cons_of_mem _ hq)⟩

/-- Claim C14, amended: for the in-process store, every key, value `v`, duration `d` (an
`int64`) and readings `t0 ≤ t`: after `Set(key, v, d)` at `t0`, followed by calls made in
the order of their readings and no later than `t`, none of them a `Set` of that key and
none an `Increment` of that key at or after `t0 + d`, `TTL(key)` at `t` returns
`t0 + d - t` when `t < t0 + d`, a duration in `(0, d]`, and zero when `t ≥ t0 + d`; and
`TTL` of a key with no expiry recorded returns zero. -/
theorem TTL_after_Set (m : MockStorage) (t0 : Time) (key : String) (v : Int) (d : Duration)
    (ops : List (Time × StoreOp)) (t : Time) (ht0 : t0 ≤ t) (hd : d ≤ maxInt64)
    (hsorted : ops.Pairwise (fun a b => a.1 ≤ b.1))
    (hops : ∀ o ∈ ops, o.1 ≤ t ∧ o.2.isSetOf key = false ∧
      (o.2.isIncrementOf key = true → o.1 < Time.Add t0 d)) :
    ((runOps ops (m.Set t0 key v d)).2.TTL t key).1
        = (if t < Time.Add t0 d then Time.Add t0 d - t else 0) ∧
      (t < Time.Add t0 d → 0 < Time.Add t0 d - t ∧ Time.Add t0 d - t ≤ d) ∧
      (∀ (m' : MockStorage) (t' : Time), m'.ttl key = none → (m'.TTL t' key).1 = 0) := by
  refine ⟨?_, ?_, ?_⟩
  · have h0 : (m.Set t0 key v d).ttl key = some (Time.Add t0 d) := by
      simp [MockStorage.Set, GoMap.insert]
    rcases runOps_expiry key (Time.Add t0 d) t ops _ hsorted hops (Or.inl h0) with ht | ⟨ht, he⟩
    · by_cases hlt : t < Time.Add t0 d
      · rw [TTL_live _ t key _ ht hlt, if_pos hlt]
        simp only [timeUntil]
        apply satInt64_eq_self
        unfold Time.Add at *
        unfold isInt64 minInt64 maxInt64 at *
        unfold Time Duration at *
        omega
      · rw [TTL_expired _ t key _ ht (by unfold Time at *; omega), if_neg hlt]
    · rw [TTL_noexpiry _ t key ht, if_neg (by unfold Time at *; omega)]
  · intro hlt
    unfold Time.Add at *
    unfold Time Duration at *
    omega
  · intro m' t' h
    rw [TTL_noexpiry m' t' key h]

/-- Witness of C14: the key of `TestMockStorage_TTL`, with an `Increment` of it made
before its expiry in between. -/
theorem TTL_after_Set_witness :
    ((runOps [(5, StoreOp.Get "test"), (6, StoreOp.Increment "test" 10), (7, StoreOp.TTL "test")]
        (NewMockStorage.Set 0 "test" 1 60000000000)).2.TTL 8 "test").1
      = (if (8 : Time) < Time.Add 0 60000000000 then Time.Add 0 60000000000 - 8 else 0) ∧
      ((NewMockStorage.Set 0 "test" 1 60000000000).TTL 8 "test").1 = 59999999992 :=
  ⟨(TTL_after_Set NewMockStorage 0 "test" 1 60000000000
    [(5, StoreOp.Get "test"), (6, StoreOp.Increment "test" 10), (7, StoreOp.TTL "test")] 8
    (by decide) (by decide) (by decide) (by decide)).1, by decide⟩

/-- Claim C14 fails as stated when an `Increment` follows the expiry: after `Set` at 0
with the duration 10 and no later `Set`, an `Increment` at 20 with the expiration 100 finds
the key expired and sets the expiry 120, so `TTL` at 30, past `t0 + d = 10`, returns 90 and
not zero. -/
theorem TTL_after_expiry_and_Increment :
    (((NewMockStorage.Set 0 "test" 1 10).Increment 20 "test" 100).2.TTL 30 "test").1 = 90 ∧
      Time.Add 0 10 ≤ (30 : Time) := by
  decide

end storage

/-! ## C15: a new window after the expiry -/

namespace ratelimiter

/-- Claim C15: over the in-process store, for every policy whose limit `L ≥ 1` and window
`W > 0` are `int64` values, and every subject that is not blocked: a `CheckLimit` made at a
reading `now` at or after the expiry of the subject's counter record returns
`Allowed = true` with `Remaining = L - 1` and `ResetTime = now + W`, whatever count the
expired record held, and leaves a counter record holding 1 with the expiry `now + W`. -/
theorem expired_window_restarts (ε : Type) (rl : RateLimiter) (now : Time)
    (ip token : String) (s : MockStorage) (e : Time)
    (hL : 1 ≤ (subjectConfig rl token).Limit) (hL64 : isInt64 (subjectConfig rl token).Limit)
    (hW : 0 < (subjectConfig rl token).Window)
    (hW64 : (subjectConfig rl token).Window ≤ maxInt64)
    (hfree : ¬ (s.Get now ("blocked:" ++ subjectKey rl ip token)).1 > 0)
    (hexp : s.ttl (subjectKey rl ip token) = some e) (he : e ≤ now) :
    (CheckLimit rl (mockStorage ε now) now ip token s).1
        = Except.ok ⟨true, (subjectConfig rl token).Limit - 1,
            Time.Add now (subjectConfig rl token).Window, subjectKind rl token,
            (subjectConfig rl token).Limit⟩ ∧
      (CheckLimit rl (mockStorage ε now) now ip token s).2.data (subjectKey rl ip token)
        = some 1 ∧
      (CheckLimit rl (mockStorage ε now) now ip token s).2.ttl (subjectKey rl ip token)
        = some (Time.Add now (subjectConfig rl token).Window) := by
  have hne : subjectKey rl ip token ≠ "blocked:" ++ subjectKey rl ip token :=
    fun h => blocked_ne_self _ h.symm
  have hg : (s.Get now ("blocked:" ++ subjectKey rl ip token)).2.ttl (subjectKey rl ip token)
      = some e := ((Get_frame s now _ _ hne).2).trans hexp
  obtain ⟨_, f2, _⟩ := Increment_fst (s.Get now ("blocked:" ++ subjectKey rl ip token)).2 now
    (subjectKey rl ip token) (subjectConfig rl token).Window
  have hone := f2 e hg he
  obtain ⟨hdata, hcase⟩ := Increment_snd (s.Get now ("blocked:" ++ subjectKey rl ip token)).2
    now (subjectKey rl ip token) (subjectConfig rl token).Window
  have httl : ((s.Get now ("blocked:" ++ subjectKey rl ip token)).2.Increment now
      (subjectKey rl ip token) (subjectConfig rl token).Window).2.ttl (subjectKey rl ip token)
      = some (Time.Add now (subjectConfig rl token).Window) := by
    rcases hcase with ⟨e', he', hlt, _⟩ | ⟨_, h⟩
    · rw [hg] at he'; cases he'; unfold Time at *; omega
    · exact h
  have hlt : now < Time.Add now (subjectConfig rl token).Window := by
    unfold Time.Add; unfold Time Duration at *; omega
  have hw : wrapInt64 ((subjectConfig rl token).Limit - 1) = (subjectConfig rl token).Limit - 1 := by
    apply wrapInt64_eq_self
    unfold isInt64 minInt64 maxInt64 at *
    omega
  have hsat : timeUntil now (Time.Add now (subjectConfig rl token).Window)
      = (subjectConfig rl token).Window := by
    unfold timeUntil Time.Add
    have : now + (subjectConfig rl token).Window - now = (subjectConfig rl token).Window := by
      unfold Time Duration at *; omega
    rw [this]
    apply satInt64_eq_self
    unfold isInt64 minInt64 maxInt64 at *
    unfold Duration at *
    omega
  rw [CheckLimit_eq, checkLimitForKey_mock, if_neg hfree, hone]
  have hnotgt : ¬ ((1 : Int) > (subjectConfig rl token).Limit) := by omega
  have hnn : ¬ ((subjectConfig rl token).Limit - 1 < 0) := by omega
  rw [if_neg hnotgt, hw, if_neg hnn, TTL_live _ now _ _ httl hlt, hsat]
  rw [hone] at hdata
  exact ⟨rfl, hdata, httl⟩

/-- Witness of C15: the subject of `TestRateLimiter_IPLimiting`, blocked at 3 ns, asked
again one minute later, when both its block and its window have expired. -/
theorem expired_window_restarts_witness :
    (CheckLimit testLimiter (mockStorage Unit 60000000003) 60000000003 "192.168.1.1" ""
          storeBlocked).1
        = Except.ok ⟨true, (subjectConfig testLimiter "").Limit - 1,
            Time.Add 60000000003 (subjectConfig testLimiter "").Window,
            subjectKind testLimiter "", (subjectConfig testLimiter "").Limit⟩ ∧
      (CheckLimit testLimiter (mockStorage Unit 60000000003) 60000000003 "192.168.1.1" ""
          storeBlocked).2.data (subjectKey testLimiter "192.168.1.1" "") = some 1 ∧
      (CheckLimit testLimiter (mockStorage Unit 60000000003) 60000000003 "192.168.1.1" ""
          storeBlocked).2.ttl (subjectKey testLimiter "192.168.1.1" "")
        = some (Time.Add 60000000003 (subjectConfig testLimiter "").Window) :=
  expired_window_restarts Unit testLimiter 60000000003 "192.168.1.1" "" storeBlocked
    1000000000 (by decide) (by decide) (by decide) (by decide) (by decide) rfl (by decide)

end ratelimiter

/-! ## C16: reads can be repeated -/

namespace storage

/-- The result of a call, and the record it leaves under its key, are determined by the
record under its key. -/
theorem applyOp_congr {m m' : MockStorage} (now : Time) (op : StoreOp)
    (h : agreeAt m m' op.key) :
    (applyOp m now op).1 = (applyOp m' now op).1 ∧
      agreeAt (applyOp m now op).2 (applyOp m' now op).2 op.key := by
  cases op with
  | Get key => exact Get_congr now key h
  | Increment key d => exact Increment_congr now key d h
  | Set key v d => exact ⟨rfl, Set_congr m m' now key v d⟩
  | TTL key => exact TTL_congr now key h

/-- A call at or after `t` returns the same on two stores that are the same up to entries
expired by `t`, and leaves them so. -/
theorem applyOp_sameUpToExpired (t now : Time) (op : StoreOp) (m m' : MockStorage)
    (hnow : t ≤ now) (h : sameUpToExpired t m m') :
    (applyOp m now op).1 = (applyOp m' now op).1 ∧
      sameUpToExpired t (applyOp m now op).2 (applyOp m' now op).2 := by
  have hkey : (applyOp m now op).1 = (applyOp m' now op).1 ∧
      agreeAt (applyOp m now op).2 (applyOp m' now op).2 op.key := by
    rcases h op.key with ha | ⟨e, hte, hle, hd', ht'⟩
    · exact applyOp_congr now op ha
    · have hexp : e ≤ now := by unfold Time at *; omega
      cases op with
      | Get key =>
        simp only [StoreOp.key] at hte hd' ht'
        simp only [applyOp, StoreOp.key]
        rw [Get_expired m now key e hte hexp, Get_absent m' now key hd' ht']
        exact ⟨rfl, by simp [agreeAt, MockStorage.deleteKey, GoMap.delete, hd', ht']⟩
      | TTL key =>
        simp only [StoreOp.key] at hte hd' ht'
        simp only [applyOp, StoreOp.key]
        rw [TTL_expired m now key e hte hexp, TTL_noexpiry m' now key ht']
        exact ⟨rfl, by simp [agreeAt, MockStorage.deleteKey, GoMap.delete, hd', ht']⟩
      | Set key v d => exact ⟨rfl, Set_congr m m' now key v d⟩
      | Increment key d =>
        simp only [StoreOp.key] at hte hd' ht'
        simp only [applyOp, StoreOp.key]
        obtain ⟨_, f2, _⟩ := Increment_fst m now key d
        obtain ⟨g1, _, _⟩ := Increment_fst m' now key d
        obtain ⟨hda, hca⟩ := Increment_snd m now key d
        obtain ⟨hdb, hcb⟩ := Increment_snd m' now key d
        have v1 := f2 e hte hexp
        have v2 := g1 hd'
        have ta : (m.Increment now key d).2.ttl key = some (Time.Add now d) := by
          rcases hca with ⟨e', he', hlt, _⟩ | ⟨_, h⟩
          · rw [hte] at he'; cases he'; unfold Time at *; omega
          · exact h
        have tb : (m'.Increment now key d).2.ttl key = some (Time.Add now d) := by
          rcases hcb with ⟨e', he', _, _⟩ | ⟨_, h⟩
          · rw [ht'] at he'; cases he'
          · exact h
        refine ⟨v1.trans v2.symm, ?_, ?_⟩
        · rw [hda, hdb, v1, v2]
        · rw [ta, tb]
  refine ⟨hkey.1, ?_⟩
  intro x
  by_cases hx : x = op.key
  · subst hx; exact Or.inl hkey.2
  · have f := applyOp_frame m now op x hx
    have f' := applyOp_frame m' now op x hx
    rcases h x with ha | ⟨e, hte, hle, hd', ht'⟩
    · exact Or.inl (agreeAt_trans f (agreeAt_trans ha (agreeAt_symm f')))
    · exact Or.inr ⟨e, f.2.trans hte, hle, f'.1.trans hd', f'.2.trans ht'⟩

/-- A read made no later than `t` only deletes entries expired by `t`. -/
theorem read_sameUpToExpired (t now : Time) (op : StoreOp) (m m' : MockStorage)
    (hnow : now ≤ t) (hread : op.isRead = true) (h : sameUpToExpired t m m') :
    sameUpToExpired t m (applyOp m' now op).2 := by
  intro x
  by_cases hx : x = op.key
  · subst hx
    rcases h op.key with ha | ⟨e, hte, hle, hd', ht'⟩
    · cases hte' : m'.ttl op.key with
      | none =>
        have hs : (applyOp m' now op).2 = m' := by
          cases op with
          | Get key =>
            simp only [applyOp, StoreOp.key] at *
            exact Get_snd_live m' now key (fun e he => by rw [hte'] at he; cases he)
          | TTL key =>
            simp only [applyOp, StoreOp.key] at *
            exact TTL_snd_live m' now key (fun e he => by rw [hte'] at he; cases he)
          | Set key v d => simp [StoreOp.isRead] at hread
          | Increment key d => simp [StoreOp.isRead] at hread
        rw [hs]; exact Or.inl ha
      | some e =>
        by_cases hlt : now < e
        · have hs : (applyOp m' now op).2 = m' := by
            cases op with
            | Get key =>
              simp only [applyOp, StoreOp.key] at *
              exact Get_snd_live m' now key
                (fun e' he' => by rw [hte'] at he'; cases he'; exact hlt)
            | TTL key =>
              simp only [applyOp, StoreOp.key] at *
              exact TTL_snd_live m' now key
                (fun e' he' => by rw [hte'] at he'; cases he'; exact hlt)
            | Set key v d => simp [StoreOp.isRead] at hread
            | Increment key d => simp [StoreOp.isRead] at hread
          rw [hs]; exact Or.inl ha
        · have hexp : e ≤ now := by unfold Time at *; omega
          have hdel : (applyOp m' now op).2 = m'.deleteKey op.key := by
            cases op with
            | Get key =>
              simp only [applyOp, StoreOp.key] at *
              rw [Get_expired m' now key e hte' hexp]
            | TTL key =>
              simp only [applyOp, StoreOp.key] at *
              rw [TTL_expired m' now key e hte' hexp]
            | Set key v d => simp [StoreOp.isRead] at hread
            | Increment key d => simp [StoreOp.isRead] at hread
          rw [hdel]
          refine Or.inr ⟨e, ha.2.trans hte', by unfold Time at *; omega, ?_, ?_⟩ <;>
            simp [MockStorage.deleteKey, GoMap.delete]
    · have hs : (applyOp m' now op).2 = m' := by
        cases op with
        | Get key =>
          simp only [applyOp, StoreOp.key] at *
          exact Get_snd_live m' now key (fun e' he' => by rw [ht'] at he'; cases he')
        | TTL key =>
          simp only [applyOp, StoreOp.key] at *
          exact TTL_snd_live m' now key (fun e' he' => by rw [ht'] at he'; cases he')
        | Set key v d => simp [StoreOp.isRead] at hread
        | Increment key d => simp [StoreOp.isRead] at hread
      rw [hs]; exact Or.inr ⟨e, hte, hle, hd', ht'⟩
  · have f' := applyOp_frame m' now op x hx
    rcases h x with ha | ⟨e, hte, hle, hd', ht'⟩
    · exact Or.inl (agreeAt_trans ha (agreeAt_symm f'))
    · exact Or.inr ⟨e, hte, hle, f'.1.trans hd', f'.2.trans ht'⟩

/-- A store is the same as itself up to expired entries. -/
theorem sameUpToExpired_refl (t : Time) (m : MockStorage) : sameUpToExpired t m m :=
  fun x => Or.inl (agreeAt_refl m x)

/-- Reads made no later than `t` only delete entries expired by `t`. -/
theorem runOps_reads (t : Time) (reads : List (Time × StoreOp)) (m m' : MockStorage)
    (hreads : ∀ o ∈ reads, o.2.isRead = true ∧ o.1 ≤ t) (h : sameUpToExpired t m m') :
    sameUpToExpired t m (runOps reads m').2 := by
  induction reads generalizing m' with
  | nil => exact h
  | cons o os ih =>
    have ho := hreads o (List.mem_cons_self _ _)
    simp only [runOps]
    exact ih _ (fun q hq => hreads q (List.mem_cons_of_mem _ hq))
      (read_sameUpToExpired t o.1 o.2 m m' ho.2 ho.1 h)

/-- Calls made from `t` on return the same on two stores that are the same up to entries
expired by `t`. -/
theorem runOps_sameUpToExpired (t : Time) (ops : List (Time × StoreOp)) (m m' : MockStorage)
    (hops : ∀ o ∈ ops, t ≤ o.1) (h : sameUpToExpired t m m') :
    (runOps ops m).1 = (runOps ops m').1 := by
  induction ops generalizing m m' with
  | nil => rfl
  | cons o os ih =>
    have hstep := applyOp_sameUpToExpired t o.1 o.2 m m' (hops o (List.mem_cons_self _ _)) h
    simp only [runOps]
    rw [hstep.1, ih _ _ (fun q hq => hops q (List.mem_cons_of_mem _ hq)) hstep.2]

end storage

namespace storage

/-- The time `TTL` returns for a key with the expiry `e`. -/
theorem TTL_fst (m : MockStorage) (now : Time) (key : String) (e : Time)
    (ht : m.ttl key = some e) : (m.TTL now key).1 = max 0 (satInt64 (e - now)) := by
  unfold MockStorage.TTL
  simp only [ht, timeUntil]
  by_cases h : satInt64 (e - now) ≤ 0
  · simp [h]
  · simp only [if_neg h]
    rw [max_eq_right (by omega)]

/-- Claim C16: for the in-process store and every store state `m`: (1) a `Get` of a key,
followed by any reads (`Get` or `TTL` of any keys) at the same reading, and then a second
`Get` of the key at that reading: the second returns what the first returned; (2) a `TTL`
of a key at `t`, followed by any reads no later than `t' ≥ t`, and then a second `TTL` of
the key at `t'`: the second returns the first remaining time minus the elapsed time
`t' - t`, floored at zero, provided the key's expiry lies within the range of a `Duration`
of `t`; (3) after any reads made no later than `t`, with the deletions of expired entries
they performed, every sequence of later calls (`Get`, `TTL`, `Increment`, `Set` of any
keys, at readings from `t` on) returns exactly what it returns without those reads. -/
theorem reads_are_repeatable (m : MockStorage) :
    (∀ (t : Time) (key : String) (reads : List (Time × StoreOp)),
        (∀ o ∈ reads, o.2.isRead = true ∧ o.1 ≤ t) →
        ((runOps reads (m.Get t key).2).2.Get t key).1 = (m.Get t key).1) ∧
      (∀ (t t' : Time) (key : String) (reads : List (Time × StoreOp)), t ≤ t' →
        (∀ e : Time, m.ttl key = some e → e - t ≤ maxInt64) →
        (∀ o ∈ reads, o.2.isRead = true ∧ o.1 ≤ t') →
        ((runOps reads (m.TTL t key).2).2.TTL t' key).1
          = max 0 ((m.TTL t key).1 - (t' - t))) ∧
      (∀ (t : Time) (reads ops : List (Time × StoreOp)),
        (∀ o ∈ reads, o.2.isRead = true ∧ o.1 ≤ t) → (∀ o ∈ ops, t ≤ o.1) →
        (runOps ops (runOps reads m).2).1 = (runOps ops m).1) := by
  have h3 : ∀ (t : Time) (reads ops : List (Time × StoreOp)),
      (∀ o ∈ reads, o.2.isRead = true ∧ o.1 ≤ t) → (∀ o ∈ ops, t ≤ o.1) →
      (runOps ops (runOps reads m).2).1 = (runOps ops m).1 := by
    intro t reads ops hreads hops
    exact (runOps_sameUpToExpired t ops m _ hops
      (runOps_reads t reads m m hreads (sameUpToExpired_refl t m))).symm
  refine ⟨?_, ?_, h3⟩
  · intro t key reads hreads
    have h := h3 t ((t, StoreOp.Get key) :: reads) [(t, StoreOp.Get key)]
      (by
        intro o ho
        rcases List.mem_cons.mp ho with h | h
        · rw [h]; exact ⟨rfl, le_refl _⟩
        · exact hreads o h)
      (by intro o ho; rw [List.mem_singleton.mp ho])
    simp only [runOps, applyOp] at h
    exact (List.cons.inj h).1
  · intro t t' key reads htt hrange hreads
    have h := h3 t' ((t, StoreOp.TTL key) :: reads) [(t', StoreOp.TTL key)]
      (by
        intro o ho
        rcases List.mem_cons.mp ho with h | h
        · rw [h]; exact ⟨rfl, htt⟩
        · exact hreads o h)
      (by intro o ho; rw [List.mem_singleton.mp ho])
    simp only [runOps, applyOp] at h
    rw [(List.cons.inj h).1]
    cases hte : m.ttl key with
    | none =>
      rw [TTL_noexpiry m t' key hte, TTL_noexpiry m t key hte]
      simp only []
      rw [max_eq_left]
      unfold Time Duration at *; omega
    | some e =>
      have hr := hrange e hte
      rw [TTL_fst m t' key e hte, TTL_fst m t key e hte]
      unfold satInt64 minInt64 maxInt64 at *
      unfold Time Duration at *
      simp only [max_def]
      split_ifs <;> omega

end storage

/-! ## C17: two `Increment` calls on one key -/

namespace storage

/-- The four statements of a call, run without interruption, are `MockStorage.Increment`. -/
theorem IncrementCall_run (now : Time) (key : String) (d : Duration) (m : MockStorage) :
    ((((IncrementCall.start now key d).step m).1.step
          ((IncrementCall.start now key d).step m).2).1.step
        ((((IncrementCall.start now key d).step m).1.step
          ((IncrementCall.start now key d).step m).2).2)).1.step
      ((((IncrementCall.start now key d).step m).1.step
          ((IncrementCall.start now key d).step m).2).1.step
        ((((IncrementCall.start now key d).step m).1.step
          ((IncrementCall.start now key d).step m).2).2)).2
      = (⟨now, key, d, 4, (m.Increment now key d).1⟩, (m.Increment now key d).2) := by
  simp only [IncrementCall.start, IncrementCall.step, MockStorage.Increment]

/-- Claim C17, amended to what the in-process store gives: `MockStorage` has no
mutual-exclusion mechanism, so only calls that do not overlap are covered. When the four
statements of one `Increment` all run before the four statements of another on the same
key, the two calls return what `MockStorage.Increment` composed with itself returns and
leave the store it leaves; and on a fresh key (no count, no expiry), the second call read
before the expiry the first one set, the calls return the distinct values 1 and 2 and the
expiry is the one the first call established, `t1 + d1`, which the second call leaves
alone. -/
theorem sequential_Increments_are_atomic (m : MockStorage) (t1 t2 : Time) (key : String)
    (d1 d2 : Duration) :
    interleave [false, false, false, false, true, true, true, true]
        (IncrementCall.start t1 key d1, IncrementCall.start t2 key d2, m)
      = (⟨t1, key, d1, 4, (m.Increment t1 key d1).1⟩,
          ⟨t2, key, d2, 4, ((m.Increment t1 key d1).2.Increment t2 key d2).1⟩,
          ((m.Increment t1 key d1).2.Increment t2 key d2).2) ∧
      (m.data key = none → m.ttl key = none → t2 < Time.Add t1 d1 →
        (m.Increment t1 key d1).1 = 1 ∧
          ((m.Increment t1 key d1).2.Increment t2 key d2).1 = 2 ∧
          (m.Increment t1 key d1).2.ttl key = some (Time.Add t1 d1) ∧
          ((m.Increment t1 key d1).2.Increment t2 key d2).2.ttl key
            = some (Time.Add t1 d1)) := by
  constructor
  · have h1 := IncrementCall_run t1 key d1 m
    have h2 := IncrementCall_run t2 key d2 (m.Increment t1 key d1).2
    simp only [interleave]
    rw [h1]
    simp only []
    rw [h2]
  · intro hd ht hlt
    have e1 := Increment_absent m t1 key d1 hd ht
    rw [e1]
    have e2 := Increment_live (MockStorage.mk (m.data.insert key 1)
      (m.ttl.insert key (Time.Add t1 d1))) t2 key d2 1 (Time.Add t1 d1)
      (by simp [GoMap.insert]) (by simp [GoMap.insert]) hlt
    rw [e2]
    have h2 : wrapInt64 2 = 2 := by decide
    simp [GoMap.insert, h2]

/-- Claim C17 fails as stated for the in-process store: nothing in `mock.go` excludes two
callers from each other, and in the schedule where both calls on the fresh key `test`
evaluate `m.data[key] + 1` before either one assigns `m.data[key]`, both calls run to
completion and both return 1; the stored count is then 1 after two increments. -/
theorem overlapping_Increments_return_the_same :
    (interleave [false, false, true, true, false, true, false, true]
        (IncrementCall.start 0 "test" 60000000000, IncrementCall.start 0 "test" 60000000000,
          NewMockStorage)).1.pc = 4 ∧
      (interleave [false, false, true, true, false, true, false, true]
        (IncrementCall.start 0 "test" 60000000000, IncrementCall.start 0 "test" 60000000000,
          NewMockStorage)).1.val = 1 ∧
      (interleave [false, false, true, true, false, true, false, true]
        (IncrementCall.start 0 "test" 60000000000, IncrementCall.start 0 "test" 60000000000,
          NewMockStorage)).2.1.pc = 4 ∧
      (interleave [false, false, true, true, false, true, false, true]
        (IncrementCall.start 0 "test" 60000000000, IncrementCall.start 0 "test" 60000000000,
          NewMockStorage)).2.1.val = 1 ∧
      (interleave [false, false, true, true, false, true, false, true]
        (IncrementCall.start 0 "test" 60000000000, IncrementCall.start 0 "test" 60000000000,
          NewMockStorage)).2.2.data "test" = some 1 := by
  decide

end storage

/-! ## C18: the client address -/

namespace middleware

/-- The first piece `strings.Split(s, ",")` returns is what precedes the first comma. -/
theorem splitComma_head (cs : List Char) :
    ∃ rest : List (List Char), splitComma cs = cs.takeWhile (fun c => c != ',') :: rest := by
  induction cs with
  | nil => exact ⟨[], rfl⟩
  | cons c cs ih =>
    obtain ⟨rest, hrest⟩ := ih
    by_cases hc : c = ','
    · exact ⟨splitComma cs, by simp [splitComma, hc]⟩
    · refine ⟨rest, ?_⟩
      simp [splitComma, hc, hrest]

/-- Claim C18: for every request and every behaviour of `net.SplitHostPort`,
`getClientIP` returns the first comma-separated entry of `X-Forwarded-For` (the text
before the first comma) with surrounding white space removed whenever that header is
non-empty, whatever `X-Real-IP` and the connection address are; otherwise `X-Real-IP`
when that header is non-empty; otherwise the host `net.SplitHostPort` extracts from the
connection address when the address splits, and the whole address when it does not. -/
theorem getClientIP_priority (SplitHostPort : String → Option (String × String))
    (r : Request) :
    (r.forwardedFor ≠ "" →
        getClientIP SplitHostPort r
          = TrimSpace (String.mk (r.forwardedFor.data.takeWhile (fun c => c != ',')))) ∧
      (r.forwardedFor = "" → r.realIP ≠ "" → getClientIP SplitHostPort r = r.realIP) ∧
      (r.forwardedFor = "" → r.realIP = "" →
        ∀ host port : String, SplitHostPort r.RemoteAddr = some (host, port) →
          getClientIP SplitHostPort r = host) ∧
      (r.forwardedFor = "" → r.realIP = "" → SplitHostPort r.RemoteAddr = none →
        getClientIP SplitHostPort r = r.RemoteAddr) := by
  refine ⟨?_, ?_, ?_, ?_⟩
  · intro hf
    obtain ⟨rest, hrest⟩ := splitComma_head r.forwardedFor.data
    simp [getClientIP, hf, Split, hrest]
  · intro hf hr
    simp [getClientIP, hf, hr]
  · intro hf hr host port hs
    simp [getClientIP, hf, hr, hs]
  · intro hf hr hs
    simp [getClientIP, hf, hr, hs]

/-- The forwarded header wins over `X-Real-IP` and the connection address, and its first
entry is trimmed: ` 203.0.113.1 , 198.51.100.7` gives `203.0.113.1`. -/
theorem getClientIP_priority_witness :
    getClientIP (fun _ => some ("10.0.0.1", "12345")) ⟨"203.0.113.1", "", "", "10.0.0.1:12345"⟩
        = "203.0.113.1" ∧
      getClientIP (fun _ => some ("10.0.0.1", "12345"))
          ⟨" 203.0.113.1 , 198.51.100.7", "198.51.100.9", "", "10.0.0.1:12345"⟩
        = TrimSpace (String.mk
            (" 203.0.113.1 , 198.51.100.7".data.takeWhile (fun c => c != ','))) ∧
      TrimSpace (String.mk (" 203.0.113.1 , 198.51.100.7".data.takeWhile (fun c => c != ',')))
        = "203.0.113.1" ∧
      getClientIP (fun _ => some ("192.168.1.1", "12345")) ⟨"", "", "", "192.168.1.1:12345"⟩
        = "192.168.1.1" :=
  ⟨by decide,
    (getClientIP_priority (fun _ => some ("10.0.0.1", "12345"))
      ⟨" 203.0.113.1 , 198.51.100.7", "198.51.100.9", "", "10.0.0.1:12345"⟩).1 (by decide),
    by decide, by decide⟩

end middleware

/-! ## C19, C20: the middleware applies the decision -/

namespace middleware

/-- Claim C19: for every request for which `CheckLimit` returns a decision `d`, on a
response writer whose status has not been written yet: when `d.Allowed` the wrapped
handler is invoked, on the writer carrying the four headers; the four headers
`X-RateLimit-Limit`, `X-RateLimit-Remaining`, `X-RateLimit-Reset` and `X-RateLimit-Type`
hold the decimal limit, the decimal remaining, the unix seconds of the reset time and the
limit kind; when `d.Allowed` is false the wrapped handler is not invoked, the status is
429, the body written is the JSON value with the fixed message and the error
`rate_limit_exceeded`, and the four headers and `Content-Type: application/json` are set;
the wrapped handler is invoked if and only if `d.Allowed`; and the limit kind is written
as `ip` or `token`. -/
theorem Handler_applies_decision {σ ε : Type} (rl : RateLimiter) (st : Storage σ ε)
    (now : Time) (SplitHostPort : String → Option (String × String))
    (next : ResponseWriter → Request → ResponseWriter) (w : ResponseWriter) (r : Request)
    (s : σ) (d : CheckResult) (s1 : σ)
    (hres : CheckLimit rl st now (getClientIP SplitHostPort r) r.apiKey s = (Except.ok d, s1))
    (hstatus : w.status = none) :
    (d.Allowed = true →
        Handler rl st now SplitHostPort next w r s =
          ((next ((((w.Set "X-RateLimit-Limit" (formatDecimal d.Limit)).Set
                "X-RateLimit-Remaining" (formatDecimal d.Remaining)).Set
                "X-RateLimit-Reset" (formatDecimal (Unix d.ResetTime))).Set
                "X-RateLimit-Type" d.LimitType.toString) r, true), s1)) ∧
      ((((((w.Set "X-RateLimit-Limit" (formatDecimal d.Limit)).Set
              "X-RateLimit-Remaining" (formatDecimal d.Remaining)).Set
              "X-RateLimit-Reset" (formatDecimal (Unix d.ResetTime))).Set
              "X-RateLimit-Type" d.LimitType.toString).header "X-RateLimit-Limit"
            = some (formatDecimal d.Limit)) ∧
        ((((w.Set "X-RateLimit-Limit" (formatDecimal d.Limit)).Set
              "X-RateLimit-Remaining" (formatDecimal d.Remaining)).Set
              "X-RateLimit-Reset" (formatDecimal (Unix d.ResetTime))).Set
              "X-RateLimit-Type" d.LimitType.toString).header "X-RateLimit-Remaining"
            = some (formatDecimal d.Remaining) ∧
        ((((w.Set "X-RateLimit-Limit" (formatDecimal d.Limit)).Set
              "X-RateLimit-Remaining" (formatDecimal d.Remaining)).Set
              "X-RateLimit-Reset" (formatDecimal (Unix d.ResetTime))).Set
              "X-RateLimit-Type" d.LimitType.toString).header "X-RateLimit-Reset"
            = some (formatDecimal (Unix d.ResetTime)) ∧
        ((((w.Set "X-RateLimit-Limit" (formatDecimal d.Limit)).Set
              "X-RateLimit-Remaining" (formatDecimal d.Remaining)).Set
              "X-RateLimit-Reset" (formatDecimal (Unix d.ResetTime))).Set
              "X-RateLimit-Type" d.LimitType.toString).header "X-RateLimit-Type"
            = some d.LimitType.toString) ∧
      (d.Allowed = false →
        (Handler rl st now SplitHostPort next w r s).1.2 = false ∧
          (Handler rl st now SplitHostPort next w r s).2 = s1 ∧
          (Handler rl st now SplitHostPort next w r s).1.1.status = some 429 ∧
          (Handler rl st now SplitHostPort next w r s).1.1.body
            = w.body ++ [Written.json ⟨"you have reached the maximum number of requests or actions allowed within a certain time frame", "rate_limit_exceeded"⟩] ∧
          (Handler rl st now SplitHostPort next w r s).1.1.header "X-RateLimit-Limit"
            = some (formatDecimal d.Limit) ∧
          (Handler rl st now SplitHostPort next w r s).1.1.header "X-RateLimit-Remaining"
            = some (formatDecimal d.Remaining) ∧
          (Handler rl st now SplitHostPort next w r s).1.1.header "X-RateLimit-Reset"
            = some (formatDecimal (Unix d.ResetTime)) ∧
          (Handler rl st now SplitHostPort next w r s).1.1.header "X-RateLimit-Type"
            = some d.LimitType.toString ∧
          (Handler rl st now SplitHostPort next w r s).1.1.header "Content-Type"
            = some "application/json") ∧
      ((Handler rl st now SplitHostPort next w r s).1.2 = true ↔ d.Allowed = true) ∧
      (d.LimitType.toString = "ip" ∨ d.LimitType.toString = "token") := by
  have n1 : ("X-RateLimit-Limit" : String) ≠ "X-RateLimit-Remaining" := by decide
  have n2 : ("X-RateLimit-Limit" : String) ≠ "X-RateLimit-Reset" := by decide
  have n3 : ("X-RateLimit-Limit" : String) ≠ "X-RateLimit-Type" := by decide
  have n4 : ("X-RateLimit-Remaining" : String) ≠ "X-RateLimit-Reset" := by decide
  have n5 : ("X-RateLimit-Remaining" : String) ≠ "X-RateLimit-Type" := by decide
  have n6 : ("X-RateLimit-Reset" : String) ≠ "X-RateLimit-Type" := by decide
  have c1 : ("X-RateLimit-Limit" : String) ≠ "Content-Type" := by decide
  have c2 : ("X-RateLimit-Remaining" : String) ≠ "Content-Type" := by decide
  have c3 : ("X-RateLimit-Reset" : String) ≠ "Content-Type" := by decide
  have c4 : ("X-RateLimit-Type" : String) ≠ "Content-Type" := by decide
  refine ⟨?_, ⟨?_, ?_, ?_, ?_⟩, ?_, ?_, ?_⟩
  · intro ha
    simp [Handler, hres, ha]
  · simp [ResponseWriter.Set, GoMap.insert, n1, n2, n3]
  · simp [ResponseWriter.Set, GoMap.insert, n4, n5]
  · simp [ResponseWriter.Set, GoMap.insert, n6]
  · simp [ResponseWriter.Set, GoMap.insert]
  · intro ha
    simp [Handler, hres, ha, ResponseWriter.Set, ResponseWriter.WriteHeader,
      ResponseWriter.Write, GoMap.insert, hstatus, rateLimitMessage, n1, n2, n3, n4, n5, n6,
      c1, c2, c3, c4]
  · cases ha : d.Allowed <;> simp [Handler, hres, ha]
  · cases d.LimitType <;> simp [LimitType.toString]

/-- Claim C20: for every request for which `CheckLimit` returns an error `e`, the
middleware answers with `http.Error(w, "Internal server error", 500)` and does not invoke
the wrapped handler, whatever `e` is: the status is 500 on a writer whose status has not
been written yet, the body written is the fixed line `Internal server error`, and every
header other than `Content-Type` and `X-Content-Type-Options`, so each of the
`X-RateLimit` headers, is as it was before the call. -/
theorem Handler_on_store_failure {σ ε : Type} (rl : RateLimiter) (st : Storage σ ε)
    (now : Time) (SplitHostPort : String → Option (String × String))
    (next : ResponseWriter → Request → ResponseWriter) (w : ResponseWriter) (r : Request)
    (s : σ) (e : CheckError ε) (s1 : σ)
    (hres : CheckLimit rl st now (getClientIP SplitHostPort r) r.apiKey s
      = (Except.error e, s1)) :
    Handler rl st now SplitHostPort next w r s
        = ((httpError w "Internal server error" 500, false), s1) ∧
      (w.status = none → (httpError w "Internal server error" 500).status = some 500) ∧
      (httpError w "Internal server error" 500).body
        = w.body ++ [Written.text "Internal server error\n"] ∧
      (∀ name : String, name ≠ "Content-Type" → name ≠ "X-Content-Type-Options" →
        (httpError w "Internal server error" 500).header name = w.header name) := by
  refine ⟨?_, ?_, ?_, ?_⟩
  · simp [Handler, hres]
  · intro hs
    simp [httpError, ResponseWriter.Set, ResponseWriter.WriteHeader, ResponseWriter.Write, hs]
  · cases hs : w.status <;>
      simp [httpError, ResponseWriter.Set, ResponseWriter.WriteHeader, ResponseWriter.Write, hs]
  · intro name h1 h2
    cases hs : w.status <;>
      simp [httpError, ResponseWriter.Set, ResponseWriter.WriteHeader, ResponseWriter.Write,
        GoMap.insert, hs, h1, h2]

/-- A subject at its limit is answered with 429 and `X-RateLimit-Remaining: 0` without
the wrapped handler being invoked, and a fresh subject is passed on to it. -/
theorem Handler_applies_decision_witness :
    (Handler testLimiter (mockStorage Unit 3) 3 testSplitHostPort testHandler newRecorder
          testRequest storeAtLimit).1.2 = false ∧
      (Handler testLimiter (mockStorage Unit 3) 3 testSplitHostPort testHandler newRecorder
          testRequest storeAtLimit).1.1.status = some 429 ∧
      (Handler testLimiter (mockStorage Unit 3) 3 testSplitHostPort testHandler newRecorder
          testRequest storeAtLimit).1.1.header "X-RateLimit-Remaining" = some "0" ∧
      (Handler testLimiter (mockStorage Unit 0) 0 testSplitHostPort testHandler newRecorder
          testRequest NewMockStorage).1.2 = true :=
  ⟨((Handler_applies_decision testLimiter (mockStorage Unit 3) 3 testSplitHostPort
      testHandler newRecorder testRequest storeAtLimit
      ⟨false, 0, 60000000003, LimitType.IPLimit, 3⟩ storeBlocked rfl rfl).2.2.1 rfl).1,
    ((Handler_applies_decision testLimiter (mockStorage Unit 3) 3 testSplitHostPort
      testHandler newRecorder testRequest storeAtLimit
      ⟨false, 0, 60000000003, LimitType.IPLimit, 3⟩ storeBlocked rfl rfl).2.2.1 rfl).2.2.1,
    by decide, by decide⟩

/-- Over a store whose every method fails the middleware answers 500, sets no
`X-RateLimit-Limit` header and does not invoke the wrapped handler. -/
theorem Handler_on_store_failure_witness :
    Handler testLimiter unavailableStore 0 testSplitHostPort testHandler newRecorder
          testRequest ()
        = ((httpError newRecorder "Internal server error" 500, false), ()) ∧
      (httpError newRecorder "Internal server error" 500).status = some 500 ∧
      (httpError newRecorder "Internal server error" 500).header "X-RateLimit-Limit" = none :=
  ⟨(Handler_on_store_failure testLimiter unavailableStore 0 testSplitHostPort testHandler
      newRecorder testRequest () (CheckError.checkBlocked "down") () rfl).1,
    by decide, by decide⟩

end middleware

/-! ## C21: the reset time of an open window -/

namespace ratelimiter

/-- A call made before the counter's expiry `e` leaves that expiry in place, and an
allowed decision of such a call carries the reset time `now + time.Until(e)`. -/
theorem checkLimitForKey_window {ε : Type} (now : Time) (k : String) (config : Config)
    (limitType : LimitType) (s : MockStorage) (e : Time)
    (hs : s.ttl k = some e) (hlt : now < e) :
    (checkLimitForKey (mockStorage ε now) now k config limitType s).2.ttl k = some e ∧
      ∀ d, (checkLimitForKey (mockStorage ε now) now k config limitType s).1 = Except.ok d →
        d.Allowed = true → d.ResetTime = Time.Add now (timeUntil now e) := by
  have hne : k ≠ "blocked:" ++ k := fun h => blocked_ne_self k h.symm
  have hg : (s.Get now ("blocked:" ++ k)).2.ttl k = some e := by
    rw [(Get_frame s now ("blocked:" ++ k) k hne).2]; exact hs
  have hi : ((s.Get now ("blocked:" ++ k)).2.Increment now k config.Window).2.ttl k
      = some e := by
    rcases (Increment_snd (s.Get now ("blocked:" ++ k)).2 now k config.Window).2 with
      ⟨e', he', _, h⟩ | ⟨h, _⟩
    · rw [hg] at he'; rw [h, Option.some.inj he']
    · have := h e hg
      unfold Time at *; omega
  have ht := TTL_live ((s.Get now ("blocked:" ++ k)).2.Increment now k config.Window).2
    now k e hi hlt
  rw [checkLimitForKey_mock]
  by_cases h1 : (s.Get now ("blocked:" ++ k)).1 > 0
  · rw [if_pos h1]
    refine ⟨?_, ?_⟩
    · rw [(TTL_frame _ now ("blocked:" ++ k) k hne).2]; exact hg
    · intro d hd ha
      have := Except.ok.inj hd
      rw [← this] at ha
      exact absurd ha (by simp)
  · rw [if_neg h1]
    by_cases h2 : ((s.Get now ("blocked:" ++ k)).2.Increment now k config.Window).1
        > config.Limit
    · rw [if_pos h2]
      refine ⟨?_, ?_⟩
      · rw [(Set_frame _ now ("blocked:" ++ k) k 1 config.BlockTime hne).2]; exact hi
      · intro d hd ha
        have := Except.ok.inj hd
        rw [← this] at ha
        exact absurd ha (by simp)
    · rw [if_neg h2]
      refine ⟨?_, ?_⟩
      · rw [ht]; exact hi
      · intro d hd _
        have := Except.ok.inj hd
        rw [← this, ht]

/-- The same over a run of calls: while every call for the subject is made before the
expiry `e` of its counter, the expiry stays and every allowed decision for the subject
carries the reset time `now + time.Until(e)` of its call. -/
theorem runCalls_window (ε : Type) (rl : RateLimiter) (ip token : String) (e : Time)
    (cs : List Call) (s : MockStorage)
    (hs : s.ttl (subjectKey rl ip token) = some e)
    (hcs : ∀ c ∈ cs, subjectKey rl c.ip c.token = subjectKey rl ip token → c.now < e) :
    (runCalls ε rl cs s).2.ttl (subjectKey rl ip token) = some e ∧
      ∀ p ∈ List.zip cs (runCalls ε rl cs s).1,
        subjectKey rl p.1.ip p.1.token = subjectKey rl ip token →
          ∀ d, p.2 = Except.ok d → d.Allowed = true →
            d.ResetTime = Time.Add p.1.now (timeUntil p.1.now e) := by
  induction cs generalizing s with
  | nil => exact ⟨hs, by intro p hp; simp [runCalls] at hp⟩
  | cons c cs ih =>
    simp only [runCalls]
    by_cases hk : subjectKey rl c.ip c.token = subjectKey rl ip token
    · have hlt := hcs c (List.mem_cons_self _ _) hk
      have hce := CheckLimit_of_subject rl (mockStorage ε c.now) c.now ip token c.ip c.token s hk
      have hw := checkLimitForKey_window (ε := ε) c.now (subjectKey rl ip token)
        (subjectConfig rl token) (subjectKind rl token) s e hs hlt
      rw [← hce] at hw
      have ih' := ih _ hw.1 (fun c' hc' => hcs c' (List.mem_cons_of_mem _ hc'))
      refine ⟨ih'.1, ?_⟩
      intro p hp
      rw [List.zip_cons_cons] at hp
      rcases List.mem_cons.mp hp with h | h
      · rw [h]; intro _ d hd ha
        exact hw.2 d hd ha
      · exact ih'.2 p h
    · have hf := (CheckLimit_frame (ε := ε) rl c s ip token hk).1
      have ih' := ih (CheckLimit rl (mockStorage ε c.now) c.now c.ip c.token s).2
        (by rw [hf.2]; exact hs) (fun c' hc' => hcs c' (List.mem_cons_of_mem _ hc'))
      refine ⟨ih'.1, ?_⟩
      intro p hp
      rw [List.zip_cons_cons] at hp
      rcases List.mem_cons.mp hp with h | h
      · rw [h]; intro hk'; exact absurd hk' hk
      · exact ih'.2 p h

/-- Claim C21: for every policy with window `W`, `0 < W`, `W` a `Duration` (at most
`2^63 - 1` ns), over the in-process store: when a call for the subject at the reading `t1`
starts the window (the subject is not blocked at `t1` and its counter is absent or has
expired by `t1`), the counter's expiry is `t1 + W` after that call and stays so through
every run of later calls, for any subjects, in which the calls for the subject are made
at readings `t` with `t1 ≤ t < t1 + W`; and every allowed decision returned for the
subject in that run, the starting call included, carries `ResetTime = t1 + W`, however
many calls have been made. -/
theorem reset_time_is_window_end (ε : Type) (rl : RateLimiter) (ip token : String)
    (s : MockStorage) (c1 : Call) (cs : List Call)
    (hW : 0 < (subjectConfig rl token).Window)
    (hW64 : (subjectConfig rl token).Window ≤ maxInt64)
    (hk1 : subjectKey rl c1.ip c1.token = subjectKey rl ip token)
    (hstart : ∀ e, s.ttl (subjectKey rl ip token) = some e → e ≤ c1.now)
    (hnb : ¬ (s.Get c1.now ("blocked:" ++ subjectKey rl ip token)).1 > 0)
    (hcs : ∀ c ∈ cs, subjectKey rl c.ip c.token = subjectKey rl ip token →
      c1.now ≤ c.now ∧ c.now < Time.Add c1.now (subjectConfig rl token).Window) :
    (CheckLimit rl (mockStorage ε c1.now) c1.now c1.ip c1.token s).2.ttl
          (subjectKey rl ip token)
        = some (Time.Add c1.now (subjectConfig rl token).Window) ∧
      (runCalls ε rl (c1 :: cs) s).2.ttl (subjectKey rl ip token)
        = some (Time.Add c1.now (subjectConfig rl token).Window) ∧
      ∀ p ∈ List.zip (c1 :: cs) (runCalls ε rl (c1 :: cs) s).1,
        subjectKey rl p.1.ip p.1.token = subjectKey rl ip token →
          ∀ d, p.2 = Except.ok d → d.Allowed = true →
            d.ResetTime = Time.Add c1.now (subjectConfig rl token).Window := by
  have hne : subjectKey rl ip token ≠ "blocked:" ++ subjectKey rl ip token :=
    fun h => blocked_ne_self _ h.symm
  have hce := CheckLimit_of_subject rl (mockStorage ε c1.now) c1.now ip token c1.ip c1.token
    s hk1
  have hg : (s.Get c1.now ("blocked:" ++ subjectKey rl ip token)).2.ttl
      (subjectKey rl ip token) = s.ttl (subjectKey rl ip token) :=
    (Get_frame s c1.now _ _ hne).2
  have hi : ((s.Get c1.now ("blocked:" ++ subjectKey rl ip token)).2.Increment c1.now
      (subjectKey rl ip token) (subjectConfig rl token).Window).2.ttl (subjectKey rl ip token)
      = some (Time.Add c1.now (subjectConfig rl token).Window) := by
    rcases (Increment_snd (s.Get c1.now ("blocked:" ++ subjectKey rl ip token)).2 c1.now
      (subjectKey rl ip token) (subjectConfig rl token).Window).2 with ⟨e', he', hlt, _⟩ | ⟨_, h⟩
    · rw [hg] at he'
      have := hstart e' he'
      unfold Time at *; omega
    · exact h
  have hnow : c1.now < Time.Add c1.now (subjectConfig rl token).Window := by
    unfold Time.Add; unfold Time Duration at *; omega
  have ht := TTL_live _ c1.now (subjectKey rl ip token) _ hi hnow
  have hsat : ∀ t : Time, c1.now ≤ t → t < Time.Add c1.now (subjectConfig rl token).Window →
      Time.Add t (timeUntil t (Time.Add c1.now (subjectConfig rl token).Window))
        = Time.Add c1.now (subjectConfig rl token).Window := by
    intro t h1 h2
    unfold Time.Add timeUntil satInt64 minInt64 maxInt64 at *
    unfold Time Duration at *
    split_ifs <;> omega
  have hfirst : (CheckLimit rl (mockStorage ε c1.now) c1.now c1.ip c1.token s).2.ttl
        (subjectKey rl ip token)
        = some (Time.Add c1.now (subjectConfig rl token).Window) ∧
      ∀ d, (CheckLimit rl (mockStorage ε c1.now) c1.now c1.ip c1.token s).1 = Except.ok d →
        d.Allowed = true →
          d.ResetTime = Time.Add c1.now (subjectConfig rl token).Window := by
    rw [hce, checkLimitForKey_mock, if_neg hnb]
    by_cases h2 : ((s.Get c1.now ("blocked:" ++ subjectKey rl ip token)).2.Increment c1.now
        (subjectKey rl ip token) (subjectConfig rl token).Window).1
          > (subjectConfig rl token).Limit
    · rw [if_pos h2]
      refine ⟨?_, ?_⟩
      · rw [(Set_frame _ c1.now _ _ 1 _ hne).2]; exact hi
      · intro d hd ha
        have := Except.ok.inj hd
        rw [← this] at ha
        exact absurd ha (by simp)
    · rw [if_neg h2]
      refine ⟨?_, ?_⟩
      · rw [ht]; exact hi
      · intro d hd _
        have := Except.ok.inj hd
        rw [← this, ht]
        exact hsat c1.now (le_refl _) hnow
  have hrun := runCalls_window ε rl ip token
    (Time.Add c1.now (subjectConfig rl token).Window) cs
    (CheckLimit rl (mockStorage ε c1.now) c1.now c1.ip c1.token s).2 hfirst.1
    (fun c hc hk => (hcs c hc hk).2)
  refine ⟨hfirst.1, ?_, ?_⟩
  · simp only [runCalls]; exact hrun.1
  · intro p hp
    simp only [runCalls] at hp
    rw [List.zip_cons_cons] at hp
    rcases List.mem_cons.mp hp with h | h
    · rw [h]; intro _ d hd ha
      exact hfirst.2 d hd ha
    · intro hk d hd ha
      rw [hrun.2 p h hk d hd ha]
      have hc := hcs p.1 (List.of_mem_zip h).1 hk
      exact hsat p.1.now hc.1 hc.2

/-- Three allowed calls of `192.168.1.1` at 5, 7 and 1000000004 ns under a window of one
second all carry the reset time 1000000005 ns; the call of another address in between
carries its own. -/
theorem reset_time_is_window_end_witness :
    (runCalls Unit testLimiter
        [⟨"192.168.1.1", "", 5⟩, ⟨"10.0.0.9", "", 6⟩, ⟨"192.168.1.1", "", 7⟩,
          ⟨"192.168.1.1", "", 1000000004⟩] NewMockStorage).2.ttl "ip:192.168.1.1"
        = some 1000000005 ∧
      (runCalls Unit testLimiter
        [⟨"192.168.1.1", "", 5⟩, ⟨"10.0.0.9", "", 6⟩, ⟨"192.168.1.1", "", 7⟩,
          ⟨"192.168.1.1", "", 1000000004⟩] NewMockStorage).1
        = [Except.ok ⟨true, 2, 1000000005, LimitType.IPLimit, 3⟩,
            Except.ok ⟨true, 2, 1000000006, LimitType.IPLimit, 3⟩,
            Except.ok ⟨true, 1, 1000000005, LimitType.IPLimit, 3⟩,
            Except.ok ⟨true, 0, 1000000005, LimitType.IPLimit, 3⟩] :=
  ⟨(reset_time_is_window_end Unit testLimiter "192.168.1.1" "" NewMockStorage
      ⟨"192.168.1.1", "", 5⟩
      [⟨"10.0.0.9", "", 6⟩, ⟨"192.168.1.1", "", 7⟩, ⟨"192.168.1.1", "", 1000000004⟩]
      (by decide) (by decide) rfl (by intro e he; exact absurd he (by simp [NewMockStorage, GoMap.empty]))
      (by decide)
      (by
        intro c hc hk
        simp only [List.mem_cons, List.mem_singleton, List.not_mem_nil, or_false] at hc
        rcases hc with h | h | h
        · rw [h] at hk; exact absurd hk (by decide)
        · rw [h]; decide
        · rw [h]; decide)).2.1,
    rfl⟩

end ratelimiter

/-! ## C22: a block that lapses inside the window -/

namespace ratelimiter

/-- A call that is not blocked and finds the open counter at or above the limit counts
once more, is denied, and writes the block record anew. -/
theorem checkLimitForKey_renew {ε : Type} (now : Time) (k : String) (config : Config)
    (limitType : LimitType) (s : MockStorage) (n : Int) (e : Time)
    (hn : s.data k = some n) (he : s.ttl k = some e) (hlt : now < e)
    (hb : ¬ (s.Get now ("blocked:" ++ k)).1 > 0)
    (hL : config.Limit ≤ n) (h64 : isInt64 (n + 1)) :
    (checkLimitForKey (mockStorage ε now) now k config limitType s).1
        = Except.ok ⟨false, 0, Time.Add now config.BlockTime, limitType, config.Limit⟩ ∧
      (checkLimitForKey (mockStorage ε now) now k config limitType s).2.data k
        = some (n + 1) ∧
      (checkLimitForKey (mockStorage ε now) now k config limitType s).2.ttl k = some e ∧
      blockedUntil (checkLimitForKey (mockStorage ε now) now k config limitType s).2 k
        (Time.Add now config.BlockTime) := by
  have hne : k ≠ "blocked:" ++ k := fun h => blocked_ne_self k h.symm
  have hg := Get_frame s now ("blocked:" ++ k) k hne
  have hi := Increment_live (s.Get now ("blocked:" ++ k)).2 now k config.Window n e
    (by rw [hg.1]; exact hn) (by rw [hg.2]; exact he) hlt
  rw [wrapInt64_eq_self h64] at hi
  rw [checkLimitForKey_mock, if_neg hb, hi]
  have hgt : n + 1 > config.Limit := by omega
  simp only []
  rw [if_pos hgt]
  refine ⟨rfl, ?_, ?_, ?_, ?_⟩
  · simp [MockStorage.Set, GoMap.insert, hne]
  · simp [MockStorage.Set, GoMap.insert, hne, hg.2, he]
  · simp [MockStorage.Set, GoMap.insert]
  · simp [MockStorage.Set, GoMap.insert]

/-- While the counter is open and at or above the limit, every call for the subject is
denied, whatever its block record holds, and the counter stays or grows by one. -/
theorem checkLimitForKey_over {ε : Type} (now : Time) (k : String) (config : Config)
    (limitType : LimitType) (s : MockStorage) (n : Int) (e : Time)
    (hn : s.data k = some n) (he : s.ttl k = some e) (hlt : now < e)
    (hL : config.Limit ≤ n) (h64 : isInt64 (n + 1)) :
    (∃ d, (checkLimitForKey (mockStorage ε now) now k config limitType s).1 = Except.ok d ∧
        d.Allowed = false ∧ d.Remaining = 0) ∧
      ((checkLimitForKey (mockStorage ε now) now k config limitType s).2.data k = some n ∨
        (checkLimitForKey (mockStorage ε now) now k config limitType s).2.data k
          = some (n + 1)) ∧
      (checkLimitForKey (mockStorage ε now) now k config limitType s).2.ttl k = some e := by
  by_cases hb : (s.Get now ("blocked:" ++ k)).1 > 0
  · have hne : k ≠ "blocked:" ++ k := fun h => blocked_ne_self k h.symm
    have hg := Get_frame s now ("blocked:" ++ k) k hne
    have ht := TTL_frame (s.Get now ("blocked:" ++ k)).2 now ("blocked:" ++ k) k hne
    rw [checkLimitForKey_mock, if_pos hb]
    refine ⟨⟨_, rfl, rfl, rfl⟩, Or.inl ?_, ?_⟩
    · simp only []; rw [ht.1, hg.1]; exact hn
    · simp only []; rw [ht.2, hg.2]; exact he
  · have h := checkLimitForKey_renew (ε := ε) now k config limitType s n e hn he hlt hb hL h64
    exact ⟨⟨_, h.1, rfl, rfl⟩, Or.inr h.2.1, h.2.2.1⟩

/-- The same over a run of calls: from a store in which the subject's counter is open
and at or above the limit, every call for the subject made before the counter's expiry
is denied with remaining 0. -/
theorem runCalls_over (ε : Type) (rl : RateLimiter) (ip token : String) (e : Time)
    (cs : List Call) (s : MockStorage) (n : Int)
    (hn : s.data (subjectKey rl ip token) = some n)
    (he : s.ttl (subjectKey rl ip token) = some e)
    (hL : (subjectConfig rl token).Limit ≤ n) (hmin : minInt64 ≤ n + 1)
    (hmax : n + (callsFor rl (subjectKey rl ip token) cs).length ≤ maxInt64)
    (hcs : ∀ c ∈ cs, subjectKey rl c.ip c.token = subjectKey rl ip token → c.now < e) :
    ∀ p ∈ List.zip cs (runCalls ε rl cs s).1,
      subjectKey rl p.1.ip p.1.token = subjectKey rl ip token →
        ∃ d, p.2 = Except.ok d ∧ d.Allowed = false ∧ d.Remaining = 0 := by
  induction cs generalizing s n with
  | nil => intro p hp; simp [runCalls] at hp
  | cons c cs ih =>
    simp only [runCalls]
    intro p hp
    rw [List.zip_cons_cons] at hp
    by_cases hk : subjectKey rl c.ip c.token = subjectKey rl ip token
    · have hlen : ((callsFor rl (subjectKey rl ip token) (c :: cs)).length : Int)
          = (callsFor rl (subjectKey rl ip token) cs).length + 1 := by
        simp [callsFor, List.filter_cons, hk]
      have hlt := hcs c (List.mem_cons_self _ _) hk
      have hce := CheckLimit_of_subject rl (mockStorage ε c.now) c.now ip token c.ip c.token
        s hk
      have hw := checkLimitForKey_over (ε := ε) c.now (subjectKey rl ip token)
        (subjectConfig rl token) (subjectKind rl token) s n e hn he hlt hL
        (by unfold isInt64; constructor <;> omega)
      rw [← hce] at hw
      rcases List.mem_cons.mp hp with h | h
      · rw [h]; intro _; exact hw.1
      · rcases hw.2.1 with hd | hd
        · exact ih _ n hd hw.2.2 hL hmin (by omega)
            (fun c' hc' => hcs c' (List.mem_cons_of_mem _ hc')) p h
        · exact ih _ (n + 1) hd hw.2.2 (by omega) (by omega) (by omega)
            (fun c' hc' => hcs c' (List.mem_cons_of_mem _ hc')) p h
    · have hlen : (callsFor rl (subjectKey rl ip token) (c :: cs)).length
          = (callsFor rl (subjectKey rl ip token) cs).length := by
        simp [callsFor, List.filter_cons, hk]
      have hf := (CheckLimit_frame (ε := ε) rl c s ip token hk).1
      rcases List.mem_cons.mp hp with h | h
      · rw [h]; intro hk'; exact absurd hk' hk
      · exact ih _ n (by rw [hf.1]; exact hn) (by rw [hf.2]; exact he) hL hmin
          (by rw [hlen] at hmax; exact hmax)
          (fun c' hc' => hcs c' (List.mem_cons_of_mem _ hc')) p h

/-- With a block time that is not positive the block record has expired as soon as it is
written: repeated calls at one reading into an open counter at or above the limit are all
denied and each counts once more. -/
theorem runCalls_renew (ε : Type) (rl : RateLimiter) (c : Call) (N : Nat) (s : MockStorage)
    (n : Int) (e : Time)
    (hB : (subjectConfig rl c.token).BlockTime ≤ 0)
    (hn : s.data (subjectKey rl c.ip c.token) = some n)
    (he : s.ttl (subjectKey rl c.ip c.token) = some e) (hlt : c.now < e)
    (hb : ¬ (s.Get c.now ("blocked:" ++ subjectKey rl c.ip c.token)).1 > 0)
    (hL : (subjectConfig rl c.token).Limit ≤ n) (hmin : minInt64 ≤ n + 1)
    (hmax : n + N ≤ maxInt64) :
    (runCalls ε rl (List.replicate N c) s).1
        = List.replicate N (Except.ok ⟨false, 0, Time.Add c.now (subjectConfig rl c.token).BlockTime,
            subjectKind rl c.token, (subjectConfig rl c.token).Limit⟩) ∧
      (runCalls ε rl (List.replicate N c) s).2.data (subjectKey rl c.ip c.token)
        = some (n + N) ∧
      (runCalls ε rl (List.replicate N c) s).2.ttl (subjectKey rl c.ip c.token) = some e ∧
      ¬ ((runCalls ε rl (List.replicate N c) s).2.Get c.now
          ("blocked:" ++ subjectKey rl c.ip c.token)).1 > 0 := by
  induction N generalizing s n with
  | zero => exact ⟨rfl, by simpa using hn, he, hb⟩
  | succ N ih =>
    have hw := checkLimitForKey_renew (ε := ε) c.now (subjectKey rl c.ip c.token)
      (subjectConfig rl c.token) (subjectKind rl c.token) s n e hn he hlt hb hL
      (by unfold isInt64; constructor <;> push_cast at hmax <;> omega)
    rw [← CheckLimit_eq] at hw
    have hb' : ¬ ((CheckLimit rl (mockStorage ε c.now) c.now c.ip c.token s).2.Get c.now
        ("blocked:" ++ subjectKey rl c.ip c.token)).1 > 0 := by
      rw [Get_expired _ c.now _ _ hw.2.2.2.2 (by unfold Time.Add; unfold Time Duration at *; omega)]
      simp
    have ih' := ih (CheckLimit rl (mockStorage ε c.now) c.now c.ip c.token s).2 (n + 1)
      hw.2.1 hw.2.2.1 hb' (by omega) (by omega) (by push_cast at hmax; omega)
    rw [List.replicate_succ, List.replicate_succ]
    simp only [runCalls]
    refine ⟨?_, ?_, ih'.2.2.1, ih'.2.2.2⟩
    · rw [hw.1, ih'.1]
    · rw [ih'.2.1]; push_cast; congr 1; omega

/-- At the count `2^63 - 1` the increment of a call that is not blocked wraps to `-2^63`,
which is not above a limit `L ≥ 0`: the call is allowed. -/
theorem checkLimitForKey_renew_wrap {ε : Type} (now : Time) (k : String) (config : Config)
    (limitType : LimitType) (s : MockStorage) (e : Time)
    (hn : s.data k = some maxInt64) (he : s.ttl k = some e) (hlt : now < e)
    (hb : ¬ (s.Get now ("blocked:" ++ k)).1 > 0)
    (hL : 0 ≤ config.Limit) (hL64 : config.Limit ≤ maxInt64) :
    (checkLimitForKey (mockStorage ε now) now k config limitType s).1
      = Except.ok ⟨true, 0, Time.Add now (timeUntil now e), limitType, config.Limit⟩ := by
  have hne : k ≠ "blocked:" ++ k := fun h => blocked_ne_self k h.symm
  have hg := Get_frame s now ("blocked:" ++ k) k hne
  have hi := Increment_live (s.Get now ("blocked:" ++ k)).2 now k config.Window maxInt64 e
    (by rw [hg.1]; exact hn) (by rw [hg.2]; exact he) hlt
  have hwrap : wrapInt64 (maxInt64 + 1) = minInt64 := by decide
  rw [hwrap] at hi
  rw [checkLimitForKey_mock, if_neg hb, hi]
  have hgt : ¬ minInt64 > config.Limit := by unfold minInt64; omega
  simp only []
  rw [if_neg hgt]
  have ht := TTL_live (MockStorage.mk ((s.Get now ("blocked:" ++ k)).2.data.insert k minInt64)
    (s.Get now ("blocked:" ++ k)).2.ttl) now k e (by simp only []; rw [hg.2]; exact he) hlt
  rw [ht]
  have hrem : wrapInt64 (config.Limit - minInt64) < 0 := by
    unfold wrapInt64 minInt64; unfold maxInt64 at hL64; omega
  simp only []
  rw [if_pos hrem]

/-- Claim C22, amended by a bound on the count: for every policy with limit `L ≥ 1`
over the in-process store, and a subject whose counter holds a count `n > L` and is open
until `e` while its block record has expired by the reading `t` of a call for the subject,
`t < e`: provided the count stays within `int64` (`n` plus the number of calls made for
the subject is at most `2^63 - 1`), that call increments the counter to `n + 1`, is
denied with remaining 0 and the reset time `t + BlockTime`, leaves the counter's expiry at
`e` and writes a block record holding 1 that expires at `t + BlockTime`; and in every run
of calls that follows it, for any subjects, each call made for the subject before `e` is
denied with remaining 0, so the subject is allowed again only by a call at or after the
counter's expiry. -/
theorem expired_block_is_renewed (ε : Type) (rl : RateLimiter) (ip token : String)
    (s : MockStorage) (n : Int) (e b : Time) (c : Call) (cs : List Call)
    (hL : 1 ≤ (subjectConfig rl token).Limit)
    (hk : subjectKey rl c.ip c.token = subjectKey rl ip token)
    (hn : s.data (subjectKey rl ip token) = some n)
    (he : s.ttl (subjectKey rl ip token) = some e)
    (hb : s.ttl ("blocked:" ++ subjectKey rl ip token) = some b)
    (hover : (subjectConfig rl token).Limit < n)
    (hbt : b ≤ c.now) (hte : c.now < e)
    (hmax : n + (callsFor rl (subjectKey rl ip token) (c :: cs)).length ≤ maxInt64)
    (hcs : ∀ c' ∈ cs, subjectKey rl c'.ip c'.token = subjectKey rl ip token → c'.now < e) :
    (CheckLimit rl (mockStorage ε c.now) c.now c.ip c.token s).1
        = Except.ok ⟨false, 0, Time.Add c.now (subjectConfig rl token).BlockTime,
            subjectKind rl token, (subjectConfig rl token).Limit⟩ ∧
      (CheckLimit rl (mockStorage ε c.now) c.now c.ip c.token s).2.data
          (subjectKey rl ip token) = some (n + 1) ∧
      (CheckLimit rl (mockStorage ε c.now) c.now c.ip c.token s).2.ttl
          (subjectKey rl ip token) = some e ∧
      blockedUntil (CheckLimit rl (mockStorage ε c.now) c.now c.ip c.token s).2
          (subjectKey rl ip token) (Time.Add c.now (subjectConfig rl token).BlockTime) ∧
      ∀ p ∈ List.zip (c :: cs) (runCalls ε rl (c :: cs) s).1,
        subjectKey rl p.1.ip p.1.token = subjectKey rl ip token →
          ∃ d, p.2 = Except.ok d ∧ d.Allowed = false ∧ d.Remaining = 0 := by
  have hlen : ((callsFor rl (subjectKey rl ip token) (c :: cs)).length : Int)
      = (callsFor rl (subjectKey rl ip token) cs).length + 1 := by
    simp [callsFor, List.filter_cons, hk]
  have hfree : ¬ (s.Get c.now ("blocked:" ++ subjectKey rl ip token)).1 > 0 := by
    rw [Get_expired s c.now _ b hb hbt]; simp
  have hw := checkLimitForKey_renew (ε := ε) c.now (subjectKey rl ip token)
    (subjectConfig rl token) (subjectKind rl token) s n e hn he hte hfree (by omega)
    (by unfold isInt64 minInt64; constructor <;> omega)
  rw [← CheckLimit_of_subject rl (mockStorage ε c.now) c.now ip token c.ip c.token s hk] at hw
  refine ⟨hw.1, hw.2.1, hw.2.2.1, hw.2.2.2, ?_⟩
  exact runCalls_over ε rl ip token e (c :: cs) s n hn he (by omega)
    (by unfold minInt64; omega) hmax
    (by
      intro c' hc' hk'
      rcases List.mem_cons.mp hc' with h | h
      · rw [h]; exact hte
      · exact hcs c' h hk')

/-- Under a block time of 10 ns the block written at 3 ns has lapsed at 20 ns while the
window runs until one second: the call at 20 ns counts a fifth time, is denied, and
blocks again until 30 ns. -/
theorem expired_block_is_renewed_witness :
    (CheckLimit shortBlockLimiter (mockStorage Unit 20) 20 "192.168.1.1" ""
          storeBlockLapsed).1
        = Except.ok ⟨false, 0, 30, LimitType.IPLimit, 3⟩ ∧
      (CheckLimit shortBlockLimiter (mockStorage Unit 20) 20 "192.168.1.1" ""
          storeBlockLapsed).2.data "ip:192.168.1.1" = some 5 ∧
      storeBlockLapsed.ttl "blocked:ip:192.168.1.1" = some 13 ∧
      storeBlockLapsed.ttl "ip:192.168.1.1" = some 1000000000 :=
  ⟨(expired_block_is_renewed Unit shortBlockLimiter "192.168.1.1" "" storeBlockLapsed 4
      1000000000 13 ⟨"192.168.1.1", "", 20⟩ [] (by decide) rfl rfl rfl rfl (by decide)
      (by decide) (by decide) (by decide)
      (by intro c hc; exact absurd hc (List.not_mem_nil _))).1,
    (expired_block_is_renewed Unit shortBlockLimiter "192.168.1.1" "" storeBlockLapsed 4
      1000000000 13 ⟨"192.168.1.1", "", 20⟩ [] (by decide) rfl rfl rfl rfl (by decide)
      (by decide) (by decide) (by decide)
      (by intro c hc; exact absurd hc (List.not_mem_nil _))).2.1,
    rfl, rfl⟩

/-- Claim C22 fails as stated once the count reaches `2^63 - 1`: under the policy with
limit 1, a window of one nanosecond and block time 0, of `2^63` calls of one address all
made at the reading 0, the second is denied and writes a block record that has expired at
once, every later call counts again, and the last one increments the counter from
`2^63 - 1` to `-2^63`, which is not above the limit: it is allowed, before the window's
expiry at 1 ns. -/
theorem renewed_block_count_wraps :
    (runCalls Unit (NewRateLimiter ⟨1, 1, 0⟩)
        (List.replicate 9223372036854775808 ⟨"192.168.1.1", "", 0⟩)
        NewMockStorage).1[1]?
      = some (Except.ok ⟨false, 0, 0, LimitType.IPLimit, 1⟩) ∧
    (runCalls Unit (NewRateLimiter ⟨1, 1, 0⟩)
        (List.replicate 9223372036854775808 ⟨"192.168.1.1", "", 0⟩)
        NewMockStorage).1[9223372036854775807]?
      = some (Except.ok ⟨true, 0, 1, LimitType.IPLimit, 1⟩) := by
  have hrep : List.replicate 9223372036854775808 (⟨"192.168.1.1", "", 0⟩ : Call)
      = (⟨"192.168.1.1", "", 0⟩ : Call) ::
          (List.replicate 9223372036854775806 (⟨"192.168.1.1", "", 0⟩ : Call)
            ++ [(⟨"192.168.1.1", "", 0⟩ : Call)]) := by
    rw [← List.replicate_succ', ← List.replicate_succ]
  have hr := runCalls_renew Unit (NewRateLimiter ⟨1, 1, 0⟩) ⟨"192.168.1.1", "", 0⟩
    9223372036854775806
    (CheckLimit (NewRateLimiter ⟨1, 1, 0⟩) (mockStorage Unit 0) 0 "192.168.1.1" ""
      NewMockStorage).2 1 1 (by decide) rfl rfl (by decide) (by decide) (by decide)
      (by decide) (by unfold maxInt64; norm_num)
  have hnum : (1 : Int) + ((9223372036854775806 : Nat) : Int) = maxInt64 := by
    unfold maxInt64; norm_num
  have hkey : subjectKey (NewRateLimiter ⟨1, 1, 0⟩) (Call.ip ⟨"192.168.1.1", "", 0⟩)
      (Call.token ⟨"192.168.1.1", "", 0⟩) = "ip:192.168.1.1" := by decide
  rw [hkey] at hr
  have hd := hr.2.1
  rw [hnum] at hd
  have hlast := checkLimitForKey_renew_wrap (ε := Unit) 0 "ip:192.168.1.1" ⟨1, 1, 0⟩
    LimitType.IPLimit
    (runCalls Unit (NewRateLimiter ⟨1, 1, 0⟩)
      (List.replicate 9223372036854775806 ⟨"192.168.1.1", "", 0⟩)
      (CheckLimit (NewRateLimiter ⟨1, 1, 0⟩) (mockStorage Unit 0) 0 "192.168.1.1" ""
        NewMockStorage).2).2 1 hd hr.2.2.1 (by decide) hr.2.2.2 (by decide) (by decide)
  have hcons : ∀ (c : Call) (cs : List Call) (s : MockStorage),
      runCalls Unit (NewRateLimiter ⟨1, 1, 0⟩) (c :: cs) s
        = ((CheckLimit (NewRateLimiter ⟨1, 1, 0⟩) (mockStorage Unit c.now) c.now c.ip c.token
              s).1 ::
            (runCalls Unit (NewRateLimiter ⟨1, 1, 0⟩) cs
              (CheckLimit (NewRateLimiter ⟨1, 1, 0⟩) (mockStorage Unit c.now) c.now c.ip
                c.token s).2).1,
          (runCalls Unit (NewRateLimiter ⟨1, 1, 0⟩) cs
              (CheckLimit (NewRateLimiter ⟨1, 1, 0⟩) (mockStorage Unit c.now) c.now c.ip
                c.token s).2).2) := fun _ _ _ => rfl
  have hnil : ∀ s : MockStorage,
      runCalls Unit (NewRateLimiter ⟨1, 1, 0⟩) [] s = ([], s) := fun _ => rfl
  rw [hrep, hcons, runCalls_append, hcons, hnil, hr.1]
  dsimp only
  constructor
  · rw [List.getElem?_cons_succ, List.getElem?_append_left (by
      rw [List.length_replicate]; decide)]
    rw [List.getElem?_replicate]
    rfl
  · rw [show (9223372036854775807 : Nat) = 9223372036854775806 + 1 from rfl,
      List.getElem?_cons_succ, List.getElem?_append_right (by rw [List.length_replicate])]
    rw [List.length_replicate, Nat.sub_self]
    rw [List.getElem?_cons_zero, CheckLimit_eq]
    exact congrArg some hlast

end ratelimiter

/-! ## C23: counts and expiries go together -/

namespace ratelimiter

/-- Deleting a key from both maps keeps the records paired. -/
theorem paired_deleteKey (m : MockStorage) (key : String) (h : paired m) :
    paired (m.deleteKey key) := by
  intro x
  by_cases hx : x = key
  · simp [MockStorage.deleteKey, GoMap.delete, hx]
  · simp [MockStorage.deleteKey, GoMap.delete, hx, h x]

/-- The method `Get` keeps the records paired. -/
theorem paired_Get (m : MockStorage) (now : Time) (key : String) (h : paired m) :
    paired (m.Get now key).2 := by
  unfold MockStorage.Get
  cases ht : m.ttl key with
  | none => cases hd : m.data key <;> exact h
  | some e =>
    by_cases hb : (!(Time.Before now e)) = true
    · simp only [hb, if_true]; exact paired_deleteKey m key h
    · simp only [hb]
      cases hd : m.data key <;> exact h

/-- The method `TTL` keeps the records paired. -/
theorem paired_TTL (m : MockStorage) (now : Time) (key : String) (h : paired m) :
    paired (m.TTL now key).2 := by
  unfold MockStorage.TTL
  cases ht : m.ttl key with
  | none => exact h
  | some e =>
    simp only []
    split_ifs
    · exact paired_deleteKey m key h
    · exact h

/-- The method `Set` keeps the records paired. -/
theorem paired_Set (m : MockStorage) (now : Time) (key : String) (v : Int) (d : Duration)
    (h : paired m) : paired (m.Set now key v d) := by
  intro x
  by_cases hx : x = key
  · simp [MockStorage.Set, GoMap.insert, hx]
  · simp [MockStorage.Set, GoMap.insert, hx, h x]

/-- The method `Increment` keeps the records paired. -/
theorem paired_Increment (m : MockStorage) (now : Time) (key : String) (d : Duration)
    (h : paired m) : paired (m.Increment now key d).2 := by
  intro x
  have hs := Increment_snd m now key d
  by_cases hx : x = key
  · rw [hx, hs.1]
    rcases hs.2 with ⟨e, _, _, he⟩ | ⟨_, he⟩ <;> simp [he]
  · rw [(Increment_frame m now key x d hx).1, (Increment_frame m now key x d hx).2]
    exact h x

/-- In a store whose records are paired, a `Get` that returns a non-zero value has read
an unexpired record and has deleted nothing. -/
theorem Get_nonzero_live (m : MockStorage) (now : Time) (key : String) (h : paired m)
    (hv : (m.Get now key).1 ≠ 0) :
    ∃ e, m.ttl key = some e ∧ now < e ∧ (m.Get now key).2 = m := by
  unfold MockStorage.Get at hv ⊢
  cases ht : m.ttl key with
  | none =>
    have hd := (h key).mpr ht
    rw [ht, hd] at hv
    exact absurd rfl hv
  | some e =>
    rw [ht] at hv
    by_cases hb : (!(Time.Before now e)) = true
    · simp only [hb, if_true] at hv
      exact absurd rfl hv
    · refine ⟨e, rfl, ?_, ?_⟩
      · simpa [Time.Before] using hb
      · simp only [hb]
        cases hd : m.data key <;> rfl

/-- A call of `checkLimitForKey` keeps the records paired. -/
theorem checkLimitForKey_paired {ε : Type} (now : Time) (k : String) (config : Config)
    (limitType : LimitType) (s : MockStorage) (h : paired s) :
    paired (checkLimitForKey (mockStorage ε now) now k config limitType s).2 := by
  rw [checkLimitForKey_mock]
  by_cases h1 : (s.Get now ("blocked:" ++ k)).1 > 0
  · rw [if_pos h1]
    exact paired_TTL _ _ _ (paired_Get _ _ _ h)
  · rw [if_neg h1]
    by_cases h2 : ((s.Get now ("blocked:" ++ k)).2.Increment now k config.Window).1
        > config.Limit
    · rw [if_pos h2]
      exact paired_Set _ _ _ _ _ (paired_Increment _ _ _ _ (paired_Get _ _ _ h))
    · rw [if_neg h2]
      exact paired_TTL _ _ _ (paired_Increment _ _ _ _ (paired_Get _ _ _ h))

/-- From a store whose records are paired, under a positive window and a positive block
time, every decision has its reset time strictly after the reading of the call. -/
theorem checkLimitForKey_reset_later {ε : Type} (now : Time) (k : String) (config : Config)
    (limitType : LimitType) (s : MockStorage) (h : paired s)
    (hW : 0 < config.Window) (hB : 0 < config.BlockTime) (d : CheckResult)
    (hd : (checkLimitForKey (mockStorage ε now) now k config limitType s).1 = Except.ok d) :
    now < d.ResetTime := by
  have hadd : ∀ x : Duration, 0 < x → now < Time.Add now x := by
    intro x hx; unfold Time.Add; unfold Time Duration at *; omega
  have huntil : ∀ e : Time, now < e → 0 < timeUntil now e := by
    intro e he
    unfold timeUntil
    exact satInt64_pos (by unfold Time at *; omega)
  rw [checkLimitForKey_mock] at hd
  by_cases h1 : (s.Get now ("blocked:" ++ k)).1 > 0
  · rw [if_pos h1] at hd
    obtain ⟨e, he, hlt, hg⟩ := Get_nonzero_live s now ("blocked:" ++ k) h (by omega)
    rw [hg, TTL_live s now _ e he hlt] at hd
    rw [← Except.ok.inj hd]
    exact hadd _ (huntil e hlt)
  · rw [if_neg h1] at hd
    by_cases h2 : ((s.Get now ("blocked:" ++ k)).2.Increment now k config.Window).1
        > config.Limit
    · rw [if_pos h2] at hd
      rw [← Except.ok.inj hd]
      exact hadd _ hB
    · rw [if_neg h2] at hd
      have hex : ∃ e, ((s.Get now ("blocked:" ++ k)).2.Increment now k config.Window).2.ttl k
          = some e ∧ now < e := by
        rcases (Increment_snd (s.Get now ("blocked:" ++ k)).2 now k config.Window).2 with
          ⟨e, _, hlt, he⟩ | ⟨_, he⟩
        · exact ⟨e, he, hlt⟩
        · exact ⟨_, he, hadd _ hW⟩
      obtain ⟨e, he, hlt⟩ := hex
      rw [TTL_live _ now k e he hlt] at hd
      rw [← Except.ok.inj hd]
      exact hadd _ (huntil e hlt)

/-- The policy a call is decided under is one of the limiter's policies. -/
theorem positivePolicies_subject (rl : RateLimiter) (h : positivePolicies rl)
    (token : String) :
    0 < (subjectConfig rl token).Window ∧ 0 < (subjectConfig rl token).BlockTime := by
  rcases subject_cases rl "" token with ⟨_, hc, _, _⟩ | ⟨_, hc, _, _⟩
  · rw [hc]; exact h.1
  · exact h.2 token _ hc

/-- A run of calls keeps the records paired, and each of its decisions has its reset time
strictly after the reading of its call. -/
theorem runCalls_paired (ε : Type) (rl : RateLimiter) (hpol : positivePolicies rl)
    (cs : List Call) (s : MockStorage) (h : paired s) :
    paired (runCalls ε rl cs s).2 ∧
      ∀ p ∈ List.zip cs (runCalls ε rl cs s).1, ∀ d, p.2 = Except.ok d →
        p.1.now < d.ResetTime := by
  induction cs generalizing s with
  | nil => exact ⟨h, by intro p hp; simp [runCalls] at hp⟩
  | cons c cs ih =>
    simp only [runCalls]
    have hp1 : paired (CheckLimit rl (mockStorage ε c.now) c.now c.ip c.token s).2 := by
      rw [CheckLimit_eq]; exact checkLimitForKey_paired _ _ _ _ _ h
    have ih' := ih _ hp1
    refine ⟨ih'.1, ?_⟩
    intro p hp
    rw [List.zip_cons_cons] at hp
    rcases List.mem_cons.mp hp with hq | hq
    · rw [hq]
      intro d hd
      rw [CheckLimit_eq] at hd
      exact checkLimitForKey_reset_later c.now _ _ _ s h
        (positivePolicies_subject rl hpol c.token).1
        (positivePolicies_subject rl hpol c.token).2 d hd
    · exact ih'.2 p hq

/-- Claim C23: in every state of the in-process store reached from the empty store by a
run of `CheckLimit` calls, at any clock readings, under a limiter all of whose policies
have a positive window and a positive block time: every key holds a count exactly when it
holds an expiry; a `Get` that returns a non-zero value is followed, at the same reading,
by a `TTL` that returns a positive duration; every decision `CheckLimit` returns from such
a state, allowed, denied at the limit or denied as blocked, has its reset time strictly
later than the reading of the call; and so has every decision returned during the run. -/
theorem reachable_records_are_paired (ε : Type) (rl : RateLimiter) (cs : List Call)
    (hpol : positivePolicies rl) :
    paired (runCalls ε rl cs NewMockStorage).2 ∧
      (∀ (key : String) (now : Time),
        ((runCalls ε rl cs NewMockStorage).2.Get now key).1 ≠ 0 →
          0 < (((runCalls ε rl cs NewMockStorage).2.Get now key).2.TTL now key).1) ∧
      (∀ (now : Time) (ip token : String) (d : CheckResult),
        (CheckLimit rl (mockStorage ε now) now ip token
            (runCalls ε rl cs NewMockStorage).2).1 = Except.ok d →
          now < d.ResetTime) ∧
      (∀ p ∈ List.zip cs (runCalls ε rl cs NewMockStorage).1, ∀ d, p.2 = Except.ok d →
        p.1.now < d.ResetTime) := by
  have h0 : paired NewMockStorage := by
    intro key; simp [NewMockStorage, GoMap.empty]
  have hrun := runCalls_paired ε rl hpol cs NewMockStorage h0
  refine ⟨hrun.1, ?_, ?_, hrun.2⟩
  · intro key now hv
    obtain ⟨e, he, hlt, hg⟩ := Get_nonzero_live _ now key hrun.1 hv
    rw [hg, TTL_live _ now key e he hlt]
    unfold timeUntil
    exact satInt64_pos (by unfold Time at *; omega)
  · intro now ip token d hd
    rw [CheckLimit_eq] at hd
    exact checkLimitForKey_reset_later now _ _ _ _ hrun.1
      (positivePolicies_subject rl hpol token).1
      (positivePolicies_subject rl hpol token).2 d hd

/-- After the three allowed calls of `192.168.1.1` the fourth, at 3 ns, is denied with
the reset time 60000000003 ns, which is later than 3 ns. -/
theorem reachable_records_are_paired_witness :
    (CheckLimit testLimiter (mockStorage Unit 3) 3 "192.168.1.1" "" storeAtLimit).1
        = Except.ok ⟨false, 0, 60000000003, LimitType.IPLimit, 3⟩ ∧
      (3 : Time) < (⟨false, 0, 60000000003, LimitType.IPLimit, 3⟩ : CheckResult).ResetTime ∧
      storeAtLimit.data "ip:192.168.1.1" = some 3 ∧
      storeAtLimit.ttl "ip:192.168.1.1" = some 1000000000 :=
  ⟨rfl,
    (reachable_records_are_paired Unit testLimiter
      [⟨"192.168.1.1", "", 0⟩, ⟨"192.168.1.1", "", 1⟩, ⟨"192.168.1.1", "", 2⟩]
      ⟨⟨by decide, by decide⟩,
        fun token config h => absurd h (by simp [testLimiter, NewRateLimiter, GoMap.empty])⟩).2.2.1
      3 "192.168.1.1" "" ⟨false, 0, 60000000003, LimitType.IPLimit, 3⟩ rfl,
    rfl, rfl⟩

end ratelimiter

/-! ## C24: the parts of a `TOKEN_..._LIMIT` variable -/

namespace config

/-- Reading back the encoding of a Unicode scalar value gives the value and the length of
its encoding. -/
theorem decodeRune_runeBytes (n : Nat) (hv : n < 55296 ∨ (57343 < n ∧ n < 1114112))
    (rest : GoString) :
    decodeRune (runeBytes n ++ rest) = (n, (runeBytes n).length) := by
  unfold runeBytes
  split_ifs with h1 h2 h3 h4
  · simp [decodeRune, h1]
  · have a1 : ¬ 192 + n / 64 < 128 := by omega
    have a2 : ¬ 192 + n / 64 < 194 := by omega
    have a3 : 192 + n / 64 < 224 := by omega
    have a4 : 128 + n % 64 ≤ 191 := by omega
    simp only [List.cons_append, List.nil_append, decodeRune, a1, a2, a3, a4, if_true,
      if_false, List.length_cons, List.length_nil, Nat.le_add_right, and_self, Prod.mk.injEq,
      and_true]
    omega
  · omega
  · have a1 : ¬ 224 + n / 4096 < 128 := by omega
    have a2 : ¬ 224 + n / 4096 < 194 := by omega
    have a3 : ¬ 224 + n / 4096 < 224 := by omega
    have a4 : 224 + n / 4096 < 240 := by omega
    have a5 : (if 224 + n / 4096 = 224 then 160 else 128) ≤ 128 + n / 64 % 64 := by
      split_ifs <;> omega
    have a6 : 128 + n / 64 % 64 ≤ (if 224 + n / 4096 = 237 then 159 else 191) := by
      split_ifs <;> omega
    have a7 : 128 + n % 64 ≤ 191 := by omega
    simp only [List.cons_append, List.nil_append, decodeRune, a1, a2, a3, a4, a5, a6, a7,
      if_true, if_false, List.length_cons, List.length_nil, Nat.le_add_right, and_self,
      Prod.mk.injEq, and_true]
    omega
  · have a1 : ¬ 240 + n / 262144 < 128 := by omega
    have a2 : ¬ 240 + n / 262144 < 194 := by omega
    have a3 : ¬ 240 + n / 262144 < 224 := by omega
    have a4 : ¬ 240 + n / 262144 < 240 := by omega
    have a4' : 240 + n / 262144 < 245 := by omega
    have a5 : (if 240 + n / 262144 = 240 then 144 else 128) ≤ 128 + n / 4096 % 64 := by
      split_ifs <;> omega
    have a6 : 128 + n / 4096 % 64 ≤ (if 240 + n / 262144 = 244 then 143 else 191) := by
      split_ifs <;> omega
    have a7 : 128 + n / 64 % 64 ≤ 191 := by omega
    have a8 : 128 + n % 64 ≤ 191 := by omega
    simp only [List.cons_append, List.nil_append, decodeRune, a1, a2, a3, a4, a4', a5, a6,
      a7, a8, if_true, if_false, List.length_cons, List.length_nil, Nat.le_add_right,
      and_self, Prod.mk.injEq, and_true]
    omega

/-- The encoding of a rune is never empty. -/
theorem runeBytes_ne_nil (n : Nat) : runeBytes n ≠ [] := by
  unfold runeBytes
  split_ifs <;> simp

/-- Every character is a Unicode scalar value. -/
theorem char_scalar (c : Char) : c.toNat < 55296 ∨ (57343 < c.toNat ∧ c.toNat < 1114112) := by
  have h := c.valid
  unfold UInt32.isValidChar Nat.isValidChar at h
  exact h

/-- The bytes of a concatenation are the bytes of its parts. -/
theorem utf8_append (a b : String) : utf8 (a ++ b) = utf8 a ++ utf8 b := by
  simp [utf8, String.data_append]

/-- Passing over the bytes still owed to the rune read last. -/
theorem rangeFrom_skip (bs rest : GoString) (i : Nat) :
    rangeFrom bs.length i (bs ++ rest) = rangeFrom 0 (i + bs.length) rest := by
  induction bs generalizing i with
  | nil => rfl
  | cons b bs ih =>
    have h : rangeFrom (b :: bs).length i (b :: bs ++ rest)
        = rangeFrom bs.length (i + 1) (bs ++ rest) := rfl
    rw [h, ih (i + 1), List.length_cons, Nat.add_assoc, Nat.add_comm 1]

/-- A `range` loop over the bytes of a text reads its characters, one iteration each. -/
theorem rangeFrom_utf8 (cs : List Char) (rest : GoString) (i : Nat) :
    ∃ L : List (Nat × Nat),
      rangeFrom 0 i (cs.flatMap (fun c => runeBytes c.toNat) ++ rest)
          = L ++ rangeFrom 0 (i + (cs.flatMap (fun c => runeBytes c.toNat)).length) rest ∧
        L.map Prod.snd = cs.map Char.toNat := by
  induction cs generalizing i with
  | nil => exact ⟨[], by simp, rfl⟩
  | cons c cs ih =>
    have hd := decodeRune_runeBytes c.toNat (char_scalar c)
      (cs.flatMap (fun c => runeBytes c.toNat) ++ rest)
    cases hb : runeBytes c.toNat with
    | nil => exact absurd hb (runeBytes_ne_nil _)
    | cons b tl =>
      rw [hb] at hd
      obtain ⟨L, hL, hmap⟩ := ih (i + 1 + tl.length)
      refine ⟨(i, c.toNat) :: L, ?_, ?_⟩
      · simp only [List.flatMap_cons, hb, List.cons_append, List.append_assoc] at hd ⊢
        rw [rangeFrom, hd]
        simp only [List.length_cons, Nat.add_sub_cancel, List.cons.injEq, true_and]
        rw [rangeFrom_skip, hL]
        simp only [List.length_append, List.length_cons]
        congr 2
        omega
      · simp [hmap]

/-- A character is determined by its code point. -/
theorem char_of_toNat (c : Char) (n : Nat) (h : c.toNat = n) : c = Char.ofNat n := by
  rw [← h, Char.ofNat_toNat]

/-- The result of `parseTokenEnvVar` on an entry whose name is a text without `=`: the
first loop stops at the `=` that follows the name, and the second loop runs over the
characters of the name. -/
theorem parseTokenEnvVar_name (name : String) (v : GoString) (h : '=' ∉ name.data) :
    parseTokenEnvVar (utf8 name ++ 61 :: v)
      = if ((name.data.map Char.toNat).foldl parseStep ⟨[], [], 0⟩).current ≠ [] then
          ((name.data.map Char.toNat).foldl parseStep ⟨[], [], 0⟩).parts
            ++ [((name.data.map Char.toNat).foldl parseStep ⟨[], [], 0⟩).current]
        else ((name.data.map Char.toNat).foldl parseStep ⟨[], [], 0⟩).parts := by
  obtain ⟨L, hL, hmap⟩ := rangeFrom_utf8 name.data (61 :: v) 0
  obtain ⟨L', hL', hmap'⟩ := rangeFrom_utf8 name.data [] 0
  have hnone : List.find? (fun p : Nat × Nat => p.2 == 61) L = none := by
    rw [List.find?_eq_none]
    intro x hx hp
    have hx2 : x.2 ∈ L.map Prod.snd := List.mem_map_of_mem _ hx
    rw [hmap] at hx2
    obtain ⟨c, hc, hcx⟩ := List.mem_map.mp hx2
    have h61 : c.toNat = 61 := by rw [hcx]; simpa using hp
    have : c = '=' := char_of_toNat c 61 h61
    rw [this] at hc
    exact h hc
  have hidx : equalIndex (utf8 name ++ 61 :: v) = ((utf8 name).length : Int) := by
    unfold equalIndex rangeString utf8
    rw [hL, List.find?_append, hnone]
    simp [rangeFrom, decodeRune]
  have hrange : rangeString (utf8 name) = L' := by
    unfold rangeString utf8
    have := hL'
    simp only [List.append_nil] at this
    rw [this]
    simp [rangeFrom]
  unfold parseTokenEnvVar
  rw [hidx]
  have hneg : ¬ (((utf8 name).length : Int) = -1) := by omega
  rw [if_neg hneg]
  simp only [Int.toNat_ofNat, List.take_left, hrange]
  rw [← hmap', List.foldl_map]

/-- Over characters other than `_` the second loop only appends to `current`. -/
theorem foldl_parseStep_plain (cs : List Char) (h : '_' ∉ cs) (st : ParseState) :
    (cs.map Char.toNat).foldl parseStep st
      = ⟨st.parts, st.current ++ cs.flatMap (fun c => runeBytes c.toNat),
          st.underscoreCount⟩ := by
  induction cs generalizing st with
  | nil => simp
  | cons c cs ih =>
    have hc : c.toNat ≠ 95 := by
      intro h95
      have : c = '_' := char_of_toNat c 95 h95
      rw [this] at h
      exact h (List.mem_cons_self _ _)
    have hcs : '_' ∉ cs := fun hm => h (List.mem_cons_of_mem _ hm)
    simp only [List.map_cons, List.foldl_cons]
    rw [ih hcs]
    simp [parseStep, hc]

/-- The bytes of a non-empty text are not empty. -/
theorem utf8_ne_nil (t : String) (ht : t ≠ "") : utf8 t ≠ [] := by
  unfold utf8
  cases hd : t.data with
  | nil =>
    exact absurd (String.ext hd) ht
  | cons c cs =>
    simp only [List.flatMap_cons]
    intro h
    exact runeBytes_ne_nil c.toNat (List.append_eq_nil.mp h).1

/-- The parts of an entry `TOKEN_<t>_LIMIT=<v>` whose `t` is a non-empty text without `_`
and `=`. -/
theorem parseTokenEnvVar_parts (t : String) (v : GoString) (ht : t ≠ "")
    (hu : '_' ∉ t.data) (he : '=' ∉ t.data) :
    parseTokenEnvVar (utf8 "TOKEN_" ++ utf8 t ++ utf8 "_LIMIT=" ++ v)
      = [utf8 "TOKEN", utf8 t, utf8 "LIMIT"] := by
  have hsplit : utf8 "_LIMIT=" = utf8 "_LIMIT" ++ [61] := by decide
  have henv : utf8 "TOKEN_" ++ utf8 t ++ utf8 "_LIMIT=" ++ v
      = utf8 ("TOKEN_" ++ t ++ "_LIMIT") ++ 61 :: v := by
    rw [hsplit, utf8_append, utf8_append]
    simp
  have hdata : ("TOKEN_" ++ t ++ "_LIMIT").data
      = "TOKEN_".data ++ t.data ++ "_LIMIT".data := by
    simp [String.data_append]
  have hname : '=' ∉ ("TOKEN_" ++ t ++ "_LIMIT").data := by
    rw [hdata]
    intro hm
    rcases List.mem_append.mp hm with h1 | h1
    · rcases List.mem_append.mp h1 with h2 | h2
      · exact absurd h2 (by decide)
      · exact he h2
    · exact absurd h1 (by decide)
  have hne := utf8_ne_nil t ht
  have h1 : ("TOKEN_".data.map Char.toNat).foldl parseStep ⟨[], [], 0⟩
      = ⟨[utf8 "TOKEN"], [], 1⟩ := by decide
  have h3 : "_LIMIT".data.map Char.toNat = [95, 76, 73, 77, 73, 84] := by decide
  have h4 : utf8 "LIMIT" = [76, 73, 77, 73, 84] := by decide
  have hfold : ((("TOKEN_" ++ t ++ "_LIMIT").data.map Char.toNat).foldl parseStep
      ⟨[], [], 0⟩) = ⟨[utf8 "TOKEN", utf8 t], utf8 "LIMIT", 2⟩ := by
    have hp : ∀ st : ParseState, (t.data.map Char.toNat).foldl parseStep st
        = ⟨st.parts, st.current ++ utf8 t, st.underscoreCount⟩ :=
      foldl_parseStep_plain t.data hu
    have h0 : utf8 "TOKEN" = [84, 79, 75, 69, 78] := by decide
    rw [hdata, List.map_append, List.map_append, List.foldl_append, List.foldl_append, h1,
      hp, h3, h4, h0]
    generalize utf8 t = u at hne
    simp [parseStep, runeBytes, hne]
  rw [henv, parseTokenEnvVar_name _ v hname, hfold]
  simp [h4]

/-- One iteration of the loop of `loadTokenConfigs` either leaves the configuration as it
is or registers the policy of the second part of an entry whose name starts with `TOKEN_`
and whose third part is `LIMIT`. -/
theorem loadTokenConfig_cases (E : Environment) (c : Config) (env : GoString) :
    loadTokenConfig E c env = c ∨
      ∃ token : GoString, token ≠ [] ∧ (env.length > 6 ∧ env.take 6 = utf8 "TOKEN_") ∧
        (parseTokenEnvVar env)[2]? = some (utf8 "LIMIT") ∧
        (parseTokenEnvVar env)[1]? = some token ∧
        loadTokenConfig E c env
          = { c with
              TokenConfigs := fun k =>
                if k = token then some (tokenPolicy E c token) else c.TokenConfigs k } := by
  unfold loadTokenConfig
  by_cases h1 : env.length > 6 ∧ env.take 6 = utf8 "TOKEN_"
  · rw [if_pos h1]
    dsimp only
    by_cases h2 : (parseTokenEnvVar env).length ≥ 3 ∧
        (parseTokenEnvVar env)[2]? = some (utf8 "LIMIT")
    · rw [if_pos h2]
      by_cases h3 : (parseTokenEnvVar env).getD 1 [] ≠ []
      · rw [if_pos h3]
        refine Or.inr ⟨(parseTokenEnvVar env).getD 1 [], h3, h1, h2.2, ?_, rfl⟩
        have hlt : 1 < (parseTokenEnvVar env).length := by omega
        rw [List.getD_eq_getElem?_getD, List.getElem?_eq_getElem hlt]
        rfl
      · left
        rw [if_neg h3]
    · left
      rw [if_neg h2]
  · left
    rw [if_neg h1]

/-- One iteration of the loop leaves the policy built for a token unchanged: it reads
only the three default values, which the loop never assigns. -/
theorem tokenPolicy_loadTokenConfig (E : Environment) (c : Config) (env k : GoString) :
    tokenPolicy E (loadTokenConfig E c env) k = tokenPolicy E c k := by
  rcases loadTokenConfig_cases E c env with h | ⟨token, _, _, _, _, h⟩ <;> rw [h]
  rfl

/-- The loop leaves the policy built for a token unchanged. -/
theorem tokenPolicy_foldl (E : Environment) (envs : List GoString) (c : Config)
    (k : GoString) :
    tokenPolicy E (envs.foldl (loadTokenConfig E) c) k = tokenPolicy E c k := by
  induction envs generalizing c with
  | nil => rfl
  | cons e es ih =>
    rw [List.foldl_cons, ih, tokenPolicy_loadTokenConfig]

/-- A token registered with its policy stays registered with it through the loop. -/
theorem foldl_keeps_policy (E : Environment) (envs : List GoString) (c : Config)
    (k : GoString) (h : c.TokenConfigs k = some (tokenPolicy E c k)) :
    (envs.foldl (loadTokenConfig E) c).TokenConfigs k = some (tokenPolicy E c k) := by
  induction envs generalizing c with
  | nil => exact h
  | cons e es ih =>
    rw [List.foldl_cons]
    have hstep : (loadTokenConfig E c e).TokenConfigs k = some (tokenPolicy E c k) := by
      rcases loadTokenConfig_cases E c e with h1 | ⟨token, _, _, _, _, h1⟩ <;> rw [h1]
      · exact h
      · by_cases hk : k = token
        · simp [hk]
        · simp [hk, h]
    have := ih (loadTokenConfig E c e) (by rw [tokenPolicy_loadTokenConfig]; exact hstep)
    rw [this, tokenPolicy_loadTokenConfig]

/-- An entry that registers a token whatever the configuration holds leaves the token
registered, with its policy, at the end of the loop. -/
theorem foldl_registers (E : Environment) (envs : List GoString) (c : Config)
    (env k : GoString) (hmem : env ∈ envs)
    (hreg : ∀ c' : Config, (loadTokenConfig E c' env).TokenConfigs k
      = some (tokenPolicy E c' k)) :
    (envs.foldl (loadTokenConfig E) c).TokenConfigs k = some (tokenPolicy E c k) := by
  induction envs generalizing c with
  | nil => exact absurd hmem (List.not_mem_nil _)
  | cons e es ih =>
    rw [List.foldl_cons]
    rcases List.mem_cons.mp hmem with h | h
    · have := foldl_keeps_policy E es (loadTokenConfig E c e) k
        (by rw [tokenPolicy_loadTokenConfig, ← h]; exact hreg c)
      rw [this, tokenPolicy_loadTokenConfig]
    · rw [ih (loadTokenConfig E c e) h, tokenPolicy_loadTokenConfig]

/-- A token whose entry in the map the loop has changed was registered by an entry of the
environment whose name starts with `TOKEN_`, whose third part is `LIMIT` and whose second
part is the token. -/
theorem foldl_only_registers (E : Environment) (envs : List GoString) (c : Config)
    (k : GoString)
    (h : (envs.foldl (loadTokenConfig E) c).TokenConfigs k ≠ c.TokenConfigs k) :
    ∃ env ∈ envs, (env.length > 6 ∧ env.take 6 = utf8 "TOKEN_") ∧
      (parseTokenEnvVar env)[2]? = some (utf8 "LIMIT") ∧
      (parseTokenEnvVar env)[1]? = some k ∧ k ≠ [] := by
  induction envs generalizing c with
  | nil => exact absurd rfl h
  | cons e es ih =>
    rw [List.foldl_cons] at h
    by_cases h' : (es.foldl (loadTokenConfig E) (loadTokenConfig E c e)).TokenConfigs k
        = (loadTokenConfig E c e).TokenConfigs k
    · rw [h'] at h
      rcases loadTokenConfig_cases E c e with h1 | ⟨token, hne, hpre, hlim, htok, h1⟩
      · rw [h1] at h; exact absurd rfl h
      · rw [h1] at h
        by_cases hk : k = token
        · exact ⟨e, List.mem_cons_self _ _, hpre, hlim, by rw [hk]; exact htok,
            by rw [hk]; exact hne⟩
        · simp [hk] at h
    · obtain ⟨env, hmem, hrest⟩ := ih _ h'
      exact ⟨env, List.mem_cons_of_mem _ hmem, hrest⟩

/-- An entry `TOKEN_<t>_LIMIT=<v>` registers the policy of `t`. -/
theorem loadTokenConfig_registers (E : Environment) (c : Config) (t : String)
    (v : GoString) (ht : t ≠ "") (hu : '_' ∉ t.data) (he : '=' ∉ t.data) :
    (loadTokenConfig E c (utf8 "TOKEN_" ++ utf8 t ++ utf8 "_LIMIT=" ++ v)).TokenConfigs
        (utf8 t) = some (tokenPolicy E c (utf8 t)) := by
  have hparts := parseTokenEnvVar_parts t v ht hu he
  have hne := utf8_ne_nil t ht
  have h6 : utf8 "TOKEN_" = [84, 79, 75, 69, 78, 95] := by decide
  have h1 : (utf8 "TOKEN_" ++ utf8 t ++ utf8 "_LIMIT=" ++ v).length > 6 ∧
      (utf8 "TOKEN_" ++ utf8 t ++ utf8 "_LIMIT=" ++ v).take 6 = utf8 "TOKEN_" := by
    constructor
    · have h7 : (utf8 "_LIMIT=").length = 7 := by decide
      simp only [List.length_append, h7, h6, List.length_cons, List.length_nil]
      omega
    · rw [List.append_assoc, List.append_assoc, List.take_left' (by rw [h6]; rfl)]
  unfold loadTokenConfig
  rw [if_pos h1]
  dsimp only
  rw [hparts]
  have h2 : [utf8 "TOKEN", utf8 t, utf8 "LIMIT"].length ≥ 3 ∧
      [utf8 "TOKEN", utf8 t, utf8 "LIMIT"][2]? = some (utf8 "LIMIT") := ⟨by simp, rfl⟩
  rw [if_pos h2]
  have h3 : [utf8 "TOKEN", utf8 t, utf8 "LIMIT"].getD 1 [] = utf8 t := rfl
  rw [h3, if_pos hne]
  simp

/-- Claim C24, amended to names that are UTF-8 text: for every text `t` that is
non-empty and contains neither `_` nor `=`, and every value `v` (any bytes),
`parseTokenEnvVar` returns exactly the three parts `TOKEN`, `t`, `LIMIT` on the entry
`TOKEN_<t>_LIMIT=<v>`; when that entry is in the environment, `loadTokenConfigs` leaves
the policy of `t` registered under the token `t`; every token whose entry in the map
`loadTokenConfigs` has changed is the non-empty second part of an entry of the
environment whose name starts with `TOKEN_` and whose third part is exactly `LIMIT`; the
entry `TOKEN_RATE_LIMIT=<v>` is of that form and registers a policy for the token `RATE`;
and the entry `TOKEN_a_b_LIMIT=<v>` has the third part `b_LIMIT` and registers
nothing. -/
theorem token_limit_entry_registers (E : Environment) (c : Config) (t : String)
    (v : GoString) (ht : t ≠ "") (hu : '_' ∉ t.data) (he : '=' ∉ t.data) :
    parseTokenEnvVar (utf8 "TOKEN_" ++ utf8 t ++ utf8 "_LIMIT=" ++ v)
        = [utf8 "TOKEN", utf8 t, utf8 "LIMIT"] ∧
      (utf8 "TOKEN_" ++ utf8 t ++ utf8 "_LIMIT=" ++ v ∈ E.Environ →
        (loadTokenConfigs E c).TokenConfigs (utf8 t) = some (tokenPolicy E c (utf8 t))) ∧
      (∀ k : GoString, (loadTokenConfigs E c).TokenConfigs k ≠ c.TokenConfigs k →
        ∃ env ∈ E.Environ, (env.length > 6 ∧ env.take 6 = utf8 "TOKEN_") ∧
          (parseTokenEnvVar env)[2]? = some (utf8 "LIMIT") ∧
          (parseTokenEnvVar env)[1]? = some k ∧ k ≠ []) ∧
      parseTokenEnvVar (utf8 "TOKEN_RATE_LIMIT=" ++ v)
        = [utf8 "TOKEN", utf8 "RATE", utf8 "LIMIT"] ∧
      (utf8 "TOKEN_RATE_LIMIT=" ++ v ∈ E.Environ →
        (loadTokenConfigs E c).TokenConfigs (utf8 "RATE")
          = some (tokenPolicy E c (utf8 "RATE"))) ∧
      parseTokenEnvVar (utf8 "TOKEN_a_b_LIMIT=" ++ v)
        = [utf8 "TOKEN", utf8 "a", utf8 "b_LIMIT"] ∧
      loadTokenConfig E c (utf8 "TOKEN_a_b_LIMIT=" ++ v) = c := by
  have hrate : utf8 "TOKEN_RATE_LIMIT=" ++ v
      = utf8 "TOKEN_" ++ utf8 "RATE" ++ utf8 "_LIMIT=" ++ v := by
    have : utf8 "TOKEN_RATE_LIMIT=" = utf8 "TOKEN_" ++ utf8 "RATE" ++ utf8 "_LIMIT=" := by
      decide
    rw [this]
  have hab : utf8 "TOKEN_a_b_LIMIT=" ++ v = utf8 "TOKEN_a_b_LIMIT" ++ 61 :: v := by
    have : utf8 "TOKEN_a_b_LIMIT=" = utf8 "TOKEN_a_b_LIMIT" ++ [61] := by decide
    rw [this]; simp
  have hpab : parseTokenEnvVar (utf8 "TOKEN_a_b_LIMIT=" ++ v)
      = [utf8 "TOKEN", utf8 "a", utf8 "b_LIMIT"] := by
    rw [hab, parseTokenEnvVar_name "TOKEN_a_b_LIMIT" v (by decide)]
    decide
  refine ⟨parseTokenEnvVar_parts t v ht hu he, ?_, ?_, ?_, ?_, hpab, ?_⟩
  · intro hmem
    exact foldl_registers E E.Environ c _ (utf8 t) hmem
      (fun c' => loadTokenConfig_registers E c' t v ht hu he)
  · intro k hk
    exact foldl_only_registers E E.Environ c k hk
  · rw [hrate]
    exact parseTokenEnvVar_parts "RATE" v (by decide) (by decide) (by decide)
  · intro hmem
    rw [hrate] at hmem
    exact foldl_registers E E.Environ c _ (utf8 "RATE") hmem
      (fun c' => loadTokenConfig_registers E c' "RATE" v (by decide) (by decide) (by decide))
  · rcases loadTokenConfig_cases E c (utf8 "TOKEN_a_b_LIMIT=" ++ v) with
      h | ⟨token, _, _, hlim, _, _⟩
    · exact h
    · rw [hpab] at hlim
      exact absurd hlim (by decide)

/-- The entry `TOKEN_abc123_LIMIT=100` has the parts `TOKEN`, `abc123` and `LIMIT`, and
in an environment that holds it `loadTokenConfigs` registers under the token `abc123` the
policy with the limit 100 it reads and the default window and block time. -/
theorem token_limit_entry_registers_witness :
    parseTokenEnvVar (utf8 "TOKEN_" ++ utf8 "abc123" ++ utf8 "_LIMIT=" ++ utf8 "100")
        = [utf8 "TOKEN", utf8 "abc123", utf8 "LIMIT"] ∧
      (loadTokenConfigs tokenEnvironment defaultConfig).TokenConfigs (utf8 "abc123")
        = some (tokenPolicy tokenEnvironment defaultConfig (utf8 "abc123")) ∧
      tokenPolicy tokenEnvironment defaultConfig (utf8 "abc123")
        = ⟨100, 1000000000, 300000000000⟩ ∧
      utf8 "TOKEN_" ++ utf8 "abc123" ++ utf8 "_LIMIT=" ++ utf8 "100"
        = utf8 "TOKEN_abc123_LIMIT=100" :=
  ⟨(token_limit_entry_registers tokenEnvironment defaultConfig "abc123" (utf8 "100")
      (by decide) (by decide) (by decide)).1,
    (token_limit_entry_registers tokenEnvironment defaultConfig "abc123" (utf8 "100")
      (by decide) (by decide) (by decide)).2.1 (by decide),
    by decide, by decide⟩

/-- Claim C24 fails as stated for a name that is not UTF-8 text: the string `t` of the
single byte `0xFF` is non-empty and contains neither `_` nor `=`, yet on the entry
`TOKEN_<t>_LIMIT=5` the `range` loop reads the byte as U+FFFD and `string(char)` appends
the three bytes `EF BF BD`, so the second part is not `t`; `loadTokenConfigs` then
registers the default policy under the token U+FFFD and nothing under `t`. -/
theorem ill_formed_name_is_replaced :
    ([255] : GoString) ≠ [] ∧ 95 ∉ ([255] : GoString) ∧ 61 ∉ ([255] : GoString) ∧
      parseTokenEnvVar (utf8 "TOKEN_" ++ [255] ++ utf8 "_LIMIT=5")
        = [utf8 "TOKEN", [239, 191, 189], utf8 "LIMIT"] ∧
      (loadTokenConfigs illFormedEnvironment defaultConfig).TokenConfigs [255] = none ∧
      (loadTokenConfigs illFormedEnvironment defaultConfig).TokenConfigs [239, 191, 189]
        = some ⟨100, 1000000000, 300000000000⟩ := by
  decide

end config

/-! ## C10: a count that has wrapped -/

namespace ratelimiter

/-- Claim C10 fails as stated for the in-process store, whose `Increment` does not always
return a count of at least 1: under the policy with limit 1, a window of one nanosecond
and block time 0, after `2^63 - 1` calls of one address at the reading 0 the counter
holds `2^63 - 1`; the `Increment` of the next call returns `-2^63`, the call is allowed,
the clamp `remaining < 0` is taken, and `Remaining` is 0 while `Limit - count` is
`2^63 + 1`. -/
theorem allowed_count_wraps_below_one :
    (((runCalls Unit (NewRateLimiter ⟨1, 1, 0⟩)
          (List.replicate 9223372036854775807 ⟨"192.168.1.1", "", 0⟩)
          NewMockStorage).2.Get 0 "blocked:ip:192.168.1.1").2.Increment 0
        "ip:192.168.1.1" 1).1 = -9223372036854775808 ∧
      (CheckLimit (NewRateLimiter ⟨1, 1, 0⟩) (mockStorage Unit 0) 0 "192.168.1.1" ""
          (runCalls Unit (NewRateLimiter ⟨1, 1, 0⟩)
            (List.replicate 9223372036854775807 ⟨"192.168.1.1", "", 0⟩)
            NewMockStorage).2).1
        = Except.ok ⟨true, 0, 1, LimitType.IPLimit, 1⟩ ∧
      wrapInt64 (1 - (-9223372036854775808)) < 0 ∧
      (0 : Int) ≠ 1 - (-9223372036854775808) := by
  have hrep : List.replicate 9223372036854775807 (⟨"192.168.1.1", "", 0⟩ : Call)
      = (⟨"192.168.1.1", "", 0⟩ : Call) ::
          List.replicate 9223372036854775806 (⟨"192.168.1.1", "", 0⟩ : Call) := by
    rw [← List.replicate_succ]
  have hcons : ∀ (c : Call) (cs : List Call) (s : MockStorage),
      (runCalls Unit (NewRateLimiter ⟨1, 1, 0⟩) (c :: cs) s).2
        = (runCalls Unit (NewRateLimiter ⟨1, 1, 0⟩) cs
              (CheckLimit (NewRateLimiter ⟨1, 1, 0⟩) (mockStorage Unit c.now) c.now c.ip
                c.token s).2).2 := fun _ _ _ => rfl
  have hr := runCalls_renew Unit (NewRateLimiter ⟨1, 1, 0⟩) ⟨"192.168.1.1", "", 0⟩
    9223372036854775806
    (CheckLimit (NewRateLimiter ⟨1, 1, 0⟩) (mockStorage Unit 0) 0 "192.168.1.1" ""
      NewMockStorage).2 1 1 (by decide) rfl rfl (by decide) (by decide) (by decide)
      (by decide) (by unfold maxInt64; norm_num)
  have hnum : (1 : Int) + ((9223372036854775806 : Nat) : Int) = maxInt64 := by
    unfold maxInt64; norm_num
  have hkey : subjectKey (NewRateLimiter ⟨1, 1, 0⟩) (Call.ip ⟨"192.168.1.1", "", 0⟩)
      (Call.token ⟨"192.168.1.1", "", 0⟩) = "ip:192.168.1.1" := by decide
  rw [hkey] at hr
  have hd := hr.2.1
  rw [hnum] at hd
  have hne : ("ip:192.168.1.1" : String) ≠ "blocked:ip:192.168.1.1" := by decide
  rw [hrep, hcons]
  dsimp only
  refine ⟨?_, ?_, by decide, by decide⟩
  · have hg := Get_frame (runCalls Unit (NewRateLimiter ⟨1, 1, 0⟩)
      (List.replicate 9223372036854775806 ⟨"192.168.1.1", "", 0⟩)
      (CheckLimit (NewRateLimiter ⟨1, 1, 0⟩) (mockStorage Unit 0) 0 "192.168.1.1" ""
        NewMockStorage).2).2 0 "blocked:ip:192.168.1.1" "ip:192.168.1.1" hne
    have hi := Increment_live _ 0 "ip:192.168.1.1" 1 maxInt64 1
      (by rw [hg.1]; exact hd) (by rw [hg.2]; exact hr.2.2.1) (by decide)
    rw [hi]
    decide
  · rw [CheckLimit_eq]
    exact checkLimitForKey_renew_wrap (ε := Unit) 0 "ip:192.168.1.1" ⟨1, 1, 0⟩
      LimitType.IPLimit _ 1 hd hr.2.2.1 (by decide) hr.2.2.2 (by decide) (by decide)

end ratelimiter
